import Mathlib

/-!
# ATS coordinator: time-step driver

A shallow embedding of `src/executables/coordinator.cc` (the top-level cycle
driver of ATS) together with the properties of its step loop.

Conventions of the embedding

* `double` values (times, step sizes) are rationals, so that every comparison
  and sum of the source is exact and computable.
* The process kernel (`pk_`), the step-size manager (`tsm_`) and the output
  targets are collaborators whose code is outside this file.  They are
  arguments of the model: a record of operations over an abstract state type.
  The process kernel acts on its own state only; the scalar times, the cycle
  and the field "dt" of the simulation state are written by the coordinator
  alone.
* Every call of a collaborator that acts (a step operation of the process
  kernel, a query of the step-size manager, an output) is appended to a trace
  (`World.trace`), in the order of the calls of the source.  Calls that only
  read (`pk_->get_dt()`, `DumpRequested`) are functions of the state they
  read.
* A C++ exception is the outcome `Outcome.raised`, which keeps the world at
  the point of the throw.
* Output that only prints (verbose streams, state statistics, memory report)
  is left out.
-/

namespace ATS

/-! ## The simulation state -/

/-- Tags of the state (Amanzi::Tags). -/
inductive Tag
  | DEFAULT
  | CURRENT
  | NEXT
deriving DecidableEq

/-- Modelled from the spec: the tag type of the state library is not under
src/.  The data model has two temporal slots, CURRENT and NEXT; the default
tag addresses the slot being computed, which is NEXT. -/
def Tag.slot : Tag → Tag
  | Tag.CURRENT => Tag.CURRENT
  | _ => Tag.NEXT

/-- Message of an exception (Errors::Message, thrown by
Exceptions::amanzi_throw). -/
structure Message where
  text : String
deriving DecidableEq

/-- A mesh registered in the state, with the two flags the coordinator
asks for. -/
structure Mesh where
  name : String
  deformable : Bool
  aliased : Bool
deriving DecidableEq

/-- Modelled from the spec: the class State is not under src/.  The scalar
part is SimulationTime (the time of the CURRENT and of the NEXT slot, and the
cycle) and the scalar field "dt"; `records` lists the declared (key, tag)
pairs of the other fields, `meshes` the registered meshes. -/
structure State where
  time_current : ℚ
  time_next : ℚ
  cycle : Int
  dt : ℚ
  meshes : List Mesh
  records : List (String × Tag)

namespace State

/-- S->get_time(tag). -/
def get_time (S : State) (tag : Tag) : ℚ :=
  match tag.slot with
  | Tag.CURRENT => S.time_current
  | _ => S.time_next

/-- S->set_time(tag, value). -/
def set_time (S : State) (tag : Tag) (value : ℚ) : State :=
  match tag.slot with
  | Tag.CURRENT => { S with time_current := value }
  | _ => { S with time_next := value }

/-- S->advance_time(tag, dt). -/
def advance_time (S : State) (tag : Tag) (dt : ℚ) : State :=
  S.set_time tag (S.get_time tag + dt)

/-- S->get_cycle(). -/
def get_cycle (S : State) : Int := S.cycle

/-- S->set_cycle(cycle). -/
def set_cycle (S : State) (cycle : Int) : State := { S with cycle := cycle }

/-- S->advance_cycle(). -/
def advance_cycle (S : State) : State := { S with cycle := S.cycle + 1 }

/-- S->Assign("dt", DEFAULT, "dt", dt). -/
def Assign_dt (S : State) (dt : ℚ) : State := { S with dt := dt }

/-- S->Require(key, tag, owner): declares a field. -/
def Require (S : State) (key : String) (tag : Tag) : State :=
  { S with records := S.records ++ [(key, tag.slot)] }

/-- Whether the field (key, tag) has been declared. -/
def HasRecord (S : State) (key : String) (tag : Tag) : Bool :=
  S.records.any (fun r => r.1 == key && decide (r.2.slot = tag.slot))

end State

/-! ## Trace of collaborator calls -/

/-- One call of a collaborator, with the arguments of the call. -/
inductive Event
  | pk_Setup
  | pk_Initialize
  | AdvanceStep (t_old t_new : ℚ) (reinit : Bool)
  | ValidStep
  | CommitStep (t_old t_new : ℚ) (tag : Tag)
  | FailStep (t_old t_new : ℚ) (tag : Tag)
  | CalculateDiagnostics (tag : Tag)
  | TimeStep (t dt : ℚ) (after_fail : Bool)
  | RegisterTimeEvent (t : ℚ)
  | RegisterVis (vis : Nat)
  | RegisterCheckpoint
  | RegisterObservation (obs : Nat)
  | RegisterRequiredTimes
  | ObservationSetup (obs : Nat)
  | MakeObservations (obs : Nat)
  | Flush (obs : Nat)
  | WriteVis (vis : Nat)
  | WriteFailedVis (vis : Nat)
  | WriteCheckpoint (filebasename : String) (final : Bool)
  | ReadCheckpointInitialTime
  | ReadCheckpoint
  | DeformCheckpointMesh (mesh : String)
  | InitializeFields
  | InitializeEvaluators
  | copyMeshCoordinatesToVector (mesh : String)
  | deform (mesh : String)
deriving DecidableEq

/-! ## Collaborators -/

/-- The process kernel (Amanzi::PK) over its own state σ.  The four step
operations may throw: they return a value or a message, and the state they
leave behind.  get_dt reads the preferred step size off the state. -/
structure PK (σ : Type) where
  Setup : σ → σ
  Initialize : σ → σ
  get_dt : σ → ℚ
  AdvanceStep : ℚ → ℚ → Bool → σ → Except Message Bool × σ
  ValidStep : σ → Except Message Bool × σ
  CommitStep : ℚ → ℚ → Tag → σ → Except Message Unit × σ
  FailStep : ℚ → ℚ → Tag → σ → Except Message Unit × σ
  CalculateDiagnostics : Tag → σ → σ

/-- The step-size manager (Amanzi::TimeStepManager) over its own state τ. -/
structure TimeStepManager (τ : Type) where
  RegisterTimeEvent : ℚ → τ → τ
  TimeStep : ℚ → ℚ → Bool → τ → ℚ × τ

/-- An output target (visualization, checkpoint, observation, required
times): when it asks for a dump, and what it registers with the step-size
manager. -/
structure IOEvent (τ : Type) where
  DumpRequested : Int → ℚ → Bool
  RegisterWithTimeStepManager : τ → τ

/-- Scalar content of a checkpoint file. -/
structure CheckpointData where
  time : ℚ
  cycle : Int
  dt : ℚ

/-- The members of Coordinator that do not change during a run: the options
read by read_parameter_list, the collaborators, and the inputs from outside
(the restart file, the wallclock as a function of the number of earlier
readings). -/
structure Coordinator (σ τ : Type) where
  t1_ : ℚ
  max_dt_ : ℚ
  min_dt_ : ℚ
  cycle1_ : Int
  duration_ : ℚ
  subcycled_ts_ : Bool
  restart_ : Bool
  restart_file : CheckpointData
  required_times : Option (IOEvent τ)
  pk_ : PK σ
  tsm_ : TimeStepManager τ
  observations_ : List (IOEvent τ)
  vis_list : List (IOEvent τ)
  failed_visualization_ : Nat
  checkpoint_ : IOEvent τ
  getKey : String → String → String
  totalElapsedTime : Nat → ℚ

/-- Everything a run changes: the state, the states of the process kernel
and of the step-size manager, the members t0_ and cycle0_, the visualization
targets, the file base name of the checkpoint, the number of wallclock
readings, and the trace. -/
structure World (σ τ : Type) where
  S : State
  pk : σ
  tsm : τ
  t0_ : ℚ
  cycle0_ : Int
  visualization_ : List (IOEvent τ)
  filebasename : String
  timer_reads : Nat
  trace : List Event

/-! ## Outcomes and sequencing -/

/-- Result of running a piece of the coordinator: a value, or a thrown
message; either way the world it leaves. -/
inductive Outcome (α W : Type)
  | ok (a : α) (w : W)
  | raised (e : Message) (w : W)

/-- The world an outcome leaves. -/
def Outcome.world {α W : Type} : Outcome α W → W
  | Outcome.ok _ w => w
  | Outcome.raised _ w => w

/-- A computation over the world that may throw. -/
def M (W α : Type) : Type := W → Outcome α W

instance instMonadM {W : Type} : Monad (M W) where
  pure a := fun w => Outcome.ok a w
  bind x f := fun w =>
    match x w with
    | Outcome.ok a w1 => f a w1
    | Outcome.raised e w1 => Outcome.raised e w1

/-- Exceptions::amanzi_throw(message). -/
def amanzi_throw {W α : Type} (e : Message) : M W α := fun w => Outcome.raised e w

/-- Read the world. -/
def getW {W : Type} : M W W := fun w => Outcome.ok w w

/-- Change the world. -/
def modifyW {W : Type} (f : W → W) : M W Unit := fun w => Outcome.ok () (f w)

/-- A range-based for loop over a list. -/
def forEach {W β : Type} (f : β → M W Unit) : List β → M W Unit
  | [] => pure ()
  | b :: bs => do f b; forEach f bs

/-! ## Coordinator operations -/

section Operations

variable {σ τ : Type}

/-- Append a collaborator call to the trace. -/
def emit (e : Event) : M (World σ τ) Unit :=
  modifyW fun w => { w with trace := w.trace ++ [e] }

/-- Apply a state function to the simulation state. -/
def modifyS (f : State → State) : M (World σ τ) Unit :=
  modifyW fun w => { w with S := f w.S }

/-- Run a step operation of the process kernel: the kernel state is
replaced, a thrown message propagates. -/
def pk_call {α : Type} (op : σ → Except Message α × σ) : M (World σ τ) α :=
  fun w =>
    match op w.pk with
    | (Except.ok a, s) => Outcome.ok a { w with pk := s }
    | (Except.error e, s) => Outcome.raised e { w with pk := s }

/-- S->GetPtr(key, tag): reading an undeclared field throws. -/
def GetPtr (key : String) (tag : Tag) : M (World σ τ) Unit := do
  let w ← getW
  if w.S.HasRecord key tag then pure ()
  else amanzi_throw ⟨"State: field not found: " ++ key⟩

/-- The smaller of two values, as std::min(a, b). -/
def std_min (a b : ℚ) : ℚ := if b < a then b else a

namespace Coordinator

/-- Coordinator::get_dt(after_fail): acquire the chosen timestep size. -/
def get_dt (c : Coordinator σ τ) (after_fail : Bool) : M (World σ τ) ℚ := do
  -- get the physical step size
  let w ← getW
  let dt := c.pk_.get_dt w.pk
  let dt_pk := dt
  if dt < 0 then return dt
  -- check if the step size has gotten too small
  if dt < c.min_dt_ then
    amanzi_throw ⟨"Coordinator: error, timestep too small"⟩
  -- cap the max step size
  let dt := if dt > c.max_dt_ then c.max_dt_ else dt
  -- ask the step manager if this step is ok
  let t := w.S.get_time Tag.NEXT
  emit (Event.TimeStep t dt after_fail)
  let r := c.tsm_.TimeStep t dt after_fail w.tsm
  modifyW fun w => { w with tsm := r.2 }
  let dt := r.1
  let dt := if c.subcycled_ts_ then std_min dt dt_pk else dt
  return dt

/-- The recovery of the mesh coordinates in the failure branch of
Coordinator::advance, for one mesh. -/
def recover_mesh (c : Coordinator σ τ) (mesh : Mesh) : M (World σ τ) Unit := do
  if mesh.deformable && !mesh.aliased then
    -- collect the old coordinates
    let node_key := c.getKey mesh.name "vertex_cooordinates"
    GetPtr node_key Tag.DEFAULT
    -- undeform the mesh
    emit (Event.deform mesh.name)

/-- Coordinator::advance(): one trial step of the process kernel; returns
whether it failed. -/
def advance (c : Coordinator σ τ) : M (World σ τ) Bool := do
  let w ← getW
  let t_old := w.S.get_time Tag.CURRENT
  let t_new := w.S.get_time Tag.NEXT
  emit (Event.AdvanceStep t_old t_new false)
  let fail ← pk_call (c.pk_.AdvanceStep t_old t_new false)
  let fail ←
    if !fail then do
      emit Event.ValidStep
      let valid ← pk_call c.pk_.ValidStep
      pure (fail || !valid)
    else pure fail
  if !fail then
    -- commit the state, copying NEXT --> CURRENT
    emit (Event.CommitStep t_old t_new Tag.NEXT)
    pk_call (c.pk_.CommitStep t_old t_new Tag.NEXT)
  else
    -- potentially write out failed timestep for debugging
    forEach (fun i => emit (Event.WriteFailedVis i)) (List.range c.failed_visualization_)
    -- copy from old time into new time to reset the timestep
    emit (Event.FailStep t_old t_new Tag.NEXT)
    pk_call (c.pk_.FailStep t_old t_new Tag.NEXT)
    -- check whether meshes are deformable, and if so, recover the old coordinates
    forEach (recover_mesh c) w.S.meshes
  return fail

/-- The flag `dump` of Coordinator::visualize after its first loop. -/
def dump_requested (force : Bool) (cycle : Int) (time : ℚ) (vis : List (IOEvent τ)) : Bool :=
  if !force then vis.foldl (fun dump v => dump || v.DumpRequested cycle time) force
  else force

/-- Coordinator::visualize(force). -/
def visualize (c : Coordinator σ τ) (force : Bool) : M (World σ τ) Unit := do
  let w ← getW
  let cycle := w.S.get_cycle
  let time := w.S.get_time Tag.DEFAULT
  let dump := dump_requested force cycle time w.visualization_
  if dump then
    emit (Event.CalculateDiagnostics Tag.NEXT)
    modifyW fun w => { w with pk := c.pk_.CalculateDiagnostics Tag.NEXT w.pk }
  forEach (fun (iv : Nat × IOEvent τ) =>
      if force || iv.2.DumpRequested cycle time then emit (Event.WriteVis iv.1) else pure ())
    w.visualization_.enum

/-- Coordinator::checkpoint(force). -/
def checkpoint (c : Coordinator σ τ) (force : Bool) : M (World σ τ) Unit := do
  let w ← getW
  let cycle := w.S.get_cycle
  let time := w.S.get_time Tag.DEFAULT
  if force || c.checkpoint_.DumpRequested cycle time then
    emit (Event.WriteCheckpoint w.filebasename false)

/-- Coordinator::setup(). -/
def setup (c : Coordinator σ τ) : M (World σ τ) Unit := do
  -- common constants
  modifyS fun S => S.Require "atmospheric_pressure" Tag.DEFAULT
  modifyS fun S => S.Require "gravity" Tag.DEFAULT
  -- order matters here -- PKs set the leaves, then observations can use those
  emit Event.pk_Setup
  modifyW fun w => { w with pk := c.pk_.Setup w.pk }
  forEach (fun i => emit (Event.ObservationSetup i)) (List.range c.observations_.length)

/-- The body of the loop of Coordinator::initialize that fills the vertex
coordinates of one mesh. -/
def init_vertex_coordinates (c : Coordinator σ τ) (mesh : Mesh) : M (World σ τ) Unit := do
  if mesh.deformable && !mesh.aliased then
    let node_key := c.getKey mesh.name "vertex_coordinates"
    GetPtr node_key Tag.NEXT
    emit (Event.copyMeshCoordinatesToVector mesh.name)

/-- ReadCheckpoint(comm, S, filename): load the data of the checkpoint into
the state. -/
def ReadCheckpoint (data : CheckpointData) (S : State) : State :=
  { S.set_time Tag.DEFAULT data.time with cycle := data.cycle, dt := data.dt }

/-- Register one output target with the step-size manager. -/
def register (e : Event) (target : IOEvent τ) : M (World σ τ) Unit := do
  emit e
  modifyW fun w => { w with tsm := target.RegisterWithTimeStepManager w.tsm }

/-- Coordinator::initialize(). -/
def initialize_ (c : Coordinator σ τ) : M (World σ τ) Unit := do
  let w ← getW
  modifyS fun S => S.set_time Tag.CURRENT w.t0_
  modifyS fun S => S.set_time Tag.NEXT w.t0_
  modifyS fun S => S.set_cycle w.cycle0_
  -- Restart from checkpoint part 1:
  --  - get the time prior to initializing anything else
  if c.restart_ then
    emit Event.ReadCheckpointInitialTime
    let t_restart := c.restart_file.time
    modifyS fun S => S.set_time Tag.CURRENT t_restart
    modifyS fun S => S.set_time Tag.NEXT t_restart
    modifyW fun w => { w with t0_ := t_restart }
  -- Initialize the state
  emit Event.InitializeFields
  -- Initialize the process kernels
  emit Event.pk_Initialize
  modifyW fun w => { w with pk := c.pk_.Initialize w.pk }
  -- calling CommitStep to set up copies as needed
  let w ← getW
  emit (Event.CommitStep w.t0_ w.t0_ Tag.NEXT)
  pk_call (c.pk_.CommitStep w.t0_ w.t0_ Tag.NEXT)
  -- initialize vertex coordinate data
  forEach (init_vertex_coordinates c) w.S.meshes
  -- Restart from checkpoint part 2:
  -- -- load all other data
  if c.restart_ then
    emit Event.ReadCheckpoint
    modifyS (ReadCheckpoint c.restart_file)
    modifyW fun w => { w with t0_ := w.S.get_time Tag.DEFAULT }
    modifyW fun w => { w with cycle0_ := w.S.get_cycle }
    let w ← getW
    modifyS fun S => S.set_time Tag.CURRENT w.t0_
    modifyS fun S => S.set_time Tag.NEXT w.t0_
    forEach (fun (mesh : Mesh) =>
        if mesh.deformable then emit (Event.DeformCheckpointMesh mesh.name) else pure ())
      w.S.meshes
  -- Final checks.
  emit Event.InitializeEvaluators
  -- commit the initial conditions.
  let w ← getW
  emit (Event.CommitStep (w.S.get_time Tag.DEFAULT) (w.S.get_time Tag.DEFAULT) Tag.NEXT)
  pk_call (c.pk_.CommitStep (w.S.get_time Tag.DEFAULT) (w.S.get_time Tag.DEFAULT) Tag.NEXT)
  -- Set up visualization
  modifyW fun w => { w with visualization_ := c.vis_list }
  -- make observations at time 0
  forEach (fun i => emit (Event.MakeObservations i)) (List.range c.observations_.length)
  -- set up the TSM
  -- -- register visualization times
  forEach (fun (iv : Nat × IOEvent τ) => register (Event.RegisterVis iv.1) iv.2) c.vis_list.enum
  -- -- register checkpoint times
  register Event.RegisterCheckpoint c.checkpoint_
  -- -- register observation times
  forEach (fun (io : Nat × IOEvent τ) => register (Event.RegisterObservation io.1) io.2)
    c.observations_.enum
  -- -- register the final time
  emit (Event.RegisterTimeEvent c.t1_)
  modifyW fun w => { w with tsm := c.tsm_.RegisterTimeEvent c.t1_ w.tsm }
  -- -- register any intermediate requested times
  match c.required_times with
  | some pause_times => register Event.RegisterRequiredTimes pause_times
  | none => pure ()
  -- -- advance cycle to 0 and begin
  let w ← getW
  if w.S.get_cycle == -1 then modifyS fun S => S.advance_cycle

/-- Coordinator::finalize(). -/
def finalize (c : Coordinator σ τ) : M (World σ τ) Unit := do
  -- Force checkpoint at the end of simulation
  emit (Event.CalculateDiagnostics Tag.NEXT)
  modifyW fun w => { w with pk := c.pk_.CalculateDiagnostics Tag.NEXT w.pk }
  let w ← getW
  emit (Event.WriteCheckpoint w.filebasename true)
  -- flush observations to make sure they are saved
  forEach (fun i => emit (Event.Flush i)) (List.range c.observations_.length)

/-- AMANZI_ASSERT(condition): a failed assertion stops the run. -/
def AMANZI_ASSERT (condition : Bool) : M (World σ τ) Unit :=
  if condition then pure () else amanzi_throw ⟨"AMANZI_ASSERT"⟩

/-- The condition of the while loop of Coordinator::cycle_driver, evaluated
from left to right; the wallclock is read only when the tests before it
hold and a duration is configured. -/
def loop_condition (c : Coordinator σ τ) (dt : ℚ) : M (World σ τ) Bool := do
  let w ← getW
  if !(decide (c.t1_ < 0) || decide (w.S.get_time Tag.DEFAULT < c.t1_)) then return false
  if !(c.cycle1_ == -1 || decide (w.S.get_cycle ≤ c.cycle1_)) then return false
  let in_time ←
    if c.duration_ < 0 then pure true
    else do
      modifyW fun w => { w with timer_reads := w.timer_reads + 1 }
      pure (decide (c.totalElapsedTime w.timer_reads < c.duration_ * 3600))
  if !in_time then return false
  return decide (dt > 0)

/-- The trial step of one iteration of the main loop (from the assignment of
"dt" to the checkpoint after an accepted step); returns whether it failed. -/
def trial_step (c : Coordinator σ τ) (dt : ℚ) : M (World σ τ) Bool := do
  modifyS fun S => S.Assign_dt dt
  modifyS fun S => S.advance_time Tag.NEXT dt
  let fail ← advance c
  if fail then
    -- reset t_new
    modifyS fun S => S.set_time Tag.NEXT (S.get_time Tag.CURRENT)
  else
    modifyS fun S => S.set_time Tag.CURRENT (S.get_time Tag.NEXT)
    modifyS fun S => S.advance_cycle
    -- make observations, vis, and checkpoints
    forEach (fun i => emit (Event.MakeObservations i)) (List.range c.observations_.length)
    visualize c false
    checkpoint c false
  return fail

/-- One iteration of the main loop: the trial step, then the step size of
the next iteration. -/
def loop_body (c : Coordinator σ τ) (dt : ℚ) : M (World σ τ) ℚ := do
  let fail ← trial_step c dt
  get_dt c fail

/-- The while loop of Coordinator::cycle_driver.  The first argument bounds
the number of iterations; `none` means that the bound was reached. -/
def main_loop (c : Coordinator σ τ) :
    Nat → ℚ → World σ τ → Option (Outcome Unit (World σ τ))
  | 0, _, _ => none
  | fuel + 1, dt, w =>
    match loop_condition c dt w with
    | Outcome.ok true w1 =>
      match loop_body c dt w1 with
      | Outcome.ok dt2 w2 => main_loop c fuel dt2 w2
      | Outcome.raised e w2 => some (Outcome.raised e w2)
    | Outcome.ok false w1 => some (Outcome.ok () w1)
    | Outcome.raised e w1 => some (Outcome.raised e w1)

/-- The value of the macro DEBUG_MODE. -/
def DEBUG_MODE : Nat := 1

/-- The catch block of Coordinator::cycle_driver. -/
def error_handler (c : Coordinator σ τ) (e : Message) : M (World σ τ) Unit := do
  -- write one more vis for help debugging
  modifyS fun S => S.advance_cycle
  visualize c true
  -- flush observations to make sure they are saved
  forEach (fun i => emit (Event.Flush i)) (List.range c.observations_.length)
  -- dump two checkpoints
  modifyW fun w => { w with filebasename := "last_good_checkpoint" }
  let w ← getW
  emit (Event.WriteCheckpoint w.filebasename false)
  modifyW fun w => { w with filebasename := "error_checkpoint" }
  let w ← getW
  emit (Event.WriteCheckpoint w.filebasename false)
  amanzi_throw e

/-- The main loop as compiled for a value of DEBUG_MODE: the try and catch
around it exist only when DEBUG_MODE is 0. -/
def guarded_loop (debug_mode : Nat) (c : Coordinator σ τ) (fuel : Nat) (dt : ℚ)
    (w : World σ τ) : Option (Outcome Unit (World σ τ)) :=
  if debug_mode = 0 then
    match main_loop c fuel dt w with
    | some (Outcome.raised e w1) => some (error_handler c e w1)
    | r => r
  else main_loop c fuel dt w

/-- Coordinator::cycle_driver() up to the main loop; returns the step size
the loop starts with. -/
def cycle_driver_start (c : Coordinator σ τ) : M (World σ τ) ℚ := do
  -- start at time t = t0 and initialize the state.
  setup c
  initialize_ c
  -- get the intial timestep
  let dt ← get_dt c false
  if !c.restart_ then
    modifyS fun S => S.Assign_dt dt
  -- visualization at IC
  visualize c false
  checkpoint c false
  -- Make sure times are set up correctly
  let w ← getW
  AMANZI_ASSERT (decide (|w.S.get_time Tag.NEXT - w.S.get_time Tag.CURRENT| < 1 / 10000))
  return w.S.dt

/-- Coordinator::cycle_driver() for a value of DEBUG_MODE. -/
def cycle_driver_with (debug_mode : Nat) (c : Coordinator σ τ) (fuel : Nat)
    (w : World σ τ) : Option (Outcome Unit (World σ τ)) :=
  match cycle_driver_start c w with
  | Outcome.raised e w1 => some (Outcome.raised e w1)
  | Outcome.ok dt w1 =>
    match guarded_loop debug_mode c fuel dt w1 with
    | some (Outcome.ok _ w2) => some (finalize c w2)
    | r => r

/-- Coordinator::cycle_driver(): the timestep loop. -/
def cycle_driver (c : Coordinator σ τ) (fuel : Nat) (w : World σ τ) :
    Option (Outcome Unit (World σ τ)) :=
  cycle_driver_with DEBUG_MODE c fuel w

end Coordinator

end Operations

/-! ## Scenarios -/

namespace Scenario

/-- The process of the scenarios.  Its state counts the calls of AdvanceStep
and holds the preferred step size.  The call number `fail_at` of AdvanceStep
reports failure (none does when `fail_at` is 0); `shrink` is the factor
applied to the preferred step size by FailStep. -/
def process (fail_at : Nat) (shrink : ℚ) : PK (Nat × ℚ) where
  Setup := fun s => s
  Initialize := fun s => s
  get_dt := fun s => s.2
  AdvanceStep := fun _ _ _ s => (Except.ok (decide (s.1 + 1 = fail_at)), (s.1 + 1, s.2))
  ValidStep := fun s => (Except.ok true, s)
  CommitStep := fun _ _ _ s => (Except.ok (), s)
  FailStep := fun _ _ _ s => (Except.ok (), (s.1, shrink * s.2))
  CalculateDiagnostics := fun _ s => s

/-- A step-size manager that records the registered instants and returns
the proposed step unchanged. -/
def passthrough : TimeStepManager (List ℚ) where
  RegisterTimeEvent := fun t s => s ++ [t]
  TimeStep := fun _ dt _ s => (dt, s)

/-- An output target that never asks for a dump and registers nothing. -/
def silent : IOEvent (List ℚ) where
  DumpRequested := fun _ _ => false
  RegisterWithTimeStepManager := fun s => s

/-- The coordinator of Scenario A: end time 100, default end cycle and
default min/max step size, no wallclock budget, no restart. -/
def coordinator (fail_at : Nat) (shrink : ℚ) : Coordinator (Nat × ℚ) (List ℚ) where
  t1_ := 100
  max_dt_ := 10 ^ 99
  min_dt_ := 1 / 10 ^ 12
  cycle1_ := -1
  duration_ := -1
  subcycled_ts_ := false
  restart_ := false
  restart_file := ⟨0, 0, 0⟩
  required_times := none
  pk_ := process fail_at shrink
  tsm_ := passthrough
  observations_ := []
  vis_list := []
  failed_visualization_ := 0
  checkpoint_ := silent
  getKey := fun domain name => domain ++ "-" ++ name
  totalElapsedTime := fun _ => 0

/-- The world before cycle_driver: start time 0, default start cycle, a
process that prefers the step size 10. -/
def world0 : World (Nat × ℚ) (List ℚ) where
  S := ⟨0, 0, 0, 0, [], []⟩
  pk := (0, 10)
  tsm := []
  t0_ := 0
  cycle0_ := -1
  visualization_ := []
  filebasename := "checkpoint"
  timer_reads := 0
  trace := []

end Scenario

/-! ## Reading the trace -/

namespace Event

/-- Calls of AdvanceStep. -/
def isAdvanceStep : Event → Bool
  | AdvanceStep _ _ _ => true
  | _ => false

/-- Calls of CommitStep. -/
def isCommitStep : Event → Bool
  | CommitStep _ _ _ => true
  | _ => false

/-- Calls of FailStep. -/
def isFailStep : Event → Bool
  | FailStep _ _ _ => true
  | _ => false

/-- Queries of the step-size manager. -/
def isTimeStep : Event → Bool
  | TimeStep _ _ _ => true
  | _ => false

/-- Calls that write a visualization file. -/
def isWriteVis : Event → Bool
  | WriteVis _ => true
  | _ => false

/-- Calls that flush an observation target. -/
def isFlush : Event → Bool
  | Flush _ => true
  | _ => false

/-- Calls that write a checkpoint. -/
def isWriteCheckpoint : Event → Bool
  | WriteCheckpoint _ _ => true
  | _ => false

/-- Calls of the mesh recovery of a failed step. -/
def isDeform : Event → Bool
  | deform _ => true
  | _ => false

/-- Calls that write the visualization of a failed step. -/
def isWriteFailedVis : Event → Bool
  | WriteFailedVis _ => true
  | _ => false

end Event

/-! ## PKPhysicalBDFBase: the convergence metric

`src/pks/pk_physical_bdf_base.cc`.  The vectors u and du live on the same
space (the time integrator creates both from the solution), so the model
keeps them entry by entry: a component is the list of the pairs (u_i, du_i)
for id = 0, 1, ..., size - 1.  An entry of du is a rational or NaN (`none`);
the entries of u and the tolerances are rationals, and `abs` is the absolute
value. -/

/-- The entries of plist_ that PKPhysicalBDFBase::setup reads; `none` is an
entry that is absent from the list. -/
structure BDFList where
  absolute_error_tolerance : Option ℚ
  relative_error_tolerance : Option ℚ
  adapt_tolerances_to_timestep : Option Bool
  cutoff_timestep_for_adaptive_tolerance : Option ℚ

/-- The members of PKPhysicalBDFBase that setup and enorm use. -/
structure PKPhysicalBDFBase where
  atol_ : ℚ
  rtol_ : ℚ
  atol0_ : ℚ
  rtol0_ : ℚ
  min_tol_h_ : ℚ
  adapt_tols_to_h_ : Bool

/-- One component of the pair of vectors (u, du): its name and, for every
id, the entries u(comp, id) and du(comp, id). -/
structure Component where
  name : String
  entries : List (ℚ × Option ℚ)

/-- The larger of two values, as std::max(a, b). -/
def std_max (a b : ℚ) : ℚ := if a < b then b else a

/-- MPI_Allreduce with MPI_MAX: `others` are the values of the other
workers, none on a single worker. -/
def MPI_Allreduce_MAX (buf : ℚ) (others : List ℚ) : ℚ := others.foldl max buf

namespace PKPhysicalBDFBase

/-- PKPhysicalBDFBase::setup: the convergence criteria.  The default handed
to get<bool> for "adapt tolerances to timestep" is the string literal
"false", a pointer that is not null, which converts to the bool `true`. -/
def setup (pk : PKPhysicalBDFBase) (plist : BDFList) : PKPhysicalBDFBase :=
  -- convergence criteria
  let pk := { pk with atol_ := plist.absolute_error_tolerance.getD 1 }
  let pk := { pk with rtol_ := plist.relative_error_tolerance.getD 1 }
  -- adapt the tolerances to fit the timestep
  let pk := { pk with adapt_tols_to_h_ := plist.adapt_tolerances_to_timestep.getD true }
  if pk.adapt_tols_to_h_ then
    { pk with
      atol0_ := pk.atol_,
      rtol0_ := pk.rtol_,
      min_tol_h_ := plist.cutoff_timestep_for_adaptive_tolerance.getD 100 }
  else pk

/-- The loop of enorm over the entries of one component; the accumulator is
(enorm_comp, infnorm_comp). -/
def enorm_entries (atol rtol : ℚ) : List (ℚ × Option ℚ) → ℚ × ℚ → Except Message (ℚ × ℚ)
  | [], acc => Except.ok acc
  | (_, none) :: _, _ => Except.error ⟨"Cut time step"⟩
  | (u, some du) :: rest, acc =>
    let tmp := |du| / (atol + rtol * |u|)
    enorm_entries atol rtol rest (std_max acc.1 tmp, std_max acc.2 |du|)

/-- The loop of enorm over the components; the accumulator is enorm_val. -/
def enorm_components (atol rtol : ℚ) : List Component → ℚ → Except Message ℚ
  | [], enorm_val => Except.ok enorm_val
  | comp :: rest, enorm_val =>
    match enorm_entries atol rtol comp.entries (0, 0) with
    | Except.error e => Except.error e
    | Except.ok acc => enorm_components atol rtol rest (std_max enorm_val acc.1)

/-- PKPhysicalBDFBase::enorm(u, du), called when the NEXT state has time
`t_next` and the intermediate state has time `t_inter`: the value or the
thrown message, and the members after the call. -/
def enorm (pk : PKPhysicalBDFBase) (t_next t_inter : ℚ) (vec : List Component)
    (others : List ℚ) : Except Message ℚ × PKPhysicalBDFBase :=
  -- adapt tolerances if needed
  let pk :=
    if pk.adapt_tols_to_h_ then
      let h := t_next - t_inter
      { pk with atol_ := pk.atol0_ / h, rtol_ := pk.rtol0_ / h }
    else pk
  match enorm_components pk.atol_ pk.rtol_ vec 0 with
  | Except.error e => (Except.error e, pk)
  | Except.ok enorm_val => (Except.ok (MPI_Allreduce_MAX enorm_val others), pk)

end PKPhysicalBDFBase

/-! ## Radiation evaluators: EnsureCompatibility_ToDeps_

`canopy_radiation_evaluator.cc` and `radiation_balance_evaluator.cc`.  The
helper getLandCover and the type of the land-cover table it returns are not
in these files; they are arguments of the model. -/

/-- A requirement on a field, as declared by
S.Require<CompositeVector, CompositeVectorSpace>(key, tag)
.SetMesh(S.GetMesh(domain))->SetGhosted(ghosted)->AddComponent(component,
entity, ndofs). -/
structure Requirement where
  key : String
  tag : Tag
  domain : String
  ghosted : Bool
  component : String
  entity : String
  ndofs : Nat
deriving DecidableEq

/-- Modelled from the spec: the class State is not under src/.  This is the
part of the state the two functions use: the "land cover types" sublist of
the initial-conditions list, of type ι, and the requirements declared so
far. -/
structure RequireState (ι : Type) where
  land_cover_types : ι
  requirements : List Requirement

/-- Modelled from the spec: Require(key, tag, shape) declares a field. -/
def RequireState.Require {ι : Type} (S : RequireState ι) (r : Requirement) : RequireState ι :=
  { S with requirements := S.requirements ++ [r] }

/-- The members of CanopyRadiationEvaluator that EnsureCompatibility_ToDeps_
uses; Λ is the type of the land-cover table. -/
structure CanopyRadiationEvaluator (Λ : Type) where
  compatible_ : Bool
  land_cover_ : Λ
  dependencies_ : List (String × Tag)
  domain_canopy_ : String

/-- The members of RadiationBalanceEvaluator that
EnsureCompatibility_ToDeps_ uses. -/
structure RadiationBalanceEvaluator (Λ : Type) where
  compatible_ : Bool
  land_cover_ : Λ
  dependencies_ : List (String × Tag)
  domain_surf_ : String
  albedo_surf_key_ : String
  emissivity_surf_key_ : String
  area_frac_key_ : String

/-- CanopyRadiationEvaluator::EnsureCompatibility_ToDeps_(S), on the pair of
the evaluator and the state. -/
def CanopyRadiationEvaluator.EnsureCompatibility_ToDeps_ {ι Λ : Type}
    (getLandCover : ι → List String → Except Message Λ) :
    M (CanopyRadiationEvaluator Λ × RequireState ι) Unit := fun x =>
  if !x.1.compatible_ then
    match getLandCover x.2.land_cover_types
        ["beers_k_lw", "beers_k_sw", "emissivity_canopy", "albedo_canopy"] with
    | Except.error e => Outcome.raised e x
    | Except.ok land_cover =>
      Outcome.ok ()
        ({ x.1 with land_cover_ := land_cover, compatible_ := true },
          x.1.dependencies_.foldl
            (fun S dep => S.Require ⟨dep.1, dep.2, x.1.domain_canopy_, false, "cell", "CELL", 1⟩)
            x.2)
  else Outcome.ok () x

/-- RadiationBalanceEvaluator::EnsureCompatibility_ToDeps_(S), on the pair
of the evaluator and the state. -/
def RadiationBalanceEvaluator.EnsureCompatibility_ToDeps_ {ι Λ : Type}
    (getLandCover : ι → List String → Except Message Λ) :
    M (RadiationBalanceEvaluator Λ × RequireState ι) Unit := fun x =>
  if !x.1.compatible_ then
    match getLandCover x.2.land_cover_types
        ["beers_law_lw", "beers_law_sw", "emissivity_canopy", "albedo_canopy"] with
    | Except.error e => Outcome.raised e x
    | Except.ok land_cover =>
      Outcome.ok ()
        ({ x.1 with land_cover_ := land_cover, compatible_ := true },
          x.1.dependencies_.foldl
            (fun S dep =>
              -- dependencies on same mesh, but some have two
              if dep.1 = x.1.albedo_surf_key_ ∨ dep.1 = x.1.emissivity_surf_key_ ∨
                  dep.1 = x.1.area_frac_key_ then
                S.Require ⟨dep.1, dep.2, x.1.domain_surf_, false, "cell", "CELL", 2⟩
              else
                S.Require ⟨dep.1, dep.2, x.1.domain_surf_, false, "cell", "CELL", 1⟩)
            x.2)
  else Outcome.ok () x

/-! ## Construction of the Coordinator

`Coordinator::coordinator_init` and `Coordinator::read_parameter_list` of
`coordinator.cc`.  The parameter list is given by the entries the two
functions read; the unit conversion (Amanzi::Utils::Units) and the key
helper are arguments.  Creating a collaborator (the process by the factory,
the checkpoint, an observation, the region analysis, the step-size manager)
is recorded and does not throw. -/

/-- The entries of the sublist "cycle driver"; `none` is an absent entry,
`PK_tree` lists the names of the entries of the sublist "PK tree". -/
structure CycleDriverList where
  start_time : Option ℚ
  start_time_units : Option String
  end_time : Option ℚ
  end_time_units : Option String
  max_time_step_size : Option ℚ
  min_time_step_size : Option ℚ
  start_cycle : Option Int
  end_cycle : Option Int
  wallclock_duration : Option ℚ
  subcycled_timestep : Option Bool
  restart_from_checkpoint_file : Option String
  PK_tree : List String

/-- The global parameter list: the "cycle driver" sublist, the entries of
the "observations" list with the answer of isSublist, and whether there is
an "analysis" sublist. -/
structure ParameterList where
  cycle_driver : CycleDriverList
  observations : List (String × Bool)
  analysis : Bool

/-- The operations of Amanzi::Utils::Units that read_parameter_list
uses. -/
structure Units where
  IsValidTime : String → Bool
  ConvertTime : ℚ → String → String → ℚ
  ValidTimeStrings : String

/-- A collaborator created by coordinator_init. -/
inductive Created
  | TreeVector
  | PK (pk_name : String)
  | Checkpoint
  | UnstructuredObservations (name : String)
  | InputAnalysis (mesh : String)
  | TimeStepManager
deriving DecidableEq

/-- The object under construction: the state, the members set by
read_parameter_list, and the collaborators created so far. -/
structure Construction where
  S : State
  t0_ : ℚ
  t1_ : ℚ
  max_dt_ : ℚ
  min_dt_ : ℚ
  cycle0_ : Int
  cycle1_ : Int
  duration_ : ℚ
  subcycled_ts_ : Bool
  restart_ : Bool
  restart_filename_ : String
  created : List Created

namespace Coordinator

/-- Record the creation of a collaborator. -/
def create (x : Created) : M Construction Unit :=
  modifyW fun k => { k with created := k.created ++ [x] }

/-- Coordinator::read_parameter_list().  An entry read without a default
must be present. -/
def read_parameter_list (units : Units) (list : CycleDriverList) : M Construction Unit := do
  let t0 ← match list.start_time with
    | some t => pure t
    | none => amanzi_throw ⟨"The parameter start time does not exist"⟩
  let t0_units := list.start_time_units.getD "s"
  if !units.IsValidTime t0_units then
    amanzi_throw ⟨"Coordinator start time: unknown time units type: \"" ++ t0_units ++
      "\"  Valid are: " ++ units.ValidTimeStrings⟩
  modifyW fun k => { k with t0_ := units.ConvertTime t0 t0_units "s" }
  let t1 ← match list.end_time with
    | some t => pure t
    | none => amanzi_throw ⟨"The parameter end time does not exist"⟩
  let t1_units := list.end_time_units.getD "s"
  if !units.IsValidTime t1_units then
    amanzi_throw ⟨"Coordinator end time: unknown time units type: \"" ++ t1_units ++
      "\"  Valid are: " ++ units.ValidTimeStrings⟩
  modifyW fun k => { k with t1_ := units.ConvertTime t1 t1_units "s" }
  modifyW fun k => { k with max_dt_ := list.max_time_step_size.getD (10 ^ 99) }
  modifyW fun k => { k with min_dt_ := list.min_time_step_size.getD (1 / 10 ^ 12) }
  modifyW fun k => { k with cycle0_ := list.start_cycle.getD (-1) }
  modifyW fun k => { k with cycle1_ := list.end_cycle.getD (-1) }
  modifyW fun k => { k with duration_ := list.wallclock_duration.getD (-1) }
  modifyW fun k => { k with subcycled_ts_ := list.subcycled_timestep.getD false }
  -- restart control
  modifyW fun k => { k with restart_ := list.restart_from_checkpoint_file.isSome }
  match list.restart_from_checkpoint_file with
  | some filename => modifyW fun k => { k with restart_filename_ := filename }
  | none => pure ()

/-- The body of the loop of coordinator_init over the entries of the
"observations" list. -/
def create_observation (entry : String × Bool) : M Construction Unit :=
  if entry.2 then create (Created.UnstructuredObservations entry.1)
  else amanzi_throw ⟨"\"observations\" list must only include sublists."⟩

/-- The body of the loop of coordinator_init over the meshes. -/
def init_mesh (getKey : String → String → String) (analysis : Bool) (mesh : Mesh) :
    M Construction Unit := do
  if mesh.deformable && !mesh.aliased then
    let node_key := getKey mesh.name "vertex_coordinates"
    modifyW fun k => { k with S := k.S.Require node_key Tag.NEXT }
  -- writes region information
  if analysis then
    create (Created.InputAnalysis mesh.name)

/-- Coordinator::coordinator_init(). -/
def coordinator_init (units : Units) (getKey : String → String → String)
    (parameter_list : ParameterList) : M Construction Unit := do
  read_parameter_list units parameter_list.cycle_driver
  -- create the top level PK
  let pk_tree_list := parameter_list.cycle_driver.PK_tree
  if pk_tree_list.length ≠ 1 then
    amanzi_throw ⟨"CycleDriver: PK tree list should contain exactly one root node list"⟩
  let pk_name := pk_tree_list.headD ""
  -- create the solution
  create Created.TreeVector
  -- create the pk
  create (Created.PK pk_name)
  -- create the checkpointing
  create Created.Checkpoint
  -- create the observations
  forEach create_observation parameter_list.observations
  let k ← getW
  forEach (init_mesh getKey parameter_list.analysis) k.S.meshes
  -- create the time step manager
  create Created.TimeStepManager

end Coordinator

/-! ## Radiation evaluators: Evaluate_ and the partial derivatives

`canopy_radiation_evaluator.cc`, `radiation_balance_evaluator.cc` and
`lake_evaporation_rate_evaluator.cc`.  The helpers Relations::BeersLaw and
Relations::OutgoingLongwaveRadiation and the mesh are not in these files;
they are arguments of the model.  A view `ViewComponent("cell", false)` is
the function from the cell to the entry `[0][c]`; the vector `results` is
the function from the index to the view. -/

/-- The parameters of one land-cover type that
CanopyRadiationEvaluator::Evaluate_ reads. -/
structure LandCover where
  beers_k_sw : ℚ
  beers_k_lw : ℚ
  emissivity_canopy : ℚ
  albedo_canopy : ℚ

/-- The views that CanopyRadiationEvaluator::Evaluate_ reads from the state:
the fields of the keys sw_in_key_, lw_in_key_, temp_canopy_key_ and
lai_key_ at the tag of the evaluator. -/
structure CanopyFields where
  sw_in : Nat → ℚ
  lw_in : Nat → ℚ
  temp_canopy : Nat → ℚ
  lai : Nat → ℚ

/-- The assignment `view[0][c] = value`, where `view` is the view of
`results[index]`. -/
def assign (results : Nat → Nat → ℚ) (index c : Nat) (value : ℚ) : Nat → Nat → ℚ :=
  Function.update results index (Function.update (results index) c value)

/-- The body of the loop of CanopyRadiationEvaluator::Evaluate_ over the
cells of a land-cover type. -/
def CanopyRadiationEvaluator.Evaluate_cell (BeersLaw : ℚ → ℚ → ℚ → ℚ)
    (OutgoingLongwaveRadiation : ℚ → ℚ → ℚ) (S : CanopyFields) (lc : LandCover)
    (results : Nat → Nat → ℚ) (c : Nat) : Nat → Nat → ℚ :=
  -- the views taken before the loops
  let down_sw := 0
  let down_lw := 0
  let rad_bal_can := 2
  -- Beer's law to find attenuation of radiation to surface in sw
  let sw_atm_surf := BeersLaw (S.sw_in c) lc.beers_k_sw (S.lai c)
  let sw_atm_can := S.sw_in c - sw_atm_surf
  -- Beer's law to find attenuation of radiation to surface in lw
  let lw_atm_surf := BeersLaw (S.lw_in c) lc.beers_k_lw (S.lai c)
  let lw_atm_can := S.lw_in c - lw_atm_surf
  -- smooth between lai = 0 (no canopy = no outgoing longwave) to lai = 1
  let lai_factor := if S.lai c < 1 then S.lai c else 1
  -- black-body radiation for LW out
  let lw_can := lai_factor * OutgoingLongwaveRadiation (S.temp_canopy c) lc.emissivity_canopy
  let results := assign results down_sw c sw_atm_surf
  let results := assign results down_lw c (lw_atm_surf + lw_can)
  -- factor of 2 is for upward and downward longwave emission
  assign results rad_bal_can c ((1 - lc.albedo_canopy) * sw_atm_can + lw_atm_can - 2 * lw_can)

/-- CanopyRadiationEvaluator::Evaluate_(S, results): `get_set_entities` gives
the owned cells of the region of a land-cover type. -/
def CanopyRadiationEvaluator.Evaluate_ (BeersLaw : ℚ → ℚ → ℚ → ℚ)
    (OutgoingLongwaveRadiation : ℚ → ℚ → ℚ) (get_set_entities : String → List Nat)
    (ev : CanopyRadiationEvaluator (List (String × LandCover))) (S : CanopyFields)
    (results : Nat → Nat → ℚ) : Nat → Nat → ℚ :=
  ev.land_cover_.foldl
    (fun results lc =>
      (get_set_entities lc.1).foldl
        (CanopyRadiationEvaluator.Evaluate_cell BeersLaw OutgoingLongwaveRadiation S lc.2)
        results)
    results

/-- A CompositeVector as the partial derivatives see it: the entries of
every component, by name. -/
structure CompositeVector where
  components : List (String × List ℚ)

/-- Modelled from the spec: CompositeVector::PutScalar(scalar) is not under
src/; it sets every entry of every component to the scalar. -/
def CompositeVector.PutScalar (v : CompositeVector) (scalar : ℚ) : CompositeVector :=
  ⟨v.components.map fun comp => (comp.1, comp.2.map fun _ => scalar)⟩

/-- CanopyRadiationEvaluator::EvaluatePartialDerivative_(S, wrt_key, wrt_tag,
results). -/
def CanopyRadiationEvaluator.EvaluatePartialDerivative_ {St : Type} (_S : St) (_wrt_key : String)
    (_wrt_tag : Tag) (results : List CompositeVector) : List CompositeVector :=
  results.map fun res => res.PutScalar 0

/-- RadiationBalanceEvaluator::EvaluatePartialDerivative_(S, wrt_key,
wrt_tag, results). -/
def RadiationBalanceEvaluator.EvaluatePartialDerivative_ {St : Type} (_S : St)
    (_wrt_key : String) (_wrt_tag : Tag) (results : List CompositeVector) :
    List CompositeVector :=
  results.map fun res => res.PutScalar 0

/-- LakeEvaporationRateEvaluator::EvaluateFieldPartialDerivative_(S, wrt_key,
result). -/
def LakeEvaporationRateEvaluator.EvaluateFieldPartialDerivative_ {St : Type} (_S : St)
    (_wrt_key : String) (result : CompositeVector) : CompositeVector :=
  result.PutScalar 0

/-! ## PKPhysicalBDFBase::enorm on several workers

Every worker runs the same call of enorm on its own partition of the
vectors.  In `pk_physical_bdf_base.cc` the loops over the entries come
first and MPI_Allreduce is the last statement before the return. -/

/-- The arguments of the call of enorm on one worker: the members, the
times of the NEXT and of the intermediate state, and its entries of
(u, du). -/
structure Worker where
  pk : PKPhysicalBDFBase
  t_next : ℚ
  t_inter : ℚ
  vec : List Component

/-- How the call of enorm stands on one worker when no worker can go on:
it has thrown before it reached MPI_Allreduce, it has called MPI_Allreduce
and waits there for a worker that has not, or it has returned. -/
inductive WorkerEnd
  | raised (e : Message)
  | waiting
  | returned (enorm_val : ℚ)
deriving DecidableEq

/-- The part of enorm before MPI_Allreduce on one worker: the value the
worker brings to the reduction, or the message it throws before it gets
there.  This is enorm without other workers, where the reduction returns
the value brought to it. -/
def Worker.buf (x : Worker) : Except Message ℚ :=
  (PKPhysicalBDFBase.enorm x.pk x.t_next x.t_inter x.vec []).1

/-- The values brought to the reduction by the workers that reach it. -/
def reduction_values (bufs : List (Except Message ℚ)) : List ℚ :=
  bufs.filterMap fun b =>
    match b with
    | Except.ok v => some v
    | Except.error _ => none

/-- Modelled from the spec: MPI_Allreduce is a collective operation, "a
mandatory synchronization point": it completes on a worker only when every
worker calls it, and then hands every worker the maximum of the values of
all.  The call of enorm on all workers: when every worker reaches the
reduction each returns enorm with the values of the others; otherwise the
workers that threw have left and the others wait in the reduction. -/
def enorm_workers (workers : List Worker) : List WorkerEnd :=
  let bufs := workers.map Worker.buf
  let values := reduction_values bufs
  if values.length = workers.length then
    workers.enum.map fun ix =>
      match (PKPhysicalBDFBase.enorm ix.2.pk ix.2.t_next ix.2.t_inter ix.2.vec
          (values.eraseIdx ix.1)).1 with
      | Except.ok enorm_val => WorkerEnd.returned enorm_val
      | Except.error e => WorkerEnd.raised e
  else
    bufs.map fun b =>
      match b with
      | Except.ok _ => WorkerEnd.waiting
      | Except.error e => WorkerEnd.raised e

/-! ## Definitions used by the statements -/

section StatementDefinitions

variable {σ τ : Type}

open Coordinator Scenario

/-- The step sizes of the trial steps of a trace: t_new - t_old of every
call of AdvanceStep, in order. -/
def trial_sizes : List Event → List ℚ
  | [] => []
  | Event.AdvanceStep t_old t_new _ :: es => (t_new - t_old) :: trial_sizes es
  | _ :: es => trial_sizes es

/-- The events Coordinator::visualize appends. -/
def visualize_events (force : Bool) (w : World σ τ) : List Event :=
  (if dump_requested force w.S.get_cycle (w.S.get_time Tag.DEFAULT) w.visualization_
    then [Event.CalculateDiagnostics Tag.NEXT] else []) ++
  (w.visualization_.enum.filter
      (fun iv => force || iv.2.DumpRequested w.S.get_cycle (w.S.get_time Tag.DEFAULT))).map
    (fun iv => Event.WriteVis iv.1)

/-- The failure branch of Coordinator::advance, from the visualization of
the failed step to the return. -/
def failure_branch (c : Coordinator σ τ) (t_old t_new : ℚ) (meshes : List Mesh) :
    M (World σ τ) Bool := do
  forEach (fun i => emit (Event.WriteFailedVis i)) (List.range c.failed_visualization_)
  emit (Event.FailStep t_old t_new Tag.NEXT)
  pk_call (c.pk_.FailStep t_old t_new Tag.NEXT)
  forEach (recover_mesh c) meshes
  return true

/-- The world in which the main loop calls advance: "dt" assigned and the
NEXT time advanced by dt. -/
def trial_world (w : World σ τ) (dt : ℚ) : World σ τ :=
  { w with S := (w.S.Assign_dt dt).advance_time Tag.NEXT dt }

/-- The world after the branch of an accepted step, entered in `w1`. -/
def accepted_world (c : Coordinator σ τ) (w1 : World σ τ) : World σ τ :=
  (checkpoint c false
    (visualize c false
      { w1 with
        S := (w1.S.set_time Tag.CURRENT (w1.S.get_time Tag.NEXT)).advance_cycle,
        trace := w1.trace ++
          (List.range c.observations_.length).map Event.MakeObservations }).world).world

/-- The message of an outcome that is a throw. -/
def Outcome.message {α W : Type} : Outcome α W → Option Message
  | Outcome.ok _ _ => none
  | Outcome.raised e _ => some e

/-- The events the catch block of cycle_driver appends in the world `w`. -/
def handler_events (c : Coordinator σ τ) (w : World σ τ) : List Event :=
  [Event.CalculateDiagnostics Tag.NEXT] ++
  (w.visualization_.enum.map fun iv => Event.WriteVis iv.1) ++
  (List.range c.observations_.length).map Event.Flush ++
  [Event.WriteCheckpoint "last_good_checkpoint" false,
   Event.WriteCheckpoint "error_checkpoint" false]

/-- The first `n` iterations of the main loop (fewer when the loop ends
before): the step size and the world the loop has reached. -/
def first_iterations {σ τ : Type} (c : Coordinator σ τ) :
    Nat → ℚ → World σ τ → Outcome ℚ (World σ τ)
  | 0, dt, w => Outcome.ok dt w
  | n + 1, dt, w =>
    match loop_condition c dt w with
    | Outcome.ok true w1 =>
      match loop_body c dt w1 with
      | Outcome.ok dt2 w2 => first_iterations c n dt2 w2
      | Outcome.raised e w2 => Outcome.raised e w2
    | Outcome.ok false w1 => Outcome.ok dt w1
    | Outcome.raised e w1 => Outcome.raised e w1

/-- Calls of AdvanceStep, CommitStep or FailStep. -/
def Event.isStep (e : Event) : Bool :=
  e.isAdvanceStep || e.isCommitStep || e.isFailStep

/-- The calls of the step operations in a trace. -/
def step_log (trace : List Event) : List Event :=
  trace.filter Event.isStep

/-- What a run reports: the message if it ended by a throw, the cycle, the
CURRENT and the NEXT time, and the calls of the step operations. -/
def report {σ τ : Type} (r : Option (Outcome Unit (World σ τ))) :
    Option (Option Message × Int × ℚ × ℚ × List Event) :=
  r.map fun o =>
    (o.message, o.world.S.get_cycle, o.world.S.get_time Tag.CURRENT,
      o.world.S.get_time Tag.NEXT, step_log o.world.trace)

/-- The step operations of Scenario A, in order: the two commits of
initialize, then ten trial steps, each committed. -/
def scenario_A_log : List Event :=
  [Event.CommitStep 0 0 Tag.NEXT, Event.CommitStep 0 0 Tag.NEXT,
   Event.AdvanceStep 0 10 false, Event.CommitStep 0 10 Tag.NEXT,
   Event.AdvanceStep 10 20 false, Event.CommitStep 10 20 Tag.NEXT,
   Event.AdvanceStep 20 30 false, Event.CommitStep 20 30 Tag.NEXT,
   Event.AdvanceStep 30 40 false, Event.CommitStep 30 40 Tag.NEXT,
   Event.AdvanceStep 40 50 false, Event.CommitStep 40 50 Tag.NEXT,
   Event.AdvanceStep 50 60 false, Event.CommitStep 50 60 Tag.NEXT,
   Event.AdvanceStep 60 70 false, Event.CommitStep 60 70 Tag.NEXT,
   Event.AdvanceStep 70 80 false, Event.CommitStep 70 80 Tag.NEXT,
   Event.AdvanceStep 80 90 false, Event.CommitStep 80 90 Tag.NEXT,
   Event.AdvanceStep 90 100 false, Event.CommitStep 90 100 Tag.NEXT]

/-- A step-size manager that answers every query with the same step. -/
def Scenario.constant (q : ℚ) : TimeStepManager (List ℚ) where
  RegisterTimeEvent := fun t s => s ++ [t]
  TimeStep := fun _ _ _ s => (q, s)

/-- A coordinator with the negative floor -1 and a step-size manager that
always answers 7. -/
def Scenario.negative_floor : Coordinator (Nat × ℚ) (List ℚ) :=
  { coordinator 0 1 with min_dt_ := -1, tsm_ := Scenario.constant 7 }

/-- A world whose process reports the step size `q`. -/
def Scenario.world_with_dt (q : ℚ) : World (Nat × ℚ) (List ℚ) :=
  { world0 with pk := (0, q) }

/-- A coordinator with floor 1, maximum step 100 and a step-size manager
that always answers 1/2. -/
def Scenario.low_response : Coordinator (Nat × ℚ) (List ℚ) :=
  { coordinator 0 1 with min_dt_ := 1, max_dt_ := 100, tsm_ := Scenario.constant (1 / 2) }

/-- The coordinator of Scenario A with end cycle 0. -/
def Scenario.end_cycle_0 : Coordinator (Nat × ℚ) (List ℚ) :=
  { coordinator 0 1 with cycle1_ := 0 }

/-- A world at cycle 1. -/
def Scenario.world_cycle_1 : World (Nat × ℚ) (List ℚ) :=
  { world0 with S := ⟨0, 0, 1, 0, [], []⟩ }

/-- A coordinator with one observation and one visualization target, whose
process fails its third trial step and then prefers a step below min_dt. -/
def Scenario.unrecoverable : Coordinator (Nat × ℚ) (List ℚ) :=
  { coordinator 3 (1 / 10 ^ 14) with observations_ := [silent], vis_list := [silent] }

/-- The calls that write a visualization or a checkpoint or flush an
observation target. -/
def dump_log (trace : List Event) : List Event :=
  trace.filter fun e => e.isWriteVis || e.isFlush || e.isWriteCheckpoint

/-- The value of an outcome, `d` for a throw. -/
def Outcome.value {α W : Type} (d : α) : Outcome α W → α
  | Outcome.ok a _ => a
  | Outcome.raised _ _ => d

/-- The world in which a run ended, `d` when it did not end. -/
def end_world {α W : Type} (d : W) : Option (Outcome α W) → W
  | some o => o.world
  | none => d

/-- The step size with which the main loop of the unrecoverable run
starts. -/
def Scenario.start_dt : ℚ := (cycle_driver_start unrecoverable world0).value 0

/-- The world in which the main loop of the unrecoverable run starts. -/
def Scenario.start_world : World (Nat × ℚ) (List ℚ) :=
  (cycle_driver_start unrecoverable world0).world

/-- The world in which the main loop of the unrecoverable run throws. -/
def Scenario.throw_world : World (Nat × ℚ) (List ℚ) :=
  end_world world0 (main_loop unrecoverable 4 start_dt start_world)

/-- The third trial step of a run from `world0`: its step size, the cycle
before it, whether it failed, the cycle and the CURRENT time after it, and
the step size get_dt returns for the trial step that follows. -/
def third_trial (c : Coordinator (Nat × ℚ) (List ℚ)) : Option (ℚ × Int × Bool × Int × ℚ × ℚ) :=
  match cycle_driver_start c world0 with
  | Outcome.ok dt0 w0 =>
    match first_iterations c 2 dt0 w0 with
    | Outcome.ok dt w2 =>
      match loop_condition c dt w2 with
      | Outcome.ok true w2 =>
        match trial_step c dt w2 with
        | Outcome.ok fail w3 =>
          match get_dt c fail w3 with
          | Outcome.ok dt_retry _ =>
            some (dt, w2.S.get_cycle, fail, w3.S.get_cycle, w3.S.get_time Tag.CURRENT, dt_retry)
          | _ => none
        | _ => none
      | _ => none
    | _ => none
  | _ => none

/-- What a run reports about its trial steps: the message if it ended by a
throw, the final cycle and CURRENT time, the sizes of the trial steps and
the calls of FailStep. -/
def trial_report {σ τ : Type} (r : Option (Outcome Unit (World σ τ))) :
    Option (Option Message × Int × ℚ × List ℚ × List Event) :=
  r.map fun o =>
    (o.message, o.world.S.get_cycle, o.world.S.get_time Tag.CURRENT,
      trial_sizes o.world.trace, o.world.trace.filter Event.isFailStep)

/-- The tolerances (atol, rtol) a call of enorm computes with, for the step
size h = t_next - t_inter. -/
def used_tolerances (pk : PKPhysicalBDFBase) (h : ℚ) : ℚ × ℚ :=
  if pk.adapt_tols_to_h_ then (pk.atol0_ / h, pk.rtol0_ / h) else (pk.atol_, pk.rtol_)

/-- The quotient |du_i| / (atol + rtol |u_i|) of one entry without NaN. -/
def entry_ratio (atol rtol : ℚ) (e : ℚ × Option ℚ) : ℚ :=
  |e.2.getD 0| / (atol + rtol * |e.1|)

/-- A pair of vectors with two components for the examples: u = (1, 2 | 3),
du = (1/2, -3 | 1). -/
def example_vec : List Component :=
  [⟨"cell", [(1, some (1 / 2)), (2, some (-3))]⟩, ⟨"face", [(3, some 1)]⟩]

/-- The example vectors with du = 0. -/
def example_zero : List Component :=
  [⟨"cell", [(1, some 0), (2, some 0)]⟩, ⟨"face", [(3, some 0)]⟩]

/-- The example vectors with a NaN in the last entry of du. -/
def example_nan : List Component :=
  [⟨"cell", [(1, some (1 / 2)), (2, some (-3))]⟩, ⟨"face", [(3, none)]⟩]

/-- Members after a setup with atol 1, rtol 1 and adaptive tolerances
off. -/
def example_pk : PKPhysicalBDFBase :=
  PKPhysicalBDFBase.setup ⟨0, 0, 0, 0, 0, false⟩ ⟨some 1, some 1, some false, none⟩

/-- The members after a call of enorm for the step size h: the tolerances
are replaced when the adaptive mode is on. -/
def after_enorm (pk : PKPhysicalBDFBase) (h : ℚ) : PKPhysicalBDFBase :=
  if pk.adapt_tols_to_h_ then { pk with atol_ := pk.atol0_ / h, rtol_ := pk.rtol0_ / h }
  else pk

/-- The result of enorm when it computes with the tolerances atol and
rtol. -/
def enorm_with (atol rtol : ℚ) (vec : List Component) (others : List ℚ) : Except Message ℚ :=
  match PKPhysicalBDFBase.enorm_components atol rtol vec 0 with
  | Except.error e => Except.error e
  | Except.ok enorm_val => Except.ok (MPI_Allreduce_MAX enorm_val others)

/-- Members after a setup with atol 2, rtol 4 and adaptive tolerances on. -/
def example_adaptive : PKPhysicalBDFBase :=
  PKPhysicalBDFBase.setup ⟨0, 0, 0, 0, 0, false⟩ ⟨some 2, some 4, some true, none⟩

/-- A land-cover helper for the examples: it returns the number of the
parameters asked for. -/
def example_getLandCover (_ : Unit) (required : List String) : Except Message Nat :=
  Except.ok required.length

/-- A canopy evaluator that has not been made compatible, with two
dependencies. -/
def example_canopy : CanopyRadiationEvaluator Nat × RequireState Unit :=
  (⟨false, 0, [("canopy-temperature", Tag.NEXT), ("canopy-leaf_area_index", Tag.NEXT)],
    "canopy"⟩, ⟨(), []⟩)

/-- Units for the examples: seconds only, no conversion. -/
def example_units : Units where
  IsValidTime := fun u => u == "s"
  ConvertTime := fun t _ _ => t
  ValidTimeStrings := "s"

/-- A parameter list with the start time in the given units, end time 100,
the given entries of "PK tree" and one observation sublist. -/
def example_list (t0_units : String) (pk_tree : List String) : ParameterList where
  cycle_driver :=
    ⟨some 0, some t0_units, some 100, none, none, none, none, none, none, none, none, pk_tree⟩
  observations := [("surface outlet", true)]
  analysis := false

/-- An object before coordinator_init, with an empty state. -/
def example_construction : Construction :=
  ⟨⟨0, 0, 0, 0, [], []⟩, 0, 0, 0, 0, 0, 0, 0, false, false, "", []⟩

/-- Coordinator::initialize, first part: the times and the cycle are set,
and on restart the initial time of the checkpoint is read and assigned
(up to "Restart from checkpoint part 1"). -/
def initialize_seed (c : Coordinator σ τ) : M (World σ τ) Unit := do
  let w ← getW
  modifyS fun S => S.set_time Tag.CURRENT w.t0_
  modifyS fun S => S.set_time Tag.NEXT w.t0_
  modifyS fun S => S.set_cycle w.cycle0_
  if c.restart_ then
    emit Event.ReadCheckpointInitialTime
    let t_restart := c.restart_file.time
    modifyS fun S => S.set_time Tag.CURRENT t_restart
    modifyS fun S => S.set_time Tag.NEXT t_restart
    modifyW fun w => { w with t0_ := t_restart }

/-- Coordinator::initialize, second part: the fields, the process kernels
and the vertex coordinates are initialized. -/
def initialize_fields (c : Coordinator σ τ) : M (World σ τ) Unit := do
  emit Event.InitializeFields
  emit Event.pk_Initialize
  modifyW fun w => { w with pk := c.pk_.Initialize w.pk }
  let w ← getW
  emit (Event.CommitStep w.t0_ w.t0_ Tag.NEXT)
  pk_call (c.pk_.CommitStep w.t0_ w.t0_ Tag.NEXT)
  forEach (init_vertex_coordinates c) w.S.meshes

/-- Coordinator::initialize, third part: "Restart from checkpoint
part 2". -/
def initialize_restore (c : Coordinator σ τ) : M (World σ τ) Unit := do
  if c.restart_ then
    emit Event.ReadCheckpoint
    modifyS (ReadCheckpoint c.restart_file)
    modifyW fun w => { w with t0_ := w.S.get_time Tag.DEFAULT }
    modifyW fun w => { w with cycle0_ := w.S.get_cycle }
    let w ← getW
    modifyS fun S => S.set_time Tag.CURRENT w.t0_
    modifyS fun S => S.set_time Tag.NEXT w.t0_
    forEach (fun (mesh : Mesh) =>
        if mesh.deformable then emit (Event.DeformCheckpointMesh mesh.name) else pure ())
      w.S.meshes

/-- Coordinator::initialize, last part: from the final checks to the
advance of the cycle to 0. -/
def initialize_finish (c : Coordinator σ τ) : M (World σ τ) Unit := do
  emit Event.InitializeEvaluators
  let w ← getW
  emit (Event.CommitStep (w.S.get_time Tag.DEFAULT) (w.S.get_time Tag.DEFAULT) Tag.NEXT)
  pk_call (c.pk_.CommitStep (w.S.get_time Tag.DEFAULT) (w.S.get_time Tag.DEFAULT) Tag.NEXT)
  modifyW fun w => { w with visualization_ := c.vis_list }
  forEach (fun i => emit (Event.MakeObservations i)) (List.range c.observations_.length)
  forEach (fun (iv : Nat × IOEvent τ) => register (Event.RegisterVis iv.1) iv.2) c.vis_list.enum
  register Event.RegisterCheckpoint c.checkpoint_
  forEach (fun (io : Nat × IOEvent τ) => register (Event.RegisterObservation io.1) io.2)
    c.observations_.enum
  emit (Event.RegisterTimeEvent c.t1_)
  modifyW fun w => { w with tsm := c.tsm_.RegisterTimeEvent c.t1_ w.tsm }
  match c.required_times with
  | some pause_times => register Event.RegisterRequiredTimes pause_times
  | none => pure ()
  let w ← getW
  if w.S.get_cycle == -1 then modifyS fun S => S.advance_cycle

/-- The calls that copy the vertex coordinates of the deformable meshes that
are not aliased. -/
def copy_events (meshes : List Mesh) : List Event :=
  (meshes.filter fun m => m.deformable && !m.aliased).map
    fun m => Event.copyMeshCoordinatesToVector m.name

/-- The calls that deform the deformable meshes after a restart. -/
def deform_events (meshes : List Mesh) : List Event :=
  (meshes.filter fun m => m.deformable).map fun m => Event.DeformCheckpointMesh m.name

/-- The time at which initialize starts the run: the start time t0_, or on
restart the time of the checkpoint. -/
def initial_time (c : Coordinator σ τ) (w : World σ τ) : ℚ :=
  if c.restart_ then c.restart_file.time else w.t0_

/-- The world after the first part of initialize. -/
def seed_world (c : Coordinator σ τ) (w : World σ τ) : World σ τ :=
  if c.restart_ then
    { w with
      S := ((((w.S.set_time Tag.CURRENT w.t0_).set_time Tag.NEXT w.t0_).set_cycle
        w.cycle0_).set_time Tag.CURRENT c.restart_file.time).set_time Tag.NEXT
          c.restart_file.time,
      t0_ := c.restart_file.time,
      trace := w.trace ++ [Event.ReadCheckpointInitialTime] }
  else
    { w with
      S := ((w.S.set_time Tag.CURRENT w.t0_).set_time Tag.NEXT w.t0_).set_cycle w.cycle0_ }

/-- The calls of the second part of initialize entered in `w`. -/
def fields_events (w : World σ τ) : List Event :=
  [Event.InitializeFields, Event.pk_Initialize, Event.CommitStep w.t0_ w.t0_ Tag.NEXT] ++
    copy_events w.S.meshes

/-- The world after the third part of initialize. -/
def restore_world (c : Coordinator σ τ) (w : World σ τ) : World σ τ :=
  if c.restart_ then
    { w with
      S := (((Coordinator.ReadCheckpoint c.restart_file w.S).set_time Tag.CURRENT
        ((Coordinator.ReadCheckpoint c.restart_file w.S).get_time Tag.DEFAULT)).set_time
          Tag.NEXT ((Coordinator.ReadCheckpoint c.restart_file w.S).get_time Tag.DEFAULT)),
      t0_ := (Coordinator.ReadCheckpoint c.restart_file w.S).get_time Tag.DEFAULT,
      cycle0_ := (Coordinator.ReadCheckpoint c.restart_file w.S).get_cycle,
      trace := w.trace ++ [Event.ReadCheckpoint] ++ deform_events w.S.meshes }
  else w

/-- The calls that register the output targets and the end time with the
step-size manager. -/
def register_events (c : Coordinator σ τ) : List Event :=
  (c.vis_list.enum.map fun iv => Event.RegisterVis iv.1) ++ [Event.RegisterCheckpoint] ++
    (c.observations_.enum.map fun io => Event.RegisterObservation io.1) ++
    [Event.RegisterTimeEvent c.t1_] ++
    (match c.required_times with
      | some _ => [Event.RegisterRequiredTimes]
      | none => [])

/-- The calls of the last part of initialize when the state has the time
`t`. -/
def finish_events (c : Coordinator σ τ) (t : ℚ) : List Event :=
  [Event.InitializeEvaluators, Event.CommitStep t t Tag.NEXT] ++
    (List.range c.observations_.length).map Event.MakeObservations ++ register_events c

/-- The calls of a complete Coordinator::initialize entered in `w`. -/
def initialize_events (c : Coordinator σ τ) (w : World σ τ) : List Event :=
  (if c.restart_ then [Event.ReadCheckpointInitialTime] else []) ++
    [Event.InitializeFields, Event.pk_Initialize,
      Event.CommitStep (initial_time c w) (initial_time c w) Tag.NEXT] ++
    copy_events w.S.meshes ++
    (if c.restart_ then [Event.ReadCheckpoint] ++ deform_events w.S.meshes else []) ++
    finish_events c (initial_time c w)

/-- The step-size manager after the registrations of initialize. -/
def registered_tsm (c : Coordinator σ τ) (tsm : τ) : τ :=
  let t1 := c.vis_list.enum.foldl (fun t iv => iv.2.RegisterWithTimeStepManager t) tsm
  let t2 := c.checkpoint_.RegisterWithTimeStepManager t1
  let t3 := c.observations_.enum.foldl (fun t io => io.2.RegisterWithTimeStepManager t) t2
  let t4 := c.tsm_.RegisterTimeEvent c.t1_ t3
  match c.required_times with
  | some pause_times => pause_times.RegisterWithTimeStepManager t4
  | none => t4

/-- The world after the last part of initialize when it returns with the
process kernel in the state `s`. -/
def finish_world (c : Coordinator σ τ) (w : World σ τ) (s : σ) : World σ τ :=
  { w with
    S := if w.S.get_cycle = -1 then w.S.advance_cycle else w.S,
    pk := s,
    tsm := registered_tsm c w.tsm,
    visualization_ := c.vis_list,
    trace := w.trace ++ finish_events c (w.S.get_time Tag.DEFAULT) }

/-- Calls of MakeObservations. -/
def Event.isMakeObservations : Event → Bool
  | Event.MakeObservations _ => true
  | _ => false

/-- A computation that, whether it returns or throws, keeps the CURRENT and
the NEXT time and does not call MakeObservations. -/
def Steady {α : Type} (x : M (World σ τ) α) : Prop :=
  ∀ w, (x w).world.S.time_current = w.S.time_current ∧
    (x w).world.S.time_next = w.S.time_next ∧
    ∃ evs, (x w).world.trace = w.trace ++ evs ∧ ∀ e ∈ evs, e.isMakeObservations = false

/-- Coordinator::cycle_driver from the initial step size to the start of
the main loop. -/
def start_tail (c : Coordinator σ τ) : M (World σ τ) ℚ := do
  let dt ← get_dt c false
  if !c.restart_ then
    modifyS fun S => S.Assign_dt dt
  visualize c false
  checkpoint c false
  let w ← getW
  AMANZI_ASSERT (decide (|w.S.get_time Tag.NEXT - w.S.get_time Tag.CURRENT| < 1 / 10000))
  return w.S.dt

/-- The step size with which the unrecoverable run enters its third
iteration. -/
def Scenario.third_dt : ℚ := (first_iterations unrecoverable 2 start_dt start_world).value 0

/-- The world in which the unrecoverable run enters its third iteration. -/
def Scenario.third_world : World (Nat × ℚ) (List ℚ) :=
  (first_iterations unrecoverable 2 start_dt start_world).world

/-- A run to the end time 30 with two observation targets, whose second
trial step is rejected and halves the step size. -/
def Scenario.observed : Coordinator (Nat × ℚ) (List ℚ) :=
  { coordinator 2 (1 / 2) with t1_ := 30, observations_ := [silent, silent] }

/-- The step size with which the main loop of the observed run starts. -/
def Scenario.observed_dt : ℚ := (cycle_driver_start observed world0).value 0

/-- The world in which the main loop of the observed run starts. -/
def Scenario.observed_start : World (Nat × ℚ) (List ℚ) :=
  (cycle_driver_start observed world0).world

/-- The shape of a CompositeVector: the names of its components and the
number of entries of each. -/
def CompositeVector.shape (v : CompositeVector) : List (String × Nat) :=
  v.components.map fun comp => (comp.1, comp.2.length)

/-- Every entry of every component is zero. -/
def CompositeVector.is_zero (v : CompositeVector) : Bool :=
  v.components.all fun comp => comp.2.all fun x => decide (x = 0)

/-- The local `sw_atm_surf` of CanopyRadiationEvaluator::Evaluate_ for the
cell c of a land-cover type. -/
def sw_atm_surf (BeersLaw : ℚ → ℚ → ℚ → ℚ) (S : CanopyFields) (lc : LandCover) (c : Nat) : ℚ :=
  BeersLaw (S.sw_in c) lc.beers_k_sw (S.lai c)

/-- The local `lw_atm_surf` for the cell c. -/
def lw_atm_surf (BeersLaw : ℚ → ℚ → ℚ → ℚ) (S : CanopyFields) (lc : LandCover) (c : Nat) : ℚ :=
  BeersLaw (S.lw_in c) lc.beers_k_lw (S.lai c)

/-- The local `lw_can` for the cell c. -/
def lw_can (OutgoingLongwaveRadiation : ℚ → ℚ → ℚ) (S : CanopyFields) (lc : LandCover)
    (c : Nat) : ℚ :=
  (if S.lai c < 1 then S.lai c else 1) *
    OutgoingLongwaveRadiation (S.temp_canopy c) lc.emissivity_canopy

/-- The value assigned to `rad_bal_can[0][c]`. -/
def canopy_balance (BeersLaw : ℚ → ℚ → ℚ → ℚ) (OutgoingLongwaveRadiation : ℚ → ℚ → ℚ)
    (S : CanopyFields) (lc : LandCover) (c : Nat) : ℚ :=
  (1 - lc.albedo_canopy) * (S.sw_in c - sw_atm_surf BeersLaw S lc c) +
    (S.lw_in c - lw_atm_surf BeersLaw S lc c) - 2 * lw_can OutgoingLongwaveRadiation S lc c

/-- What the loop body for the cell c leaves in the entry c of
`results[index]`, which held `old`. -/
def written (BeersLaw : ℚ → ℚ → ℚ → ℚ) (OutgoingLongwaveRadiation : ℚ → ℚ → ℚ)
    (S : CanopyFields) (lc : LandCover) (index c : Nat) (old : ℚ) : ℚ :=
  if index = 0 then lw_atm_surf BeersLaw S lc c + lw_can OutgoingLongwaveRadiation S lc c
  else if index = 2 then canopy_balance BeersLaw OutgoingLongwaveRadiation S lc c
  else old

/-- A stand-in for Relations::BeersLaw in the examples: it lets everything
through at leaf area index 0 and attenuates by 1 / (1 + k lai). -/
def example_BeersLaw (sw_in k lai : ℚ) : ℚ := sw_in / (1 + k * lai)

/-- A stand-in for Relations::OutgoingLongwaveRadiation in the examples:
emissivity times 5.67e-8 times the fourth power of the temperature. -/
def example_OutgoingLongwaveRadiation (temp emissivity : ℚ) : ℚ :=
  emissivity * (567 / 10 ^ 10) * temp ^ 4

/-- A canopy evaluator with one land-cover type "forest". -/
def example_evaluator : CanopyRadiationEvaluator (List (String × LandCover)) :=
  ⟨true, [("forest", ⟨1 / 2, 1 / 2, 98 / 100, 1 / 10⟩)], [], "canopy"⟩

/-- The region "forest" holds the cells 0 and 1. -/
def example_cells (region : String) : List Nat :=
  if region = "forest" then [0, 1] else []

/-- Incoming shortwave 200, incoming longwave 300, canopy temperature 280,
and leaf area index 0 in the cell 0 and 2 elsewhere. -/
def example_fields : CanopyFields :=
  ⟨fun _ => 200, fun _ => 300, fun _ => 280, fun c => if c = 0 then 0 else 2⟩

/-- Results that hold -1 in every entry. -/
def example_results : Nat → Nat → ℚ := fun _ _ => -1

/-- The results of the example after Evaluate_. -/
def example_evaluated : Nat → Nat → ℚ :=
  CanopyRadiationEvaluator.Evaluate_ example_BeersLaw example_OutgoingLongwaveRadiation
    example_cells example_evaluator example_fields example_results

/-- The members after a setup with atol 2 and rtol 4 from a list in which
the option "adapt tolerances to timestep" is absent. -/
def example_absent : PKPhysicalBDFBase :=
  PKPhysicalBDFBase.setup ⟨0, 0, 0, 0, 0, false⟩ ⟨some 2, some 4, none, none⟩

/-- An object before coordinator_init whose state has the deformable mesh
"surface", not aliased, and no declared field. -/
def Scenario.surface_construction : Construction :=
  ⟨⟨0, 0, 0, 0, [⟨"surface", true, false⟩], []⟩, 0, 0, 0, 0, 0, 0, 0, false, false, "", []⟩

/-- The state that coordinator_init leaves for the deformable mesh. -/
def Scenario.surface_state : State :=
  (coordinator_init example_units (fun domain name => domain ++ "-" ++ name)
    (example_list "s" ["top"]) surface_construction).world.S

/-- The world of Scenario A with the state that coordinator_init left for
the deformable mesh. -/
def Scenario.surface_world : World (Nat × ℚ) (List ℚ) :=
  { world0 with S := surface_state }

/-- What a run reports about the recovery of the meshes: the message if it
ended by a throw, the copies of vertex coordinates made by initialize, the
calls of FailStep and the calls of deform. -/
def recovery_report {σ τ : Type} (r : Option (Outcome Unit (World σ τ))) :
    Option (Option Message × List Event × List Event × List Event) :=
  r.map fun o =>
    (o.message,
      o.world.trace.filter (fun e => decide (e = Event.copyMeshCoordinatesToVector "surface")),
      o.world.trace.filter Event.isFailStep, o.world.trace.filter Event.isDeform)

/-- The world that Coordinator::initialize leaves in Scenario A. -/
def Scenario.initialized : World (Nat × ℚ) (List ℚ) :=
  (initialize_ (coordinator 0 1) world0).world

/-- Scenario A restarted from a checkpoint written at time 40 in cycle 4
with step size 500, with the maximum step size 7. -/
def Scenario.restarted_uncapped : Coordinator (Nat × ℚ) (List ℚ) :=
  { coordinator 0 1 with restart_ := true, restart_file := ⟨40, 4, 500⟩, max_dt_ := 7 }

/-- The step size with which the main loop of the restarted run starts. -/
def Scenario.restarted_dt : ℚ := (cycle_driver_start restarted_uncapped world0).value 0

/-- The world in which the main loop of the restarted run starts. -/
def Scenario.restarted_start : World (Nat × ℚ) (List ℚ) :=
  (cycle_driver_start restarted_uncapped world0).world

/-- A computation that, whether it returns or throws, leaves the step-size
manager as it is. -/
def KeepsManager {α : Type} (x : M (World σ τ) α) : Prop :=
  ∀ w, (x w).world.tsm = w.tsm

/-- The condition under which the main loop of a run with end time t1_ is
at rest between two iterations, with the next step size dt: the times are
equal and not after t1_, and while the end time is not reached the next step
does not pass it and t1_ is still registered with the step-size manager. -/
def BeforeEnd (c : Coordinator σ τ) (registered : τ → ℚ → Prop) (dt : ℚ) (w : World σ τ) :
    Prop :=
  w.S.time_next = w.S.time_current ∧ w.S.time_current ≤ c.t1_ ∧
    (w.S.time_current < c.t1_ → w.S.time_current + dt ≤ c.t1_ ∧ registered w.tsm c.t1_)

/-- A step-size manager that keeps the list of the registered instants and
cuts the proposed step at the first registered instant after t. -/
def Scenario.snapping : TimeStepManager (List ℚ) where
  RegisterTimeEvent := fun t s => s ++ [t]
  TimeStep := fun t dt _ s =>
    ((s.filter fun e => decide (t < e)).foldl (fun d e => min d (e - t)) dt, s)

/-- Scenario A with the step-size manager that cuts the step at the
registered instants. -/
def Scenario.snapped : Coordinator (Nat × ℚ) (List ℚ) :=
  { coordinator 0 1 with tsm_ := snapping }

/-- The world in which the run with the cutting step-size manager and the
process step size 30 ends. -/
def Scenario.snapped_end : World (Nat × ℚ) (List ℚ) :=
  end_world world0 (cycle_driver snapped 5 (world_with_dt 30))

/-- Whether an entry of du on the worker is NaN. -/
def Worker.has_nan (x : Worker) : Bool :=
  x.vec.any fun comp => comp.entries.any fun e => e.2.isNone

/-- Two workers with the tolerances of `example_pk`: the first holds the
example vectors, the second the example vectors with a NaN. -/
def example_workers : List Worker :=
  [⟨example_pk, 1, 0, example_vec⟩, ⟨example_pk, 1, 0, example_nan⟩]

end StatementDefinitions

/-! ## Theorems -/

section Theorems

variable {σ τ : Type}

open Coordinator Scenario


theorem pure_run {W α : Type} (a : α) (w : W) : (pure a : M W α) w = Outcome.ok a w := rfl

theorem bind_run {W α β : Type} (x : M W α) (f : α → M W β) (w : W) :
    (x >>= f) w = match x w with
      | Outcome.ok a w1 => f a w1
      | Outcome.raised e w1 => Outcome.raised e w1 := rfl

theorem forEach_nil {W β : Type} (f : β → M W Unit) (w : W) :
    forEach f [] w = Outcome.ok () w := rfl

theorem forEach_cons {W β : Type} (f : β → M W Unit) (b : β) (bs : List β) (w : W) :
    forEach f (b :: bs) w = match f b w with
      | Outcome.ok _ w1 => forEach f bs w1
      | Outcome.raised e w1 => Outcome.raised e w1 := by
  rw [forEach, bind_run]
  cases f b w <;> rfl

theorem emit_run (e : Event) (w : World σ τ) :
    emit e w = Outcome.ok () { w with trace := w.trace ++ [e] } := rfl

theorem modifyW_run {W : Type} (f : W → W) (w : W) : modifyW f w = Outcome.ok () (f w) := rfl

theorem modifyS_run (f : State → State) (w : World σ τ) :
    modifyS f w = Outcome.ok () { w with S := f w.S } := rfl

theorem getW_run {W : Type} (w : W) : (getW : M W W) w = Outcome.ok w w := rfl

theorem amanzi_throw_run {W α : Type} (e : Message) (w : W) :
    (amanzi_throw e : M W α) w = Outcome.raised e w := rfl

/-- A loop whose body appends one event for the elements that pass a test
appends these events in order and changes nothing else. -/
theorem forEach_emit_if {β : Type} (p : β → Bool) (g : β → Event) (l : List β)
    (w : World σ τ) :
    forEach (fun b => if p b then emit (g b) else pure ()) l w =
      Outcome.ok () { w with trace := w.trace ++ (l.filter p).map g } := by
  induction l generalizing w with
  | nil => simp [forEach_nil]
  | cons b bs ih =>
    rw [forEach_cons]
    by_cases hb : p b = true
    · simp only [hb, if_true, emit_run]
      rw [ih]
      simp [hb]
    · simp only [hb, Bool.false_eq_true, if_false, pure_run]
      rw [ih]
      simp [hb]

/-- A loop whose body appends one event per element. -/
theorem forEach_emit {β : Type} (g : β → Event) (l : List β) (w : World σ τ) :
    forEach (fun b => emit (g b)) l w =
      Outcome.ok () { w with trace := w.trace ++ l.map g } := by
  induction l generalizing w with
  | nil => simp [forEach_nil]
  | cons b bs ih =>
    rw [forEach_cons]
    simp only [emit_run]
    rw [ih]
    simp

theorem visualize_run (c : Coordinator σ τ) (force : Bool) (w : World σ τ) :
    visualize c force w = Outcome.ok ()
      { w with
        pk := if dump_requested force w.S.get_cycle (w.S.get_time Tag.DEFAULT) w.visualization_
          then c.pk_.CalculateDiagnostics Tag.NEXT w.pk else w.pk,
        trace := w.trace ++ visualize_events force w } := by
  unfold visualize visualize_events
  simp only [bind_run, getW_run]
  by_cases hd : dump_requested force w.S.get_cycle (w.S.get_time Tag.DEFAULT) w.visualization_ = true
  · simp only [hd, if_true, bind_run, emit_run, modifyW_run]
    rw [forEach_emit_if]
    simp
  · simp only [hd, Bool.false_eq_true, if_false, bind_run, pure_run]
    rw [forEach_emit_if]
    simp

theorem checkpoint_run (c : Coordinator σ τ) (force : Bool) (w : World σ τ) :
    checkpoint c force w = Outcome.ok ()
      (if force || c.checkpoint_.DumpRequested w.S.get_cycle (w.S.get_time Tag.DEFAULT) then
        { w with trace := w.trace ++ [Event.WriteCheckpoint w.filebasename false] }
      else w) := by
  unfold checkpoint
  simp only [bind_run, getW_run]
  split_ifs <;> rfl

theorem get_dt_run (c : Coordinator σ τ) (after_fail : Bool) (w : World σ τ) :
    get_dt c after_fail w =
      if c.pk_.get_dt w.pk < 0 then Outcome.ok (c.pk_.get_dt w.pk) w
      else if c.pk_.get_dt w.pk < c.min_dt_ then
        Outcome.raised ⟨"Coordinator: error, timestep too small"⟩ w
      else
        Outcome.ok
          (if c.subcycled_ts_ then
            std_min (c.tsm_.TimeStep (w.S.get_time Tag.NEXT)
              (if c.pk_.get_dt w.pk > c.max_dt_ then c.max_dt_ else c.pk_.get_dt w.pk)
              after_fail w.tsm).1 (c.pk_.get_dt w.pk)
          else
            (c.tsm_.TimeStep (w.S.get_time Tag.NEXT)
              (if c.pk_.get_dt w.pk > c.max_dt_ then c.max_dt_ else c.pk_.get_dt w.pk)
              after_fail w.tsm).1)
          { w with
            tsm := (c.tsm_.TimeStep (w.S.get_time Tag.NEXT)
              (if c.pk_.get_dt w.pk > c.max_dt_ then c.max_dt_ else c.pk_.get_dt w.pk)
              after_fail w.tsm).2,
            trace := w.trace ++ [Event.TimeStep (w.S.get_time Tag.NEXT)
              (if c.pk_.get_dt w.pk > c.max_dt_ then c.max_dt_ else c.pk_.get_dt w.pk)
              after_fail] } := by
  unfold get_dt
  simp only [bind_run, pure_run, getW, emit, modifyW, amanzi_throw]
  split_ifs <;> rfl

theorem get_dt_keeps_S (c : Coordinator σ τ) (after_fail : Bool) (w : World σ τ) :
    (get_dt c after_fail w).world.S = w.S := by
  rw [get_dt_run]
  split_ifs <;> rfl

theorem std_min_eq (a b : ℚ) : std_min a b = min a b := by
  unfold std_min
  split_ifs with h
  · exact (min_eq_right (le_of_lt h)).symm
  · exact (min_eq_left (not_lt.mp h)).symm

theorem recover_mesh_run (c : Coordinator σ τ) (m : Mesh) (w : World σ τ) :
    recover_mesh c m w =
      if (m.deformable && !m.aliased) = true then
        if w.S.HasRecord (c.getKey m.name "vertex_cooordinates") Tag.DEFAULT = true then
          Outcome.ok () { w with trace := w.trace ++ [Event.deform m.name] }
        else
          Outcome.raised ⟨"State: field not found: " ++ c.getKey m.name "vertex_cooordinates"⟩ w
      else Outcome.ok () w := by
  unfold recover_mesh GetPtr
  by_cases hm : (m.deformable && !m.aliased) = true
  · by_cases hr : w.S.HasRecord (c.getKey m.name "vertex_cooordinates") Tag.DEFAULT = true
    · simp only [hm, hr, if_true, bind_run, getW_run, pure_run, emit_run]
    · simp only [hm, hr, if_true, Bool.false_eq_true, if_false, bind_run, getW_run,
        amanzi_throw_run]
  · simp only [hm, Bool.false_eq_true, if_false, pure_run]

/-- The mesh recovery of a failed step appends only calls of deform and
changes nothing else, whether it ends or throws. -/
theorem recover_meshes_run (c : Coordinator σ τ) (meshes : List Mesh) (w : World σ τ) :
    ∃ evs, (∀ e ∈ evs, e.isDeform = true) ∧
      (forEach (recover_mesh c) meshes w).world = { w with trace := w.trace ++ evs } := by
  induction meshes generalizing w with
  | nil => exact ⟨[], by simp, by simp [forEach_nil, Outcome.world]⟩
  | cons m ms ih =>
    rw [forEach_cons, recover_mesh_run]
    split_ifs with hm hr
    · obtain ⟨evs, h1, h2⟩ := ih { w with trace := w.trace ++ [Event.deform m.name] }
      refine ⟨Event.deform m.name :: evs, ?_, ?_⟩
      · intro e he
        rcases List.mem_cons.mp he with rfl | he
        · rfl
        · exact h1 e he
      · show (forEach (recover_mesh c) ms _).world = _
        rw [h2]; simp
    · exact ⟨[], by simp, by simp [Outcome.world]⟩
    · exact ih w

/-- Coordinator::advance by cases on what the process kernel answers. -/
theorem advance_run (c : Coordinator σ τ) (w : World σ τ) :
    advance c w =
      match c.pk_.AdvanceStep (w.S.get_time Tag.CURRENT) (w.S.get_time Tag.NEXT) false w.pk with
      | (Except.error e, s) =>
        Outcome.raised e { w with pk := s, trace := w.trace ++
          [Event.AdvanceStep (w.S.get_time Tag.CURRENT) (w.S.get_time Tag.NEXT) false] }
      | (Except.ok true, s) =>
        failure_branch c (w.S.get_time Tag.CURRENT) (w.S.get_time Tag.NEXT) w.S.meshes
          { w with pk := s, trace := w.trace ++
            [Event.AdvanceStep (w.S.get_time Tag.CURRENT) (w.S.get_time Tag.NEXT) false] }
      | (Except.ok false, s) =>
        match c.pk_.ValidStep s with
        | (Except.error e, s2) =>
          Outcome.raised e { w with pk := s2, trace := w.trace ++
            [Event.AdvanceStep (w.S.get_time Tag.CURRENT) (w.S.get_time Tag.NEXT) false] ++
            [Event.ValidStep] }
        | (Except.ok false, s2) =>
          failure_branch c (w.S.get_time Tag.CURRENT) (w.S.get_time Tag.NEXT) w.S.meshes
            { w with pk := s2, trace := w.trace ++
              [Event.AdvanceStep (w.S.get_time Tag.CURRENT) (w.S.get_time Tag.NEXT) false] ++
              [Event.ValidStep] }
        | (Except.ok true, s2) =>
          match c.pk_.CommitStep (w.S.get_time Tag.CURRENT) (w.S.get_time Tag.NEXT)
              Tag.NEXT s2 with
          | (Except.ok _, s3) =>
            Outcome.ok false { w with pk := s3, trace := w.trace ++
              [Event.AdvanceStep (w.S.get_time Tag.CURRENT) (w.S.get_time Tag.NEXT) false] ++
              [Event.ValidStep] ++
              [Event.CommitStep (w.S.get_time Tag.CURRENT) (w.S.get_time Tag.NEXT) Tag.NEXT] }
          | (Except.error e, s3) =>
            Outcome.raised e { w with pk := s3, trace := w.trace ++
              [Event.AdvanceStep (w.S.get_time Tag.CURRENT) (w.S.get_time Tag.NEXT) false] ++
              [Event.ValidStep] ++
              [Event.CommitStep (w.S.get_time Tag.CURRENT) (w.S.get_time Tag.NEXT) Tag.NEXT] } := by
  unfold advance failure_branch
  rcases hA : c.pk_.AdvanceStep (w.S.get_time Tag.CURRENT) (w.S.get_time Tag.NEXT) false w.pk
    with ⟨_ | a, s⟩
  · simp [bind_run, getW_run, emit_run, pk_call, hA]
  · cases a
    · rcases hV : c.pk_.ValidStep s with ⟨_ | v, s2⟩
      · simp [bind_run, getW_run, emit_run, pk_call, hA, hV]
      · cases v
        · simp [bind_run, pure_run, getW_run, emit_run, pk_call, hA, hV]
        · rcases hC : c.pk_.CommitStep (w.S.get_time Tag.CURRENT) (w.S.get_time Tag.NEXT)
            Tag.NEXT s2 with ⟨_ | u, s3⟩ <;>
          simp [bind_run, pure_run, getW_run, emit_run, pk_call, hA, hV, hC]
    · simp [bind_run, pure_run, getW_run, emit_run, pk_call, hA]

/-- The failure branch keeps the simulation state and appends, in this order,
the visualizations of the failed step, one call of FailStep, and calls of
deform; this holds whether it returns or throws, and it returns `true`. -/
theorem failure_branch_run (c : Coordinator σ τ) (t_old t_new : ℚ) (meshes : List Mesh)
    (w : World σ τ) :
    ∃ df, (∀ e ∈ df, e.isDeform = true) ∧
      (failure_branch c t_old t_new meshes w).world.S = w.S ∧
      (failure_branch c t_old t_new meshes w).world.trace =
        w.trace ++ (List.range c.failed_visualization_).map Event.WriteFailedVis ++
          [Event.FailStep t_old t_new Tag.NEXT] ++ df ∧
      ∀ b w1, failure_branch c t_old t_new meshes w = Outcome.ok b w1 → b = true := by
  unfold failure_branch
  simp only [bind_run, forEach_emit, emit_run, pk_call, pure_run]
  rcases hF : c.pk_.FailStep t_old t_new Tag.NEXT w.pk with ⟨_ | u, s⟩
  · refine ⟨[], by simp, rfl, by simp [Outcome.world], ?_⟩
    intro b w1 h
    simp at h
  · simp only []
    obtain ⟨df, h1, h2⟩ := recover_meshes_run c meshes
      { w with pk := s, trace := w.trace ++
        (List.range c.failed_visualization_).map Event.WriteFailedVis ++
        [Event.FailStep t_old t_new Tag.NEXT] }
    rcases hR : forEach (recover_mesh c) meshes
      { w with pk := s, trace := w.trace ++
        (List.range c.failed_visualization_).map Event.WriteFailedVis ++
        [Event.FailStep t_old t_new Tag.NEXT] } with ⟨u1, w1⟩ | ⟨e, w1⟩
    · rw [hR] at h2
      simp only [Outcome.world] at h2
      refine ⟨df, h1, by simp [Outcome.world, h2], by simp [Outcome.world, h2], ?_⟩
      intro b w2 h
      simp at h
      exact h.1
    · rw [hR] at h2
      simp only [Outcome.world] at h2
      refine ⟨df, h1, by simp [Outcome.world, h2], by simp [Outcome.world, h2], ?_⟩
      intro b w2 h
      simp at h

/-- Coordinator::advance keeps the simulation state, whether it returns or
throws. -/
theorem advance_keeps_S (c : Coordinator σ τ) (w : World σ τ) :
    (advance c w).world.S = w.S := by
  rw [advance_run]
  rcases c.pk_.AdvanceStep (w.S.get_time Tag.CURRENT) (w.S.get_time Tag.NEXT) false w.pk
    with ⟨_ | a, s⟩
  · rfl
  · cases a
    · dsimp only
      rcases c.pk_.ValidStep s with ⟨_ | v, s2⟩
      · rfl
      · cases v
        · obtain ⟨df, _, h, _⟩ := failure_branch_run c (w.S.get_time Tag.CURRENT)
            (w.S.get_time Tag.NEXT) w.S.meshes { w with pk := s2, trace := w.trace ++
              [Event.AdvanceStep (w.S.get_time Tag.CURRENT) (w.S.get_time Tag.NEXT) false] ++
              [Event.ValidStep] }
          exact h
        · dsimp only
          rcases c.pk_.CommitStep (w.S.get_time Tag.CURRENT) (w.S.get_time Tag.NEXT)
            Tag.NEXT s2 with ⟨_ | u, s3⟩ <;> rfl
    · obtain ⟨df, _, h, _⟩ := failure_branch_run c (w.S.get_time Tag.CURRENT)
        (w.S.get_time Tag.NEXT) w.S.meshes { w with pk := s, trace := w.trace ++
          [Event.AdvanceStep (w.S.get_time Tag.CURRENT) (w.S.get_time Tag.NEXT) false] }
      exact h

theorem accepted_world_S (c : Coordinator σ τ) (w1 : World σ τ) :
    (accepted_world c w1).S =
      (w1.S.set_time Tag.CURRENT (w1.S.get_time Tag.NEXT)).advance_cycle := by
  unfold accepted_world
  rw [visualize_run, checkpoint_run]
  simp only [Outcome.world]
  split_ifs <;> rfl

/-- The trial step by cases on the outcome of advance. -/
theorem trial_step_run (c : Coordinator σ τ) (dt : ℚ) (w : World σ τ) :
    trial_step c dt w =
      match advance c (trial_world w dt) with
      | Outcome.raised e w1 => Outcome.raised e w1
      | Outcome.ok true w1 =>
        Outcome.ok true { w1 with S := w1.S.set_time Tag.NEXT (w1.S.get_time Tag.CURRENT) }
      | Outcome.ok false w1 => Outcome.ok false (accepted_world c w1) := by
  unfold trial_step trial_world accepted_world
  simp only [bind_run, modifyS_run]
  rcases advance c { w with S := (w.S.Assign_dt dt).advance_time Tag.NEXT dt }
    with ⟨b, w1⟩ | ⟨e, w1⟩
  · cases b
    · simp only [Bool.false_eq_true, if_false, bind_run, modifyS_run, forEach_emit,
        visualize_run, checkpoint_run, pure_run, Outcome.world]
    · simp only [if_true, bind_run, modifyS_run, pure_run]
  · rfl

theorem loop_body_run (c : Coordinator σ τ) (dt : ℚ) (w : World σ τ) :
    loop_body c dt w =
      match trial_step c dt w with
      | Outcome.ok fail w1 => get_dt c fail w1
      | Outcome.raised e w1 => Outcome.raised e w1 := by
  unfold loop_body
  rw [bind_run]
  cases trial_step c dt w <;> rfl

/-- C1: an iteration of the main loop of cycle_driver that is entered with
NEXT time equal to CURRENT time and step size dt, and in which advance()
reports success, completes its trial step; afterwards the CURRENT time is
the CURRENT time before plus dt, the NEXT time equals the CURRENT time, and
the cycle is one more than before.  The same holds at the end of the
iteration, after the next step size has been computed. -/
theorem cycle_driver_accepted_step (c : Coordinator σ τ) (dt : ℚ) (w w1 : World σ τ)
    (hentry : w.S.get_time Tag.NEXT = w.S.get_time Tag.CURRENT)
    (hadv : advance c (trial_world w dt) = Outcome.ok false w1) :
    ∃ w2, trial_step c dt w = Outcome.ok false w2 ∧
      w2.S.get_time Tag.CURRENT = w.S.get_time Tag.CURRENT + dt ∧
      w2.S.get_time Tag.NEXT = w2.S.get_time Tag.CURRENT ∧
      w2.S.get_cycle = w.S.get_cycle + 1 ∧
      (loop_body c dt w).world.S = w2.S := by
  have hS : w1.S = (trial_world w dt).S := by
    have h := advance_keeps_S c (trial_world w dt)
    rw [hadv] at h
    exact h
  have hstep : trial_step c dt w = Outcome.ok false (accepted_world c w1) := by
    rw [trial_step_run, hadv]
  refine ⟨accepted_world c w1, hstep, ?_, ?_, ?_, ?_⟩
  · rw [accepted_world_S, hS]
    simp only [State.get_time, State.set_time, State.advance_time, State.Assign_dt,
      State.advance_cycle, Tag.slot, trial_world] at hentry ⊢
    rw [hentry]
  · rw [accepted_world_S, hS]
    simp [State.get_time, State.set_time, State.advance_time, State.Assign_dt,
      State.advance_cycle, Tag.slot, trial_world]
  · rw [accepted_world_S, hS]
    simp [State.get_cycle, State.set_time, State.advance_time, State.Assign_dt,
      State.advance_cycle, Tag.slot, trial_world]
  · rw [loop_body_run, hstep]
    exact get_dt_keeps_S c false (accepted_world c w1)

/-- C2: in an iteration of the main loop of cycle_driver in which advance()
reports failure, the trial step completes; the CURRENT time and the cycle
are the same as before the iteration, and the NEXT time has been reset to
the CURRENT time.  The same holds at the end of the iteration, after the
next step size has been computed. -/
theorem cycle_driver_rejected_step (c : Coordinator σ τ) (dt : ℚ) (w w1 : World σ τ)
    (hadv : advance c (trial_world w dt) = Outcome.ok true w1) :
    ∃ w2, trial_step c dt w = Outcome.ok true w2 ∧
      w2.S.get_time Tag.CURRENT = w.S.get_time Tag.CURRENT ∧
      w2.S.get_cycle = w.S.get_cycle ∧
      w2.S.get_time Tag.NEXT = w2.S.get_time Tag.CURRENT ∧
      (loop_body c dt w).world.S = w2.S := by
  have hS : w1.S = (trial_world w dt).S := by
    have h := advance_keeps_S c (trial_world w dt)
    rw [hadv] at h
    exact h
  have hstep : trial_step c dt w = Outcome.ok true
      { w1 with S := w1.S.set_time Tag.NEXT (w1.S.get_time Tag.CURRENT) } := by
    rw [trial_step_run, hadv]
  refine ⟨_, hstep, ?_, ?_, ?_, ?_⟩
  · simp [hS, State.get_time, State.set_time, State.advance_time, State.Assign_dt,
      Tag.slot, trial_world]
  · simp [hS, State.get_cycle, State.set_time, State.advance_time, State.Assign_dt,
      Tag.slot, trial_world]
  · simp [hS, State.get_time, State.set_time, State.advance_time, State.Assign_dt,
      Tag.slot, trial_world]
  · rw [loop_body_run, hstep]
    exact get_dt_keeps_S c true _

theorem cap_eq_min (dt max_dt : ℚ) : (if dt > max_dt then max_dt else dt) = min dt max_dt := by
  split_ifs with h
  · exact (min_eq_right (le_of_lt h)).symm
  · exact (min_eq_left (not_lt.mp h)).symm

/-- The loop condition: its value, and the world it leaves (only the number
of wallclock readings can change). -/
theorem loop_condition_run (c : Coordinator σ τ) (dt : ℚ) (w : World σ τ) :
    loop_condition c dt w =
      if (decide (c.t1_ < 0) || decide (w.S.get_time Tag.DEFAULT < c.t1_)) = false then
        Outcome.ok false w
      else if (c.cycle1_ == -1 || decide (w.S.get_cycle ≤ c.cycle1_)) = false then
        Outcome.ok false w
      else if c.duration_ < 0 then Outcome.ok (decide (dt > 0)) w
      else if c.totalElapsedTime w.timer_reads < c.duration_ * 3600 then
        Outcome.ok (decide (dt > 0)) { w with timer_reads := w.timer_reads + 1 }
      else Outcome.ok false { w with timer_reads := w.timer_reads + 1 } := by
  unfold loop_condition
  simp only [bind_run, getW_run]
  by_cases h1 : (decide (c.t1_ < 0) || decide (w.S.get_time Tag.DEFAULT < c.t1_)) = false
  · simp [h1, pure_run]
  · by_cases h2 : (c.cycle1_ == -1 || decide (w.S.get_cycle ≤ c.cycle1_)) = false
    · simp only [Bool.not_eq_false] at h1
      simp [h1, h2, pure_run, bind_run]
    · simp only [Bool.not_eq_false] at h1 h2
      by_cases h3 : c.duration_ < 0
      · simp [h1, h2, h3, pure_run, bind_run]
      · by_cases h4 : c.totalElapsedTime w.timer_reads < c.duration_ * 3600
        · simp [h1, h2, h3, h4, pure_run, bind_run, modifyW_run]
        · simp [h1, h2, h3, h4, pure_run, bind_run, modifyW_run]

/-- With a step size that is not positive the loop condition is false, and
the world it leaves differs at most in the number of wallclock readings. -/
theorem loop_condition_nonpos (c : Coordinator σ τ) (dt : ℚ) (w : World σ τ) (h : dt ≤ 0) :
    ∃ n, loop_condition c dt w = Outcome.ok false { w with timer_reads := n } := by
  rw [loop_condition_run]
  have hd : decide (dt > 0) = false := by simpa using h
  split_ifs
  · exact ⟨w.timer_reads, rfl⟩
  · exact ⟨w.timer_reads, rfl⟩
  · exact ⟨w.timer_reads, by rw [hd]⟩
  · exact ⟨w.timer_reads + 1, by rw [hd]⟩
  · exact ⟨w.timer_reads + 1, rfl⟩

theorem main_loop_exit (c : Coordinator σ τ) (fuel : Nat) (dt : ℚ) (w w1 : World σ τ)
    (h : loop_condition c dt w = Outcome.ok false w1) :
    main_loop c (fuel + 1) dt w = some (Outcome.ok () w1) := by
  rw [main_loop, h]

/-- C4 (amended): for every process step size dt_pk with dt_pk >= min_dt and
dt_pk >= 0, Coordinator::get_dt(after_fail) returns TimeStep(NEXT time,
min(dt_pk, max_dt), after_fail) of the step-size manager when subcycling is
off, and the minimum of that value and dt_pk when subcycling is on; the
step-size manager is queried exactly once, with the after_fail flag passed
through unchanged (the only change of the world is this query). -/
theorem get_dt_step_size (c : Coordinator σ τ) (after_fail : Bool) (w : World σ τ)
    (hmin : c.min_dt_ ≤ c.pk_.get_dt w.pk) (h0 : 0 ≤ c.pk_.get_dt w.pk) :
    get_dt c after_fail w =
      Outcome.ok
        (if c.subcycled_ts_ then
          min (c.tsm_.TimeStep (w.S.get_time Tag.NEXT) (min (c.pk_.get_dt w.pk) c.max_dt_)
            after_fail w.tsm).1 (c.pk_.get_dt w.pk)
        else
          (c.tsm_.TimeStep (w.S.get_time Tag.NEXT) (min (c.pk_.get_dt w.pk) c.max_dt_)
            after_fail w.tsm).1)
        { w with
          tsm := (c.tsm_.TimeStep (w.S.get_time Tag.NEXT) (min (c.pk_.get_dt w.pk) c.max_dt_)
            after_fail w.tsm).2,
          trace := w.trace ++ [Event.TimeStep (w.S.get_time Tag.NEXT)
            (min (c.pk_.get_dt w.pk) c.max_dt_) after_fail] } := by
  rw [get_dt_run, if_neg (not_lt.mpr h0), if_neg (not_lt.mpr hmin), cap_eq_min, std_min_eq]

/-- C5 (amended): for every process step size, maximum step size and floor
min_dt, and every response of the step-size manager that is itself not
below min_dt, Coordinator::get_dt either raises the error "timestep too
small", returns the negative sentinel of the process, or returns a step
size that is not below min_dt.  The floor is tested on the process step
size only, which is not below min_dt whenever a step size is computed. -/
theorem get_dt_floor (c : Coordinator σ τ) (after_fail : Bool) (w : World σ τ)
    (hts : c.min_dt_ ≤ (c.tsm_.TimeStep (w.S.get_time Tag.NEXT)
      (min (c.pk_.get_dt w.pk) c.max_dt_) after_fail w.tsm).1) :
    get_dt c after_fail w =
        Outcome.raised ⟨"Coordinator: error, timestep too small"⟩ w ∨
      (c.pk_.get_dt w.pk < 0 ∧ get_dt c after_fail w = Outcome.ok (c.pk_.get_dt w.pk) w) ∨
      ∃ dt w1, get_dt c after_fail w = Outcome.ok dt w1 ∧ c.min_dt_ ≤ dt ∧
        c.min_dt_ ≤ c.pk_.get_dt w.pk := by
  by_cases h0 : c.pk_.get_dt w.pk < 0
  · right; left
    exact ⟨h0, by rw [get_dt_run, if_pos h0]⟩
  · by_cases hmin : c.pk_.get_dt w.pk < c.min_dt_
    · left
      rw [get_dt_run, if_neg h0, if_pos hmin]
    · right; right
      rw [get_dt_run, if_neg h0, if_neg hmin, cap_eq_min]
      refine ⟨_, _, rfl, ?_, not_lt.mp hmin⟩
      split_ifs
      · rw [std_min_eq]
        exact le_min hts (not_lt.mp hmin)
      · exact hts

/-- C6: for every negative step size reported by the process,
Coordinator::get_dt returns exactly that value, whatever min_dt is (so also
when the value is below min_dt): it raises no error and does not consult the
step-size manager (the world is unchanged).  The main loop of cycle_driver,
reaching its condition with this step size, starts no further iteration: it
ends at once, with the state, the process, the step-size manager and the
trace untouched. -/
theorem get_dt_sentinel_stops (c : Coordinator σ τ) (after_fail : Bool) (w : World σ τ)
    (fuel : Nat) (h : c.pk_.get_dt w.pk < 0) :
    get_dt c after_fail w = Outcome.ok (c.pk_.get_dt w.pk) w ∧
    ∃ w1, main_loop c (fuel + 1) (c.pk_.get_dt w.pk) w = some (Outcome.ok () w1) ∧
      w1.S = w.S ∧ w1.pk = w.pk ∧ w1.tsm = w.tsm ∧ w1.trace = w.trace := by
  constructor
  · rw [get_dt_run, if_pos h]
  · obtain ⟨n, hn⟩ := loop_condition_nonpos c (c.pk_.get_dt w.pk) w (le_of_lt h)
    exact ⟨_, main_loop_exit c fuel _ w _ hn, rfl, rfl, rfl, rfl⟩

/-- C7 (amended): for every configured end cycle cycle1 other than -1, no
trial step is started when the current cycle is greater than cycle1: the
main loop ends at once and leaves the world as it is.  (At a cycle equal to
cycle1 the loop condition still holds.) -/
theorem main_loop_past_end_cycle (c : Coordinator σ τ) (fuel : Nat) (dt : ℚ) (w : World σ τ)
    (hc : c.cycle1_ ≠ -1) (hgt : c.cycle1_ < w.S.get_cycle) :
    main_loop c (fuel + 1) dt w = some (Outcome.ok () w) := by
  apply main_loop_exit
  rw [loop_condition_run]
  have h2 : (c.cycle1_ == -1 || decide (w.S.get_cycle ≤ c.cycle1_)) = false := by
    simp [hc, hgt]
  split_ifs with h1
  · rfl
  · rfl

/-- More iterations allowed do not change a run of the main loop that
ended. -/
theorem main_loop_mono (c : Coordinator σ τ) (fuel k : Nat) (dt : ℚ) (w : World σ τ)
    (r : Outcome Unit (World σ τ)) (h : main_loop c fuel dt w = some r) :
    main_loop c (fuel + k) dt w = some r := by
  induction fuel generalizing dt w with
  | zero => simp [main_loop] at h
  | succ n ih =>
    rw [Nat.succ_add]
    rw [main_loop] at h ⊢
    rcases hc : loop_condition c dt w with ⟨b, w1⟩ | ⟨e, w1⟩
    · rw [hc] at h
      cases b
      · exact h
      · dsimp only at h ⊢
        rcases hb : loop_body c dt w1 with ⟨dt2, w2⟩ | ⟨e, w2⟩
        · rw [hb] at h
          exact ih dt2 w2 h
        · rw [hb] at h
          exact h
    · rw [hc] at h
      exact h

theorem guarded_loop_mono (d : Nat) (c : Coordinator σ τ) (fuel k : Nat) (dt : ℚ)
    (w : World σ τ) (r : Outcome Unit (World σ τ)) (h : guarded_loop d c fuel dt w = some r) :
    guarded_loop d c (fuel + k) dt w = some r := by
  unfold guarded_loop at h ⊢
  split_ifs at h ⊢ with hd
  · rcases hm : main_loop c fuel dt w with _ | r1
    · rw [hm] at h; simp at h
    · rw [main_loop_mono c fuel k dt w r1 hm]
      rw [hm] at h
      exact h
  · exact main_loop_mono c fuel k dt w r h

theorem cycle_driver_mono (c : Coordinator σ τ) (fuel k : Nat) (w : World σ τ)
    (r : Outcome Unit (World σ τ)) (h : cycle_driver c fuel w = some r) :
    cycle_driver c (fuel + k) w = some r := by
  unfold cycle_driver cycle_driver_with at h ⊢
  rcases hs : cycle_driver_start c w with ⟨dt, w1⟩ | ⟨e, w1⟩
  · rw [hs] at h
    dsimp only at h ⊢
    rcases hg : guarded_loop DEBUG_MODE c fuel dt w1 with _ | r1
    · rw [hg] at h; simp at h
    · rw [guarded_loop_mono DEBUG_MODE c fuel k dt w1 r1 hg]
      rw [hg] at h
      exact h
  · rw [hs] at h
    exact h

theorem error_handler_run (c : Coordinator σ τ) (e : Message) (w : World σ τ) :
    ∃ w2, error_handler c e w = Outcome.raised e w2 ∧
      w2.trace = w.trace ++ handler_events c w := by
  unfold error_handler handler_events
  simp only [bind_run, modifyS_run, visualize_run, forEach_emit, modifyW_run, getW_run,
    emit_run, amanzi_throw_run]
  refine ⟨_, rfl, ?_⟩
  simp [visualize_events, dump_requested]

/-- C8 (amended): DEBUG_MODE is defined as 1, so the try and catch around
the main loop are compiled out: whenever an error is raised inside the main
loop, cycle_driver propagates it to the caller at once, in the world of the
throw (no visualization dump, no flush and no checkpoint is added).  Only
when compiled with DEBUG_MODE 0 does cycle_driver, before the error
propagates, emit one forced visualization dump (diagnostics and every
visualization target), flush every observation target, and write the two
checkpoints "last_good_checkpoint" and "error_checkpoint". -/
theorem error_in_main_loop (c : Coordinator σ τ) (fuel : Nat) (dt : ℚ) (e : Message)
    (w0 w w1 : World σ τ)
    (hs : cycle_driver_start c w0 = Outcome.ok dt w)
    (h : main_loop c fuel dt w = some (Outcome.raised e w1)) :
    cycle_driver c fuel w0 = some (Outcome.raised e w1) ∧
    ∃ w2, cycle_driver_with 0 c fuel w0 = some (Outcome.raised e w2) ∧
      w2.trace = w1.trace ++ handler_events c w1 := by
  constructor
  · unfold cycle_driver cycle_driver_with guarded_loop
    rw [hs]
    simp only [DEBUG_MODE, Nat.one_ne_zero, if_false, h]
  · obtain ⟨w2, h2, htr⟩ := error_handler_run c e w1
    refine ⟨w2, ?_, htr⟩
    unfold cycle_driver_with guarded_loop
    rw [hs]
    simp only [if_true, h, h2]

theorem report_ok {σ τ : Type} (r : Option (Outcome Unit (World σ τ))) (cycle : Int)
    (tc tn : ℚ) (log : List Event) (h : report r = some (none, cycle, tc, tn, log)) :
    ∃ w, r = some (Outcome.ok () w) ∧ w.S.get_cycle = cycle ∧
      w.S.get_time Tag.CURRENT = tc ∧ w.S.get_time Tag.NEXT = tn ∧ step_log w.trace = log := by
  rcases r with _ | ⟨u, w⟩ | ⟨e, w⟩
  · simp [report] at h
  · simp only [report, Option.map_some', Outcome.message, Outcome.world, Option.some.injEq,
      Prod.mk.injEq, true_and] at h
    exact ⟨w, rfl, h.1, h.2.1, h.2.2.1, h.2.2.2⟩
  · simp [report, Outcome.message] at h

theorem scenario_A_report :
    report (cycle_driver (coordinator 0 1) 11 world0) =
      some (none, 10, 100, 100, scenario_A_log) := by
  decide!

theorem trial_sizes_step_log (t : List Event) : trial_sizes (step_log t) = trial_sizes t := by
  induction t with
  | nil => rfl
  | cons e es ih =>
    unfold step_log at ih ⊢
    cases e <;>
      simp [List.filter_cons, trial_sizes, Event.isStep, Event.isAdvanceStep,
        Event.isCommitStep, Event.isFailStep, ih]

theorem filter_fail_step_log (t : List Event) :
    (step_log t).filter Event.isFailStep = t.filter Event.isFailStep := by
  unfold step_log
  rw [List.filter_filter]
  congr 1
  funext e
  cases e <;> simp [Event.isStep, Event.isAdvanceStep, Event.isCommitStep, Event.isFailStep]

theorem scenario_A_start :
    (cycle_driver_start (coordinator 0 1) world0).world.S.get_cycle = 0 := by
  decide!

/-- C9: Scenario A.  For a non-restarted run with start time 0, end time
100, default start and end cycle, default min/max step size, no wallclock
budget, a process whose get_dt is constantly 10 and whose AdvanceStep and
ValidStep always succeed, and a step-size manager that returns the proposed
step unchanged, cycle_driver (given room for at least 11 evaluations of the
loop condition) returns after exactly 10 trial steps of size 10, all
accepted and none rejected; the cycle goes from 0 (after initialize) to 10,
and the final CURRENT time is 100. -/
theorem scenario_A (fuel : Nat) (h : 11 ≤ fuel) :
    (cycle_driver_start (coordinator 0 1) world0).world.S.get_cycle = 0 ∧
    ∃ w, cycle_driver (coordinator 0 1) fuel world0 = some (Outcome.ok () w) ∧
      w.S.get_cycle = 10 ∧ w.S.get_time Tag.CURRENT = 100 ∧
      step_log w.trace = scenario_A_log ∧
      trial_sizes w.trace = [10, 10, 10, 10, 10, 10, 10, 10, 10, 10] ∧
      w.trace.filter Event.isFailStep = [] := by
  refine ⟨scenario_A_start, ?_⟩
  obtain ⟨w, hw, hc, ht, _, hl⟩ := report_ok _ _ _ _ _ scenario_A_report
  obtain ⟨k, rfl⟩ := Nat.exists_eq_add_of_le h
  refine ⟨w, cycle_driver_mono _ 11 k _ _ hw, hc, ht, hl, ?_, ?_⟩
  · rw [← trial_sizes_step_log, hl]
    norm_num [scenario_A_log, trial_sizes]
  · rw [← filter_fail_step_log, hl]
    rfl

/-- Witness of C9 with room for exactly 11 evaluations of the loop
condition. -/
theorem scenario_A_witness :
    11 ≤ 11 ∧
    (cycle_driver_start (coordinator 0 1) world0).world.S.get_cycle = 0 ∧
    ∃ w, cycle_driver (coordinator 0 1) 11 world0 = some (Outcome.ok () w) ∧
      w.S.get_cycle = 10 ∧ w.S.get_time Tag.CURRENT = 100 ∧
      step_log w.trace = scenario_A_log ∧
      trial_sizes w.trace = [10, 10, 10, 10, 10, 10, 10, 10, 10, 10] ∧
      w.trace.filter Event.isFailStep = [] :=
  ⟨le_refl 11, scenario_A 11 (le_refl 11)⟩

theorem ok_of_message {α W : Type} (d : α) (o : Outcome α W) (h : o.message = none) :
    o = Outcome.ok (o.value d) o.world := by
  cases o with
  | ok a w => rfl
  | raised e w => simp [Outcome.message] at h

theorem raised_of_message {α W : Type} (d : W) (e : Message) (r : Option (Outcome α W))
    (h : r.map Outcome.message = some (some e)) :
    r = some (Outcome.raised e (end_world d r)) := by
  rcases r with _ | ⟨a, w⟩ | ⟨e1, w⟩
  · simp at h
  · simp [Outcome.message] at h
  · simp only [Option.map_some', Outcome.message, Option.some.injEq] at h
    subst h
    rfl

/-- Witness of C1: the first trial step of Scenario A. -/
theorem cycle_driver_accepted_step_witness :
    world0.S.get_time Tag.NEXT = world0.S.get_time Tag.CURRENT ∧
    advance (coordinator 0 1) (trial_world world0 10) =
      Outcome.ok false (advance (coordinator 0 1) (trial_world world0 10)).world ∧
    ∃ w2, trial_step (coordinator 0 1) 10 world0 = Outcome.ok false w2 ∧
      w2.S.get_time Tag.CURRENT = world0.S.get_time Tag.CURRENT + 10 ∧
      w2.S.get_time Tag.NEXT = w2.S.get_time Tag.CURRENT ∧
      w2.S.get_cycle = world0.S.get_cycle + 1 ∧
      (loop_body (coordinator 0 1) 10 world0).world.S = w2.S :=
  ⟨rfl, rfl, cycle_driver_accepted_step (coordinator 0 1) 10 world0 _ rfl rfl⟩

/-- Witness of C2: a first trial step that is forced to fail. -/
theorem cycle_driver_rejected_step_witness :
    advance (coordinator 1 1) (trial_world world0 10) =
      Outcome.ok true (advance (coordinator 1 1) (trial_world world0 10)).world ∧
    ∃ w2, trial_step (coordinator 1 1) 10 world0 = Outcome.ok true w2 ∧
      w2.S.get_time Tag.CURRENT = world0.S.get_time Tag.CURRENT ∧
      w2.S.get_cycle = world0.S.get_cycle ∧
      w2.S.get_time Tag.NEXT = w2.S.get_time Tag.CURRENT ∧
      (loop_body (coordinator 1 1) 10 world0).world.S = w2.S :=
  ⟨rfl, cycle_driver_rejected_step (coordinator 1 1) 10 world0 _ rfl⟩

/-- Counterexample to C4 as stated: with the floor min_dt = -1 the process
step size -1/2 is not below min_dt, the step-size manager would answer 7,
yet get_dt returns -1/2 and leaves the world unchanged: the step-size
manager is not queried. -/
theorem get_dt_negative_step_counterexample :
    negative_floor.min_dt_ ≤ negative_floor.pk_.get_dt (world_with_dt (-1 / 2)).pk ∧
    negative_floor.subcycled_ts_ = false ∧
    (negative_floor.tsm_.TimeStep ((world_with_dt (-1 / 2)).S.get_time Tag.NEXT)
      (min (negative_floor.pk_.get_dt (world_with_dt (-1 / 2)).pk) negative_floor.max_dt_)
      false (world_with_dt (-1 / 2)).tsm).1 = 7 ∧
    get_dt negative_floor false (world_with_dt (-1 / 2)) =
      Outcome.ok (-1 / 2) (world_with_dt (-1 / 2)) ∧
    ((get_dt negative_floor false (world_with_dt (-1 / 2))).world.trace.filter
      Event.isTimeStep).length ≠ 1 := by
  refine ⟨by decide!, rfl, rfl, ?_, ?_⟩
  · rw [get_dt_run]
    norm_num [negative_floor, coordinator, process, world_with_dt]
  · rw [get_dt_run]
    norm_num [negative_floor, coordinator, process, world_with_dt, world0, Outcome.world]

/-- Witness of C4: the first step size of Scenario A. -/
theorem get_dt_step_size_witness :
    (coordinator 0 1).min_dt_ ≤ (coordinator 0 1).pk_.get_dt world0.pk ∧
    0 ≤ (coordinator 0 1).pk_.get_dt world0.pk ∧
    get_dt (coordinator 0 1) true world0 =
      Outcome.ok
        (if (coordinator 0 1).subcycled_ts_ then
          min ((coordinator 0 1).tsm_.TimeStep (world0.S.get_time Tag.NEXT)
            (min ((coordinator 0 1).pk_.get_dt world0.pk) (coordinator 0 1).max_dt_)
            true world0.tsm).1 ((coordinator 0 1).pk_.get_dt world0.pk)
        else
          ((coordinator 0 1).tsm_.TimeStep (world0.S.get_time Tag.NEXT)
            (min ((coordinator 0 1).pk_.get_dt world0.pk) (coordinator 0 1).max_dt_)
            true world0.tsm).1)
        { world0 with
          tsm := ((coordinator 0 1).tsm_.TimeStep (world0.S.get_time Tag.NEXT)
            (min ((coordinator 0 1).pk_.get_dt world0.pk) (coordinator 0 1).max_dt_)
            true world0.tsm).2,
          trace := world0.trace ++ [Event.TimeStep (world0.S.get_time Tag.NEXT)
            (min ((coordinator 0 1).pk_.get_dt world0.pk) (coordinator 0 1).max_dt_) true] } :=
  ⟨by decide!, by decide!,
    get_dt_step_size (coordinator 0 1) true world0 (by decide!) (by decide!)⟩

/-- Counterexample to C5 as stated: with floor 1, maximum step 100, process
step size 10 and a step-size manager that answers 1/2, get_dt raises no
error and returns 1/2, which is not negative and is below the floor. -/
theorem get_dt_below_floor_counterexample :
    get_dt low_response false world0 =
      Outcome.ok (1 / 2) { world0 with trace := [Event.TimeStep 0 10 false] } ∧
    ¬ ((1 / 2 : ℚ) < 0) ∧ (1 / 2 : ℚ) < low_response.min_dt_ := by
  refine ⟨?_, by norm_num, by norm_num [low_response]⟩
  rw [get_dt_run]
  norm_num [low_response, coordinator, process, world0, constant, State.get_time, Tag.slot]

/-- Witness of C5: the first step size of Scenario A is not below the
floor. -/
theorem get_dt_floor_witness :
    (coordinator 0 1).min_dt_ ≤ ((coordinator 0 1).tsm_.TimeStep (world0.S.get_time Tag.NEXT)
      (min ((coordinator 0 1).pk_.get_dt world0.pk) (coordinator 0 1).max_dt_) false
      world0.tsm).1 ∧
    (get_dt (coordinator 0 1) false world0 =
        Outcome.raised ⟨"Coordinator: error, timestep too small"⟩ world0 ∨
      ((coordinator 0 1).pk_.get_dt world0.pk < 0 ∧
        get_dt (coordinator 0 1) false world0 =
          Outcome.ok ((coordinator 0 1).pk_.get_dt world0.pk) world0) ∨
      ∃ dt w1, get_dt (coordinator 0 1) false world0 = Outcome.ok dt w1 ∧
        (coordinator 0 1).min_dt_ ≤ dt ∧
        (coordinator 0 1).min_dt_ ≤ (coordinator 0 1).pk_.get_dt world0.pk) :=
  ⟨by decide!, get_dt_floor (coordinator 0 1) false world0 (by decide!)⟩

/-- Witness of C6: a process that reports the step size -1, which is below
the default floor. -/
theorem get_dt_sentinel_stops_witness :
    (coordinator 0 1).pk_.get_dt (world_with_dt (-1)).pk < 0 ∧
    (coordinator 0 1).pk_.get_dt (world_with_dt (-1)).pk < (coordinator 0 1).min_dt_ ∧
    get_dt (coordinator 0 1) true (world_with_dt (-1)) =
      Outcome.ok ((coordinator 0 1).pk_.get_dt (world_with_dt (-1)).pk) (world_with_dt (-1)) ∧
    ∃ w1, main_loop (coordinator 0 1) (0 + 1)
        ((coordinator 0 1).pk_.get_dt (world_with_dt (-1)).pk) (world_with_dt (-1)) =
          some (Outcome.ok () w1) ∧
      w1.S = (world_with_dt (-1)).S ∧ w1.pk = (world_with_dt (-1)).pk ∧
      w1.tsm = (world_with_dt (-1)).tsm ∧ w1.trace = (world_with_dt (-1)).trace :=
  ⟨by decide!, by decide!,
    get_dt_sentinel_stops (coordinator 0 1) true (world_with_dt (-1)) 0 (by decide!)⟩

/-- Counterexample to C7 as stated: with end cycle 0 and the current cycle
equal to it, the main loop starts a trial step (from time 0 to time 10);
it stops only at cycle 1. -/
theorem end_cycle_counterexample :
    end_cycle_0.cycle1_ ≠ -1 ∧ end_cycle_0.cycle1_ ≤ world0.S.get_cycle ∧
    report (main_loop end_cycle_0 2 10 world0) =
      some (none, 1, 10, 10,
        [Event.AdvanceStep 0 10 false, Event.CommitStep 0 10 Tag.NEXT]) := by
  decide!

/-- Witness of C7: end cycle 0 and current cycle 1. -/
theorem main_loop_past_end_cycle_witness :
    end_cycle_0.cycle1_ ≠ -1 ∧ end_cycle_0.cycle1_ < world_cycle_1.S.get_cycle ∧
    main_loop end_cycle_0 (0 + 1) 10 world_cycle_1 = some (Outcome.ok () world_cycle_1) :=
  ⟨by decide, by decide,
    main_loop_past_end_cycle end_cycle_0 0 10 world_cycle_1 (by decide) (by decide)⟩

/-- Counterexample to C8 as stated: a run with one observation and one
visualization target in which get_dt raises "timestep too small" inside the
main loop, after the failed third trial step.  cycle_driver ends with this
error, and its trace holds no visualization dump, no flush and no
checkpoint. -/
theorem error_dump_counterexample :
    (cycle_driver_start unrecoverable world0).message = none ∧
    (cycle_driver unrecoverable 4 world0).map
        (fun o => (o.message, trial_sizes o.world.trace, dump_log o.world.trace)) =
      some (some ⟨"Coordinator: error, timestep too small"⟩, [10, 10, 10], []) := by
  decide!

theorem unrecoverable_start :
    cycle_driver_start unrecoverable world0 = Outcome.ok start_dt start_world :=
  ok_of_message 0 _ (by decide!)

theorem unrecoverable_throw :
    main_loop unrecoverable 4 start_dt start_world =
      some (Outcome.raised ⟨"Coordinator: error, timestep too small"⟩ throw_world) :=
  raised_of_message world0 _ _ (by decide!)

/-- Witness of C8: the unrecoverable run. -/
theorem error_in_main_loop_witness :
    cycle_driver_start unrecoverable world0 = Outcome.ok start_dt start_world ∧
    main_loop unrecoverable 4 start_dt start_world =
      some (Outcome.raised ⟨"Coordinator: error, timestep too small"⟩ throw_world) ∧
    cycle_driver unrecoverable 4 world0 =
      some (Outcome.raised ⟨"Coordinator: error, timestep too small"⟩ throw_world) ∧
    ∃ w2, cycle_driver_with 0 unrecoverable 4 world0 =
        some (Outcome.raised ⟨"Coordinator: error, timestep too small"⟩ w2) ∧
      w2.trace = throw_world.trace ++ handler_events unrecoverable throw_world :=
  ⟨unrecoverable_start, unrecoverable_throw,
    error_in_main_loop unrecoverable 4 start_dt _ world0 start_world throw_world
      unrecoverable_start unrecoverable_throw⟩

theorem trial_report_ok {σ τ : Type} (r : Option (Outcome Unit (World σ τ))) (cycle : Int)
    (tc : ℚ) (sizes : List ℚ) (fails : List Event)
    (h : trial_report r = some (none, cycle, tc, sizes, fails)) :
    ∃ w, r = some (Outcome.ok () w) ∧ w.S.get_cycle = cycle ∧
      w.S.get_time Tag.CURRENT = tc ∧ trial_sizes w.trace = sizes ∧
      w.trace.filter Event.isFailStep = fails := by
  rcases r with _ | ⟨u, w⟩ | ⟨e, w⟩
  · simp [trial_report] at h
  · simp only [trial_report, Option.map_some', Outcome.message, Outcome.world,
      Option.some.injEq, Prod.mk.injEq, true_and] at h
    exact ⟨w, rfl, h.1, h.2.1, h.2.2.1, h.2.2.2⟩
  · simp [trial_report, Outcome.message] at h

theorem scenario_B_third_trial :
    third_trial (coordinator 3 1) = some (10, 2, true, 2, 20, 10) := by
  decide!

theorem scenario_B_report :
    trial_report (cycle_driver (coordinator 3 1) 12 world0) =
      some (none, 10, 100, [10, 10, 10, 10, 10, 10, 10, 10, 10, 10, 10],
        [Event.FailStep 20 30 Tag.NEXT]) := by
  decide!

theorem scenario_B_halving_third_trial :
    third_trial (coordinator 3 (1 / 2)) = some (10, 2, true, 2, 20, 5) := by
  decide!

theorem scenario_B_halving_report :
    trial_report (cycle_driver (coordinator 3 (1 / 2)) 20 world0) =
      some (none, 18, 100, [10, 10, 10, 5, 5, 5, 5, 5, 5, 5, 5, 5, 5, 5, 5, 5, 5, 5, 5],
        [Event.FailStep 20 30 Tag.NEXT]) := by
  decide!

/-- Counterexample to C10 as stated: in the run configured as Scenario A
(process step size constantly 10, pass-through step-size manager) whose
third trial advance is forced to fail, the failed trial has step size 10
and the retry that follows has step size 10 again, which is not smaller. -/
theorem scenario_B_retry_counterexample :
    third_trial (coordinator 3 1) = some (10, 2, true, 2, 20, 10) ∧ ¬ ((10 : ℚ) < 10) :=
  ⟨scenario_B_third_trial, by norm_num⟩

/-- C10 (amended): Scenario B.  In a run configured as Scenario A in which
the third trial advance is forced to fail, the cycle does not advance on
the failed trial (it is 2 before and after, and the CURRENT time stays 20),
the retry that follows uses the step size that get_dt(true) returns, and
the run completes with CURRENT time equal to the end time 100.  With the
constant process step 10 of Scenario A the retry uses 10 again (11 trial
steps, final cycle 10); the retry is smaller only when the process itself
reduces its step: with a process that halves its step in FailStep the retry
uses 5 (19 trial steps, final cycle 18). -/
theorem scenario_B (fuel : Nat) (h : 20 ≤ fuel) :
    third_trial (coordinator 3 1) = some (10, 2, true, 2, 20, 10) ∧
    (∃ w, cycle_driver (coordinator 3 1) fuel world0 = some (Outcome.ok () w) ∧
      w.S.get_cycle = 10 ∧ w.S.get_time Tag.CURRENT = 100 ∧
      trial_sizes w.trace = [10, 10, 10, 10, 10, 10, 10, 10, 10, 10, 10] ∧
      w.trace.filter Event.isFailStep = [Event.FailStep 20 30 Tag.NEXT]) ∧
    third_trial (coordinator 3 (1 / 2)) = some (10, 2, true, 2, 20, 5) ∧
    (∃ w, cycle_driver (coordinator 3 (1 / 2)) fuel world0 = some (Outcome.ok () w) ∧
      w.S.get_cycle = 18 ∧ w.S.get_time Tag.CURRENT = 100 ∧
      trial_sizes w.trace =
        [10, 10, 10, 5, 5, 5, 5, 5, 5, 5, 5, 5, 5, 5, 5, 5, 5, 5, 5] ∧
      w.trace.filter Event.isFailStep = [Event.FailStep 20 30 Tag.NEXT]) := by
  refine ⟨scenario_B_third_trial, ?_, scenario_B_halving_third_trial, ?_⟩
  · obtain ⟨w, hw, hrest⟩ := trial_report_ok _ _ _ _ _ scenario_B_report
    obtain ⟨k, rfl⟩ := Nat.exists_eq_add_of_le (le_trans (by decide : 12 ≤ 20) h)
    exact ⟨w, cycle_driver_mono _ 12 k _ _ hw, hrest⟩
  · obtain ⟨w, hw, hrest⟩ := trial_report_ok _ _ _ _ _ scenario_B_halving_report
    obtain ⟨k, rfl⟩ := Nat.exists_eq_add_of_le h
    exact ⟨w, cycle_driver_mono _ 20 k _ _ hw, hrest⟩

/-- Witness of C10 with room for exactly 20 evaluations of the loop
condition. -/
theorem scenario_B_witness :
    20 ≤ 20 ∧
    third_trial (coordinator 3 1) = some (10, 2, true, 2, 20, 10) ∧
    (∃ w, cycle_driver (coordinator 3 1) 20 world0 = some (Outcome.ok () w) ∧
      w.S.get_cycle = 10 ∧ w.S.get_time Tag.CURRENT = 100 ∧
      trial_sizes w.trace = [10, 10, 10, 10, 10, 10, 10, 10, 10, 10, 10] ∧
      w.trace.filter Event.isFailStep = [Event.FailStep 20 30 Tag.NEXT]) ∧
    third_trial (coordinator 3 (1 / 2)) = some (10, 2, true, 2, 20, 5) ∧
    (∃ w, cycle_driver (coordinator 3 (1 / 2)) 20 world0 = some (Outcome.ok () w) ∧
      w.S.get_cycle = 18 ∧ w.S.get_time Tag.CURRENT = 100 ∧
      trial_sizes w.trace =
        [10, 10, 10, 5, 5, 5, 5, 5, 5, 5, 5, 5, 5, 5, 5, 5, 5, 5, 5] ∧
      w.trace.filter Event.isFailStep = [Event.FailStep 20 30 Tag.NEXT]) :=
  ⟨le_refl 20, scenario_B 20 (le_refl 20)⟩

theorem std_max_eq (a b : ℚ) : std_max a b = max a b := by
  unfold std_max
  split_ifs with h
  · exact (max_eq_right (le_of_lt h)).symm
  · exact (max_eq_left (not_lt.mp h)).symm

/-- Without NaN the loop over the entries returns; enorm_comp does not
decrease, bounds every quotient, and is the start value or one of the
quotients. -/
theorem enorm_entries_max (atol rtol : ℚ) (l : List (ℚ × Option ℚ)) (acc : ℚ × ℚ)
    (hnan : ∀ e ∈ l, e.2 ≠ none) :
    ∃ r, PKPhysicalBDFBase.enorm_entries atol rtol l acc = Except.ok r ∧ acc.1 ≤ r.1 ∧
      (∀ e ∈ l, entry_ratio atol rtol e ≤ r.1) ∧
      (r.1 = acc.1 ∨ ∃ e ∈ l, r.1 = entry_ratio atol rtol e) := by
  induction l generalizing acc with
  | nil => exact ⟨acc, rfl, le_refl _, by simp, Or.inl rfl⟩
  | cons e es ih =>
    obtain ⟨u, du⟩ := e
    cases du with
    | none => exact absurd rfl (hnan (u, none) (List.mem_cons_self _ _))
    | some d =>
      obtain ⟨r, hr, hle, hall, hatt⟩ :=
        ih (std_max acc.1 (|d| / (atol + rtol * |u|)), std_max acc.2 |d|)
          (fun e he => hnan e (List.mem_cons_of_mem _ he))
      refine ⟨r, ?_, ?_, ?_, ?_⟩
      · rw [PKPhysicalBDFBase.enorm_entries]
        exact hr
      · exact le_trans (by rw [std_max_eq]; exact le_max_left _ _) hle
      · intro e he
        rcases List.mem_cons.mp he with rfl | he
        · refine le_trans ?_ hle
          rw [std_max_eq]
          exact le_max_right _ _
        · exact hall e he
      · rcases hatt with h | ⟨e, he, h⟩
        · simp only [std_max_eq] at h
          rcases max_choice acc.1 (|d| / (atol + rtol * |u|)) with hm | hm
          · left; rw [h, hm]
          · right
            exact ⟨(u, some d), List.mem_cons_self _ _, by rw [h, hm]; rfl⟩
        · right
          exact ⟨e, List.mem_cons_of_mem _ he, h⟩

/-- Without NaN the loop over the components returns; enorm_val does not
decrease, bounds every quotient, and is the start value or one of the
quotients. -/
theorem enorm_components_max (atol rtol : ℚ) (vec : List Component) (v0 : ℚ)
    (hv0 : 0 ≤ v0)
    (hpos : ∀ comp ∈ vec, ∀ e ∈ comp.entries, 0 ≤ entry_ratio atol rtol e)
    (hnan : ∀ comp ∈ vec, ∀ e ∈ comp.entries, e.2 ≠ none) :
    ∃ v, PKPhysicalBDFBase.enorm_components atol rtol vec v0 = Except.ok v ∧ v0 ≤ v ∧
      (∀ comp ∈ vec, ∀ e ∈ comp.entries, entry_ratio atol rtol e ≤ v) ∧
      (v = v0 ∨ ∃ comp ∈ vec, ∃ e ∈ comp.entries, v = entry_ratio atol rtol e) := by
  induction vec generalizing v0 with
  | nil => exact ⟨v0, rfl, le_refl _, by simp, Or.inl rfl⟩
  | cons comp rest ih =>
    obtain ⟨r, hr, hle, hall, hatt⟩ := enorm_entries_max atol rtol comp.entries (0, 0)
      (hnan comp (List.mem_cons_self _ _))
    have hm0 : 0 ≤ std_max v0 r.1 := by
      rw [std_max_eq]
      exact le_trans hv0 (le_max_left _ _)
    obtain ⟨v, hv, hvle, hvall, hvatt⟩ := ih (std_max v0 r.1) hm0
      (fun c hc => hpos c (List.mem_cons_of_mem _ hc))
      (fun c hc => hnan c (List.mem_cons_of_mem _ hc))
    have hm : std_max v0 r.1 = max v0 r.1 := std_max_eq _ _
    refine ⟨v, ?_, ?_, ?_, ?_⟩
    · rw [PKPhysicalBDFBase.enorm_components, hr]
      exact hv
    · exact le_trans (by rw [hm]; exact le_max_left _ _) hvle
    · intro c hc e he
      rcases List.mem_cons.mp hc with rfl | hc
      · exact le_trans (hall e he) (le_trans (by rw [hm]; exact le_max_right _ _) hvle)
      · exact hvall c hc e he
    · rcases hvatt with h | ⟨c, hc, e, he, h⟩
      · rcases max_choice v0 r.1 with hc | hc
        · left; rw [h, hm, hc]
        · rcases hatt with h0 | ⟨e, he, h1⟩
          · -- the component brought nothing above 0
            have hr0 : r.1 = 0 := h0
            by_cases hnil : comp.entries = []
            · left
              rw [h, hm]
              have : r.1 ≤ v0 := by
                rw [hr0]
                exact hv0
              exact max_eq_left this
            · right
              obtain ⟨e, he⟩ := List.exists_mem_of_ne_nil _ hnil
              refine ⟨comp, List.mem_cons_self _ _, e, he, ?_⟩
              rw [h, hm, hc, hr0]
              exact le_antisymm (hpos comp (List.mem_cons_self _ _) e he)
                (by rw [← hr0]; exact hall e he)
          · right
            exact ⟨comp, List.mem_cons_self _ _, e, he, by rw [h, hm, hc, h1]⟩
      · right
        exact ⟨c, List.mem_cons_of_mem _ hc, e, he, h⟩

theorem enorm_run (pk : PKPhysicalBDFBase) (t_next t_inter : ℚ) (vec : List Component)
    (others : List ℚ) :
    PKPhysicalBDFBase.enorm pk t_next t_inter vec others =
      (enorm_with (used_tolerances pk (t_next - t_inter)).1
          (used_tolerances pk (t_next - t_inter)).2 vec others,
        after_enorm pk (t_next - t_inter)) := by
  unfold PKPhysicalBDFBase.enorm enorm_with used_tolerances after_enorm
  by_cases h : pk.adapt_tols_to_h_ = true
  · simp only [h, if_true]
    cases PKPhysicalBDFBase.enorm_components (pk.atol0_ / (t_next - t_inter))
      (pk.rtol0_ / (t_next - t_inter)) vec 0 <;> rfl
  · simp only [h, Bool.false_eq_true, if_false]
    cases PKPhysicalBDFBase.enorm_components pk.atol_ pk.rtol_ vec 0 <;> rfl

theorem entry_ratio_nonneg (atol rtol : ℚ) (hatol : 0 < atol) (hrtol : 0 ≤ rtol)
    (e : ℚ × Option ℚ) : 0 < atol + rtol * |e.1| ∧ 0 ≤ entry_ratio atol rtol e := by
  have hden : 0 < atol + rtol * |e.1| :=
    add_pos_of_pos_of_nonneg hatol (mul_nonneg hrtol (abs_nonneg _))
  exact ⟨hden, div_nonneg (abs_nonneg _) (le_of_lt hden)⟩

/-- C12: for every u and du (with the same components and sizes), no NaN
entry in du, atol > 0 and rtol >= 0, on a single worker enorm(u, du) returns
the maximum over all components and all entries i of
|du_i| / (atol + rtol |u_i|): it bounds every quotient and is one of them,
or is 0 when there are no entries; every denominator is positive.  Here
atol and rtol are the tolerances the call computes with. -/
theorem enorm_is_max (pk : PKPhysicalBDFBase) (t_next t_inter : ℚ) (vec : List Component)
    (hnan : ∀ comp ∈ vec, ∀ e ∈ comp.entries, e.2 ≠ none)
    (hatol : 0 < (used_tolerances pk (t_next - t_inter)).1)
    (hrtol : 0 ≤ (used_tolerances pk (t_next - t_inter)).2) :
    (∀ comp ∈ vec, ∀ e ∈ comp.entries,
      0 < (used_tolerances pk (t_next - t_inter)).1 +
        (used_tolerances pk (t_next - t_inter)).2 * |e.1|) ∧
    ∃ v, (PKPhysicalBDFBase.enorm pk t_next t_inter vec []).1 = Except.ok v ∧
      (∀ comp ∈ vec, ∀ e ∈ comp.entries,
        entry_ratio (used_tolerances pk (t_next - t_inter)).1
          (used_tolerances pk (t_next - t_inter)).2 e ≤ v) ∧
      ((∃ comp ∈ vec, ∃ e ∈ comp.entries,
          v = entry_ratio (used_tolerances pk (t_next - t_inter)).1
            (used_tolerances pk (t_next - t_inter)).2 e) ∨
        ((∀ comp ∈ vec, comp.entries = []) ∧ v = 0)) := by
  refine ⟨fun comp _ e _ => (entry_ratio_nonneg _ _ hatol hrtol e).1, ?_⟩
  obtain ⟨v, hv, hle, hall, hatt⟩ := enorm_components_max
    (used_tolerances pk (t_next - t_inter)).1 (used_tolerances pk (t_next - t_inter)).2 vec 0
    (le_refl 0) (fun comp _ e _ => (entry_ratio_nonneg _ _ hatol hrtol e).2) hnan
  refine ⟨v, ?_, hall, ?_⟩
  · rw [enorm_run]
    simp only [enorm_with, hv, MPI_Allreduce_MAX, List.foldl_nil]
  · rcases hatt with h0 | h
    · by_cases hex : ∃ comp ∈ vec, ∃ e, e ∈ comp.entries
      · obtain ⟨comp, hc, e, he⟩ := hex
        left
        refine ⟨comp, hc, e, he, ?_⟩
        rw [h0]
        exact le_antisymm (entry_ratio_nonneg _ _ hatol hrtol e).2
          (by rw [← h0]; exact hall comp hc e he)
      · right
        refine ⟨?_, h0⟩
        intro comp hc
        by_contra hne
        obtain ⟨e, he⟩ := List.exists_mem_of_ne_nil _ hne
        exact hex ⟨comp, hc, e, he⟩
    · exact Or.inl h

/-- Witness of C12: the example vectors with atol = rtol = 1. -/
theorem enorm_is_max_witness :
    (∀ comp ∈ example_vec, ∀ e ∈ comp.entries, e.2 ≠ none) ∧
    0 < (used_tolerances example_pk (1 - 0)).1 ∧
    0 ≤ (used_tolerances example_pk (1 - 0)).2 ∧
    (PKPhysicalBDFBase.enorm example_pk 1 0 example_vec []).1 = Except.ok 1 ∧
    (∀ comp ∈ example_vec, ∀ e ∈ comp.entries,
      0 < (used_tolerances example_pk (1 - 0)).1 +
        (used_tolerances example_pk (1 - 0)).2 * |e.1|) ∧
    ∃ v, (PKPhysicalBDFBase.enorm example_pk 1 0 example_vec []).1 = Except.ok v ∧
      (∀ comp ∈ example_vec, ∀ e ∈ comp.entries,
        entry_ratio (used_tolerances example_pk (1 - 0)).1
          (used_tolerances example_pk (1 - 0)).2 e ≤ v) ∧
      ((∃ comp ∈ example_vec, ∃ e ∈ comp.entries,
          v = entry_ratio (used_tolerances example_pk (1 - 0)).1
            (used_tolerances example_pk (1 - 0)).2 e) ∨
        ((∀ comp ∈ example_vec, comp.entries = []) ∧ v = 0)) :=
  ⟨by decide!, by decide!, by decide!, by with_unfolding_all rfl,
    enorm_is_max example_pk 1 0 example_vec (by decide!) (by decide!) (by decide!)⟩

theorem allreduce_zero (others : List ℚ) (h : ∀ o ∈ others, o = 0) :
    MPI_Allreduce_MAX 0 others = 0 := by
  unfold MPI_Allreduce_MAX
  induction others with
  | nil => rfl
  | cons o os ih =>
    rw [List.foldl_cons, h o (List.mem_cons_self _ _), max_self]
    exact ih (fun x hx => h x (List.mem_cons_of_mem _ hx))

/-- C13: for every u, every positive atol and every rtol >= 0, enorm(u, du)
returns 0 when every entry of du is zero (on every worker: the values the
other workers bring to the reduction are 0 as well). -/
theorem enorm_zero (pk : PKPhysicalBDFBase) (t_next t_inter : ℚ) (vec : List Component)
    (others : List ℚ)
    (hzero : ∀ comp ∈ vec, ∀ e ∈ comp.entries, e.2 = some 0)
    (hothers : ∀ o ∈ others, o = 0)
    (hatol : 0 < (used_tolerances pk (t_next - t_inter)).1)
    (hrtol : 0 ≤ (used_tolerances pk (t_next - t_inter)).2) :
    (PKPhysicalBDFBase.enorm pk t_next t_inter vec others).1 = Except.ok 0 := by
  have hratio : ∀ comp ∈ vec, ∀ e ∈ comp.entries,
      entry_ratio (used_tolerances pk (t_next - t_inter)).1
        (used_tolerances pk (t_next - t_inter)).2 e = 0 := by
    intro comp hc e he
    simp [entry_ratio, hzero comp hc e he]
  obtain ⟨v, hv, hle, hall, hatt⟩ := enorm_components_max
    (used_tolerances pk (t_next - t_inter)).1 (used_tolerances pk (t_next - t_inter)).2 vec 0
    (le_refl 0) (fun comp _ e _ => (entry_ratio_nonneg _ _ hatol hrtol e).2)
    (fun comp hc e he => by simp [hzero comp hc e he])
  have hv0 : v = 0 := by
    rcases hatt with h | ⟨comp, hc, e, he, h⟩
    · exact h
    · rw [h, hratio comp hc e he]
  rw [enorm_run]
  simp only [enorm_with, hv, hv0, allreduce_zero others hothers]

/-- Witness of C13: the example vectors with du = 0, atol = rtol = 1, and
two other workers that bring 0. -/
theorem enorm_zero_witness :
    (∀ comp ∈ example_zero, ∀ e ∈ comp.entries, e.2 = some 0) ∧
    (∀ o ∈ [(0 : ℚ), 0], o = 0) ∧
    0 < (used_tolerances example_pk (1 - 0)).1 ∧
    0 ≤ (used_tolerances example_pk (1 - 0)).2 ∧
    (PKPhysicalBDFBase.enorm example_pk 1 0 example_zero [0, 0]).1 = Except.ok 0 :=
  ⟨by decide!, by decide!, by decide!, by decide!,
    enorm_zero example_pk 1 0 example_zero [0, 0] (by decide!) (by decide!) (by decide!)
      (by decide!)⟩

/-- The loop over the entries throws at a NaN. -/
theorem enorm_entries_nan (atol rtol : ℚ) (l : List (ℚ × Option ℚ)) (acc : ℚ × ℚ)
    (h : ∃ e ∈ l, e.2 = none) :
    PKPhysicalBDFBase.enorm_entries atol rtol l acc = Except.error ⟨"Cut time step"⟩ := by
  induction l generalizing acc with
  | nil =>
    obtain ⟨e, he, _⟩ := h
    cases he
  | cons x xs ih =>
    obtain ⟨u, du⟩ := x
    cases du with
    | none => rfl
    | some d =>
      rw [PKPhysicalBDFBase.enorm_entries]
      apply ih
      obtain ⟨e, he, hn⟩ := h
      rcases List.mem_cons.mp he with rfl | he
      · cases hn
      · exact ⟨e, he, hn⟩

/-- The only message the loop over the entries throws. -/
theorem enorm_entries_message (atol rtol : ℚ) (l : List (ℚ × Option ℚ)) (acc : ℚ × ℚ)
    (m : Message) (h : PKPhysicalBDFBase.enorm_entries atol rtol l acc = Except.error m) :
    m = ⟨"Cut time step"⟩ := by
  induction l generalizing acc with
  | nil => cases h
  | cons x xs ih =>
    obtain ⟨u, du⟩ := x
    cases du with
    | none =>
      rw [PKPhysicalBDFBase.enorm_entries] at h
      cases h
      rfl
    | some d =>
      rw [PKPhysicalBDFBase.enorm_entries] at h
      exact ih _ h

/-- The loop over the components throws when an entry of du is NaN. -/
theorem enorm_components_nan (atol rtol : ℚ) (vec : List Component) (v0 : ℚ)
    (h : ∃ comp ∈ vec, ∃ e ∈ comp.entries, e.2 = none) :
    PKPhysicalBDFBase.enorm_components atol rtol vec v0 = Except.error ⟨"Cut time step"⟩ := by
  induction vec generalizing v0 with
  | nil =>
    obtain ⟨comp, hc, _⟩ := h
    cases hc
  | cons c cs ih =>
    rw [PKPhysicalBDFBase.enorm_components]
    rcases hE : PKPhysicalBDFBase.enorm_entries atol rtol c.entries (0, 0) with m | acc
    · rw [enorm_entries_message atol rtol c.entries (0, 0) m hE]
    · dsimp only
      apply ih
      obtain ⟨comp, hc, e, he, hn⟩ := h
      rcases List.mem_cons.mp hc with rfl | hc
      · rw [enorm_entries_nan atol rtol comp.entries (0, 0) ⟨e, he, hn⟩] at hE
        cases hE
      · exact ⟨comp, hc, e, he, hn⟩

/-- C14: for every u and every du in which at least one entry is NaN,
enorm(u, du) raises the error "Cut time step" instead of returning a value,
whatever u, the tolerances, the step size and the other workers are. -/
theorem enorm_nan (pk : PKPhysicalBDFBase) (t_next t_inter : ℚ) (vec : List Component)
    (others : List ℚ) (h : ∃ comp ∈ vec, ∃ e ∈ comp.entries, e.2 = none) :
    (PKPhysicalBDFBase.enorm pk t_next t_inter vec others).1 =
      Except.error ⟨"Cut time step"⟩ := by
  rw [enorm_run]
  simp only [enorm_with, enorm_components_nan _ _ vec 0 h]

/-- Witness of C14: the example vectors with a NaN in the last entry. -/
theorem enorm_nan_witness :
    (∃ comp ∈ example_nan, ∃ e ∈ comp.entries, e.2 = none) ∧
    (PKPhysicalBDFBase.enorm example_pk 1 0 example_nan []).1 =
      Except.error ⟨"Cut time step"⟩ :=
  ⟨by decide!, enorm_nan example_pk 1 0 example_nan [] (by decide!)⟩

theorem setup_adapt (pk0 : PKPhysicalBDFBase) (plist : BDFList) :
    (pk0.setup plist).adapt_tols_to_h_ = plist.adapt_tolerances_to_timestep.getD true := by
  unfold PKPhysicalBDFBase.setup
  dsimp only
  split_ifs <;> rfl

/-- C15: after setup, when the adaptive-tolerance mode is enabled and
h = t_next - t_inter > 0, a call of enorm computes with atol = atol0 / h and
rtol = rtol0 / h, where atol0 and rtol0 are the tolerances configured at
setup; these are the tolerances it leaves in the members (times h they give
atol0 and rtol0 back), and a second call
with the same h gives the same result and the same members (the rescaling
does not compound).  When the mode is disabled enorm computes with the
configured atol and rtol and leaves the members unchanged. -/
theorem enorm_tolerances (pk0 : PKPhysicalBDFBase) (plist : BDFList) (t_next t_inter : ℚ)
    (vec : List Component) (others : List ℚ) (hh : 0 < t_next - t_inter) :
    ((pk0.setup plist).adapt_tols_to_h_ = true →
      (PKPhysicalBDFBase.enorm (pk0.setup plist) t_next t_inter vec others).1 =
        enorm_with (plist.absolute_error_tolerance.getD 1 / (t_next - t_inter))
          (plist.relative_error_tolerance.getD 1 / (t_next - t_inter)) vec others ∧
      (PKPhysicalBDFBase.enorm (pk0.setup plist) t_next t_inter vec others).2.atol_ =
        plist.absolute_error_tolerance.getD 1 / (t_next - t_inter) ∧
      (PKPhysicalBDFBase.enorm (pk0.setup plist) t_next t_inter vec others).2.rtol_ =
        plist.relative_error_tolerance.getD 1 / (t_next - t_inter) ∧
      (PKPhysicalBDFBase.enorm (pk0.setup plist) t_next t_inter vec others).2.atol_ *
        (t_next - t_inter) = plist.absolute_error_tolerance.getD 1 ∧
      (PKPhysicalBDFBase.enorm (pk0.setup plist) t_next t_inter vec others).2.rtol_ *
        (t_next - t_inter) = plist.relative_error_tolerance.getD 1 ∧
      PKPhysicalBDFBase.enorm
          (PKPhysicalBDFBase.enorm (pk0.setup plist) t_next t_inter vec others).2
          t_next t_inter vec others =
        PKPhysicalBDFBase.enorm (pk0.setup plist) t_next t_inter vec others) ∧
    ((pk0.setup plist).adapt_tols_to_h_ = false →
      (PKPhysicalBDFBase.enorm (pk0.setup plist) t_next t_inter vec others).1 =
        enorm_with (plist.absolute_error_tolerance.getD 1)
          (plist.relative_error_tolerance.getD 1) vec others ∧
      (PKPhysicalBDFBase.enorm (pk0.setup plist) t_next t_inter vec others).2 =
        pk0.setup plist) := by
  constructor
  · intro ha
    have hflag : plist.adapt_tolerances_to_timestep.getD true = true := by
      rw [← setup_adapt pk0 plist]
      exact ha
    simp only [enorm_run, used_tolerances, after_enorm, PKPhysicalBDFBase.setup, hflag,
      if_true, and_self, true_and, div_mul_cancel₀ _ (ne_of_gt hh)]
  · intro ha
    have hflag : plist.adapt_tolerances_to_timestep.getD true = false := by
      rw [← setup_adapt pk0 plist]
      exact ha
    simp only [enorm_run, used_tolerances, after_enorm, PKPhysicalBDFBase.setup, hflag,
      Bool.false_eq_true, if_false, and_self]

/-- Witness of C15: setup with atol 2, rtol 4 and the adaptive mode on, and
the step size h = 2 - 0. -/
theorem enorm_tolerances_witness :
    0 < (2 : ℚ) - 0 ∧
    (example_adaptive.adapt_tols_to_h_ = true →
      (PKPhysicalBDFBase.enorm example_adaptive 2 0 example_vec []).1 =
        enorm_with ((some (2 : ℚ)).getD 1 / (2 - 0)) ((some (4 : ℚ)).getD 1 / (2 - 0))
          example_vec [] ∧
      (PKPhysicalBDFBase.enorm example_adaptive 2 0 example_vec []).2.atol_ =
        (some (2 : ℚ)).getD 1 / (2 - 0) ∧
      (PKPhysicalBDFBase.enorm example_adaptive 2 0 example_vec []).2.rtol_ =
        (some (4 : ℚ)).getD 1 / (2 - 0) ∧
      (PKPhysicalBDFBase.enorm example_adaptive 2 0 example_vec []).2.atol_ * (2 - 0) =
        (some (2 : ℚ)).getD 1 ∧
      (PKPhysicalBDFBase.enorm example_adaptive 2 0 example_vec []).2.rtol_ * (2 - 0) =
        (some (4 : ℚ)).getD 1 ∧
      PKPhysicalBDFBase.enorm
          (PKPhysicalBDFBase.enorm example_adaptive 2 0 example_vec []).2 2 0 example_vec [] =
        PKPhysicalBDFBase.enorm example_adaptive 2 0 example_vec []) ∧
    example_adaptive.adapt_tols_to_h_ = true :=
  ⟨by norm_num,
    (enorm_tolerances ⟨0, 0, 0, 0, 0, false⟩ ⟨some 2, some 4, some true, none⟩ 2 0
      example_vec [] (by norm_num)).1,
    by decide⟩

theorem dump_requested_eq (force : Bool) (cycle : Int) (time : ℚ) (vis : List (IOEvent τ)) :
    Coordinator.dump_requested force cycle time vis =
      (force || vis.any fun v => v.DumpRequested cycle time) := by
  unfold Coordinator.dump_requested
  cases force
  · simp only [Bool.not_false, if_true, Bool.false_or]
    suffices h : ∀ (l : List (IOEvent τ)) (b : Bool),
        l.foldl (fun dump v => dump || v.DumpRequested cycle time) b =
          (b || l.any fun v => v.DumpRequested cycle time) by
      rw [h vis false, Bool.false_or]
    intro l
    induction l with
    | nil => intro b; simp
    | cons v vs ih =>
      intro b
      rw [List.foldl_cons, ih, List.any_cons, Bool.or_assoc]
  · simp

theorem write_vis_nodup (p : Nat × IOEvent τ → Bool) (l : List (IOEvent τ)) :
    ((l.enum.filter p).map fun iv => Event.WriteVis iv.1).Nodup := by
  have h1 : ((l.enum.filter p).map Prod.fst).Nodup := by
    apply List.Nodup.sublist ((List.filter_sublist _).map Prod.fst)
    rw [List.enum_map_fst]
    exact List.nodup_range _
  have h2 : ((l.enum.filter p).map fun iv => Event.WriteVis iv.1) =
      ((l.enum.filter p).map Prod.fst).map Event.WriteVis := by
    rw [List.map_map]
    rfl
  rw [h2]
  exact h1.map (fun a b hab => by cases hab; rfl)

/-- C18: Coordinator::visualize(force) returns; it writes a visualization
target (once) if and only if force is true or the DumpRequested(cycle, time)
of this target is true; it invokes CalculateDiagnostics(NEXT) exactly once,
as the first call, before any target is written, if and only if force is
true or at least one target requests a dump; otherwise, when nothing is
forced and no target requests a dump, it calls nothing. -/
theorem visualize_dumps (c : Coordinator σ τ) (force : Bool) (w : World σ τ) :
    ∃ w1 evs, Coordinator.visualize c force w = Outcome.ok () w1 ∧
      w1.trace = w.trace ++ evs ∧
      (∀ e ∈ evs, e = Event.CalculateDiagnostics Tag.NEXT ∨ ∃ i, e = Event.WriteVis i) ∧
      (∀ i, Event.WriteVis i ∈ evs ↔
        ∃ v, w.visualization_[i]? = some v ∧
          (force = true ∨ v.DumpRequested w.S.get_cycle (w.S.get_time Tag.DEFAULT) = true)) ∧
      (∀ i, evs.count (Event.WriteVis i) ≤ 1) ∧
      ((force = true ∨
          ∃ v ∈ w.visualization_,
            v.DumpRequested w.S.get_cycle (w.S.get_time Tag.DEFAULT) = true) →
        evs.head? = some (Event.CalculateDiagnostics Tag.NEXT) ∧
        evs.count (Event.CalculateDiagnostics Tag.NEXT) = 1 ∧
        w1.pk = c.pk_.CalculateDiagnostics Tag.NEXT w.pk) ∧
      (¬ (force = true ∨
          ∃ v ∈ w.visualization_,
            v.DumpRequested w.S.get_cycle (w.S.get_time Tag.DEFAULT) = true) →
        evs = [] ∧ w1.pk = w.pk) := by
  refine ⟨_, visualize_events force w, visualize_run c force w, rfl, ?_, ?_, ?_, ?_, ?_⟩
  · intro e he
    unfold visualize_events at he
    rcases List.mem_append.mp he with h | h
    · split_ifs at h
      · left
        simpa using h
      · cases h
    · right
      obtain ⟨iv, _, rfl⟩ := List.mem_map.mp h
      exact ⟨iv.1, rfl⟩
  · intro i
    unfold visualize_events
    constructor
    · intro he
      rcases List.mem_append.mp he with h | h
      · split_ifs at h
        · simp at h
        · cases h
      · obtain ⟨iv, hiv, heq⟩ := List.mem_map.mp h
        obtain ⟨j, v⟩ := iv
        simp only [Event.WriteVis.injEq] at heq
        subst heq
        rw [List.mem_filter, List.mk_mem_enum_iff_getElem?] at hiv
        refine ⟨v, hiv.1, ?_⟩
        simpa using hiv.2
    · rintro ⟨v, hv, hp⟩
      apply List.mem_append_right
      apply List.mem_map.mpr
      refine ⟨(i, v), ?_, rfl⟩
      rw [List.mem_filter, List.mk_mem_enum_iff_getElem?]
      exact ⟨hv, by simpa using hp⟩
  · intro i
    unfold visualize_events
    rw [List.count_append]
    have h1 : (if Coordinator.dump_requested force w.S.get_cycle (w.S.get_time Tag.DEFAULT)
        w.visualization_ = true then [Event.CalculateDiagnostics Tag.NEXT]
        else []).count (Event.WriteVis i) = 0 := by
      split_ifs <;> simp
    rw [h1, Nat.zero_add]
    exact List.nodup_iff_count_le_one.mp (write_vis_nodup _ _) _
  · intro h
    have hd : Coordinator.dump_requested force w.S.get_cycle (w.S.get_time Tag.DEFAULT)
        w.visualization_ = true := by
      rw [dump_requested_eq]
      rcases h with h | ⟨v, hv, hp⟩
      · simp [h]
      · simp only [Bool.or_eq_true, List.any_eq_true]
        exact Or.inr ⟨v, hv, hp⟩
    unfold visualize_events
    simp only [hd, if_true]
    refine ⟨rfl, ?_, trivial⟩
    rw [List.count_append]
    have : ((w.visualization_.enum.filter fun iv =>
        force || iv.2.DumpRequested w.S.get_cycle (w.S.get_time Tag.DEFAULT)).map
        fun iv => Event.WriteVis iv.1).count (Event.CalculateDiagnostics Tag.NEXT) = 0 := by
      rw [List.count_eq_zero]
      intro hmem
      obtain ⟨iv, _, heq⟩ := List.mem_map.mp hmem
      cases heq
    rw [this]
    rfl
  · intro h
    have hf : force = false := by
      cases force
      · rfl
      · exact absurd (Or.inl rfl) h
    have hall : ∀ v ∈ w.visualization_,
        v.DumpRequested w.S.get_cycle (w.S.get_time Tag.DEFAULT) = false := by
      intro v hv
      by_contra hne
      exact h (Or.inr ⟨v, hv, by simpa using hne⟩)
    have hd : Coordinator.dump_requested force w.S.get_cycle (w.S.get_time Tag.DEFAULT)
        w.visualization_ = false := by
      rw [dump_requested_eq, hf, Bool.false_or]
      rw [Bool.eq_false_iff]
      intro hany
      obtain ⟨v, hv, hp⟩ := List.any_eq_true.mp hany
      rw [hall v hv] at hp
      cases hp
    unfold visualize_events
    simp only [hd, Bool.false_eq_true, if_false, List.nil_append]
    refine ⟨?_, trivial⟩
    rw [List.map_eq_nil_iff, List.filter_eq_nil_iff]
    intro iv hiv
    obtain ⟨j, v⟩ := iv
    rw [List.mk_mem_enum_iff_getElem?] at hiv
    have hv : v ∈ w.visualization_ := List.getElem?_mem hiv
    simp [hf, hall v hv]

/-- C20: EnsureCompatibility_ToDeps_ of CanopyRadiationEvaluator and of
RadiationBalanceEvaluator is idempotent: for every evaluator and state, a
second call leaves the state's requirements and the evaluator (the
land-cover table and the compatible flag) as the first call left them, and
when the first call returns the second call returns as well; so the result
of two calls equals the result of one. -/
theorem EnsureCompatibility_idempotent {ι Λ : Type}
    (getLandCover : ι → List String → Except Message Λ)
    (x : CanopyRadiationEvaluator Λ × RequireState ι)
    (y : RadiationBalanceEvaluator Λ × RequireState ι) :
    ((CanopyRadiationEvaluator.EnsureCompatibility_ToDeps_ getLandCover
        (CanopyRadiationEvaluator.EnsureCompatibility_ToDeps_ getLandCover x).world).world =
      (CanopyRadiationEvaluator.EnsureCompatibility_ToDeps_ getLandCover x).world ∧
    ∀ x1, CanopyRadiationEvaluator.EnsureCompatibility_ToDeps_ getLandCover x =
        Outcome.ok () x1 →
      CanopyRadiationEvaluator.EnsureCompatibility_ToDeps_ getLandCover x1 =
        Outcome.ok () x1) ∧
    ((RadiationBalanceEvaluator.EnsureCompatibility_ToDeps_ getLandCover
        (RadiationBalanceEvaluator.EnsureCompatibility_ToDeps_ getLandCover y).world).world =
      (RadiationBalanceEvaluator.EnsureCompatibility_ToDeps_ getLandCover y).world ∧
    ∀ y1, RadiationBalanceEvaluator.EnsureCompatibility_ToDeps_ getLandCover y =
        Outcome.ok () y1 →
      RadiationBalanceEvaluator.EnsureCompatibility_ToDeps_ getLandCover y1 =
        Outcome.ok () y1) := by
  refine ⟨⟨?_, ?_⟩, ⟨?_, ?_⟩⟩
  · unfold CanopyRadiationEvaluator.EnsureCompatibility_ToDeps_
    by_cases hc : x.1.compatible_ = true
    · simp [hc, Outcome.world]
    · rcases hg : getLandCover x.2.land_cover_types
        ["beers_k_lw", "beers_k_sw", "emissivity_canopy", "albedo_canopy"] with e | lc
      · simp [hc, hg, Outcome.world]
      · simp [hc, hg, Outcome.world]
  · intro x1 h
    unfold CanopyRadiationEvaluator.EnsureCompatibility_ToDeps_ at h ⊢
    by_cases hc : x.1.compatible_ = true
    · simp only [hc, Bool.not_true, Bool.false_eq_true, if_false, Outcome.ok.injEq,
        true_and] at h
      subst h
      simp [hc]
    · rcases hg : getLandCover x.2.land_cover_types
        ["beers_k_lw", "beers_k_sw", "emissivity_canopy", "albedo_canopy"] with e | lc
      · simp [hc, hg] at h
      · simp only [hc, hg, Bool.not_eq_true, Bool.not_false, if_true, Outcome.ok.injEq,
          true_and] at h
        subst h
        simp
  · unfold RadiationBalanceEvaluator.EnsureCompatibility_ToDeps_
    by_cases hc : y.1.compatible_ = true
    · simp [hc, Outcome.world]
    · rcases hg : getLandCover y.2.land_cover_types
        ["beers_law_lw", "beers_law_sw", "emissivity_canopy", "albedo_canopy"] with e | lc
      · simp [hc, hg, Outcome.world]
      · simp [hc, hg, Outcome.world]
  · intro y1 h
    unfold RadiationBalanceEvaluator.EnsureCompatibility_ToDeps_ at h ⊢
    by_cases hc : y.1.compatible_ = true
    · simp only [hc, Bool.not_true, Bool.false_eq_true, if_false, Outcome.ok.injEq,
        true_and] at h
      subst h
      simp [hc]
    · rcases hg : getLandCover y.2.land_cover_types
        ["beers_law_lw", "beers_law_sw", "emissivity_canopy", "albedo_canopy"] with e | lc
      · simp [hc, hg] at h
      · simp only [hc, hg, Bool.not_eq_true, Bool.not_false, if_true, Outcome.ok.injEq,
          true_and] at h
        subst h
        simp

theorem create_run (x : Created) (k : Construction) :
    Coordinator.create x k = Outcome.ok () { k with created := k.created ++ [x] } := rfl

/-- A loop whose body returns for every element returns. -/
theorem forEach_returns {W β : Type} (f : β → M W Unit) (l : List β)
    (h : ∀ b ∈ l, ∀ w, ∃ w1, f b w = Outcome.ok () w1) (w : W) :
    ∃ w1, forEach f l w = Outcome.ok () w1 := by
  induction l generalizing w with
  | nil => exact ⟨w, rfl⟩
  | cons b bs ih =>
    rw [forEach_cons]
    obtain ⟨w1, h1⟩ := h b (List.mem_cons_self _ _) w
    rw [h1]
    exact ih (fun x hx => h x (List.mem_cons_of_mem _ hx)) w1

/-- With both times present and both units valid read_parameter_list
returns and touches neither the state nor the created collaborators. -/
theorem read_parameter_list_returns (units : Units) (list : CycleDriverList)
    (k : Construction) (t0 t1 : ℚ)
    (h0 : list.start_time = some t0) (h1 : list.end_time = some t1)
    (hu0 : units.IsValidTime (list.start_time_units.getD "s") = true)
    (hu1 : units.IsValidTime (list.end_time_units.getD "s") = true) :
    ∃ k1, Coordinator.read_parameter_list units list k = Outcome.ok () k1 ∧
      k1.S = k.S ∧ k1.created = k.created := by
  unfold Coordinator.read_parameter_list
  simp only [h0, h1, hu0, hu1, bind_run, pure_run, modifyW_run, Bool.not_true,
    Bool.false_eq_true, if_false]
  cases list.restart_from_checkpoint_file <;> exact ⟨_, rfl, rfl, rfl⟩

theorem init_mesh_returns (getKey : String → String → String) (analysis : Bool) (mesh : Mesh)
    (k : Construction) :
    ∃ k1, Coordinator.init_mesh getKey analysis mesh k = Outcome.ok () k1 := by
  unfold Coordinator.init_mesh
  by_cases hm : (mesh.deformable && !mesh.aliased) = true <;> cases analysis <;>
    simp [hm, bind_run, pure_run, modifyW_run, create_run]

/-- C16 (amended): given a "start time" and an "end time" with valid time
units and an observations list made only of sublists, coordinator_init
fails if and only if the "PK tree" list does not contain exactly one entry;
it then throws the error about the PK tree before anything is created (no
process, no checkpoint, no observation) and with the state untouched, so
before setup, initialize and the main loop, which need the constructed
object.  With exactly one entry it returns and has created the process of
that name. -/
theorem coordinator_init_pk_tree (units : Units) (getKey : String → String → String)
    (plist : ParameterList) (k : Construction) (t0 t1 : ℚ)
    (h0 : plist.cycle_driver.start_time = some t0)
    (h1 : plist.cycle_driver.end_time = some t1)
    (hu0 : units.IsValidTime (plist.cycle_driver.start_time_units.getD "s") = true)
    (hu1 : units.IsValidTime (plist.cycle_driver.end_time_units.getD "s") = true)
    (hobs : ∀ o ∈ plist.observations, o.2 = true) :
    ((∃ e k1, Coordinator.coordinator_init units getKey plist k = Outcome.raised e k1) ↔
      plist.cycle_driver.PK_tree.length ≠ 1) ∧
    (plist.cycle_driver.PK_tree.length ≠ 1 →
      ∃ k1, Coordinator.coordinator_init units getKey plist k =
          Outcome.raised
            ⟨"CycleDriver: PK tree list should contain exactly one root node list"⟩ k1 ∧
        k1.created = k.created ∧ k1.S = k.S) ∧
    (plist.cycle_driver.PK_tree.length = 1 →
      ∃ k1, Coordinator.coordinator_init units getKey plist k = Outcome.ok () k1) := by
  obtain ⟨kr, hr, hrS, hrc⟩ :=
    read_parameter_list_returns units plist.cycle_driver k t0 t1 h0 h1 hu0 hu1
  have hbad : plist.cycle_driver.PK_tree.length ≠ 1 →
      Coordinator.coordinator_init units getKey plist k =
        Outcome.raised
          ⟨"CycleDriver: PK tree list should contain exactly one root node list"⟩ kr := by
    intro hne
    unfold Coordinator.coordinator_init
    simp only [bind_run, hr, hne, ne_eq, not_false_eq_true, if_true, amanzi_throw_run]
  have hgood : plist.cycle_driver.PK_tree.length = 1 →
      ∃ k1, Coordinator.coordinator_init units getKey plist k = Outcome.ok () k1 := by
    intro heq
    unfold Coordinator.coordinator_init
    simp only [bind_run, hr, heq, ne_eq, not_true_eq_false, if_false, pure_run, create_run,
      getW_run]
    obtain ⟨k2, h2⟩ := forEach_returns Coordinator.create_observation plist.observations
      (fun o ho w => by
        unfold Coordinator.create_observation
        rw [if_pos (hobs o ho)]
        exact ⟨_, create_run _ _⟩)
      { kr with created := kr.created ++ [Created.TreeVector] ++
          [Created.PK (plist.cycle_driver.PK_tree.headD "")] ++ [Created.Checkpoint] }
    simp only [List.append_assoc] at h2 ⊢
    rw [h2]
    obtain ⟨k3, h3⟩ := forEach_returns
      (Coordinator.init_mesh getKey plist.analysis) k2.S.meshes
      (fun m _ w => init_mesh_returns getKey plist.analysis m w) k2
    simp only [h3]
    exact ⟨_, rfl⟩
  refine ⟨⟨?_, fun hne => ⟨_, _, hbad hne⟩⟩, fun hne => ⟨kr, hbad hne, hrc, hrS⟩, hgood⟩
  rintro ⟨e, k1, he⟩ heq
  obtain ⟨k2, h2⟩ := hgood heq
  rw [h2] at he
  cases he

/-- Counterexample to C16 as stated: the "PK tree" list has exactly one
entry and the observations list holds only sublists, yet coordinator_init
fails, with the error about the unknown time units "fortnight" of the
start time. -/
theorem coordinator_init_units_counterexample :
    (example_list "fortnight" ["top"]).cycle_driver.PK_tree.length = 1 ∧
    (∀ o ∈ (example_list "fortnight" ["top"]).observations, o.2 = true) ∧
    Coordinator.coordinator_init example_units (fun domain name => domain ++ "-" ++ name)
        (example_list "fortnight" ["top"]) example_construction =
      Outcome.raised
        ⟨"Coordinator start time: unknown time units type: \"fortnight\"  Valid are: s"⟩
        example_construction := by
  refine ⟨rfl, by decide, ?_⟩
  rfl

/-- Witness of C16: two entries in the "PK tree" list. -/
theorem coordinator_init_pk_tree_witness :
    (example_list "s" ["flow", "energy"]).cycle_driver.start_time = some 0 ∧
    (example_list "s" ["flow", "energy"]).cycle_driver.end_time = some 100 ∧
    example_units.IsValidTime
      ((example_list "s" ["flow", "energy"]).cycle_driver.start_time_units.getD "s") = true ∧
    example_units.IsValidTime
      ((example_list "s" ["flow", "energy"]).cycle_driver.end_time_units.getD "s") = true ∧
    (∀ o ∈ (example_list "s" ["flow", "energy"]).observations, o.2 = true) ∧
    (example_list "s" ["flow", "energy"]).cycle_driver.PK_tree.length ≠ 1 ∧
    ∃ k1, Coordinator.coordinator_init example_units (fun domain name => domain ++ "-" ++ name)
        (example_list "s" ["flow", "energy"]) example_construction =
        Outcome.raised
          ⟨"CycleDriver: PK tree list should contain exactly one root node list"⟩ k1 ∧
      k1.created = example_construction.created ∧ k1.S = example_construction.S :=
  ⟨rfl, rfl, by decide, by decide, by decide, by decide,
    (coordinator_init_pk_tree example_units (fun domain name => domain ++ "-" ++ name)
      (example_list "s" ["flow", "energy"]) example_construction 0 100 rfl rfl
      (by decide) (by decide) (by decide)).2.1 (by decide)⟩

theorem bind_assoc_run {W α β γ : Type} (x : M W α) (f : α → M W β) (g : β → M W γ) :
    (x >>= f) >>= g = x >>= fun a => f a >>= g := by
  funext w
  simp only [bind_run]
  cases x w <;> rfl

theorem pure_bind_run {W α β : Type} (a : α) (f : α → M W β) :
    (pure a : M W α) >>= f = f a := rfl

/-- Coordinator::initialize is the sequence of its four parts. -/
theorem initialize_parts (c : Coordinator σ τ) :
    Coordinator.initialize_ c =
      (do initialize_seed c; initialize_fields c; initialize_restore c; initialize_finish c) := by
  unfold Coordinator.initialize_ initialize_seed initialize_fields initialize_restore
    initialize_finish
  by_cases hr : c.restart_ = true
  · simp only [hr, if_true, bind_assoc_run, pure_bind_run]
  · simp only [hr, Bool.false_eq_true, if_false, bind_assoc_run, pure_bind_run]

theorem initialize_seed_run (c : Coordinator σ τ) (w : World σ τ) :
    initialize_seed c w = Outcome.ok () (seed_world c w) := by
  unfold initialize_seed seed_world
  by_cases hr : c.restart_ = true
  · simp only [hr, if_true, bind_run, getW_run, modifyS_run, emit_run, modifyW_run]
  · simp only [hr, Bool.false_eq_true, if_false, bind_run, getW_run, modifyS_run, pure_run]

theorem initialize_restore_run (c : Coordinator σ τ) (w : World σ τ) :
    initialize_restore c w = Outcome.ok () (restore_world c w) := by
  unfold initialize_restore restore_world deform_events
  by_cases hr : c.restart_ = true
  · simp only [hr, if_true, bind_run, getW_run, modifyS_run, emit_run, modifyW_run,
      forEach_emit_if]
    rfl
  · simp only [hr, Bool.false_eq_true, if_false, pure_run]

theorem init_vertex_coordinates_run (c : Coordinator σ τ) (m : Mesh) (w : World σ τ) :
    Coordinator.init_vertex_coordinates c m w =
      if (m.deformable && !m.aliased) = true then
        if w.S.HasRecord (c.getKey m.name "vertex_coordinates") Tag.NEXT = true then
          Outcome.ok ()
            { w with trace := w.trace ++ [Event.copyMeshCoordinatesToVector m.name] }
        else
          Outcome.raised ⟨"State: field not found: " ++ c.getKey m.name "vertex_coordinates"⟩ w
      else Outcome.ok () w := by
  unfold Coordinator.init_vertex_coordinates GetPtr
  by_cases hm : (m.deformable && !m.aliased) = true
  · by_cases hr : w.S.HasRecord (c.getKey m.name "vertex_coordinates") Tag.NEXT = true
    · simp only [hm, hr, if_true, bind_run, getW_run, pure_run, emit_run]
    · simp only [hm, hr, if_true, Bool.false_eq_true, if_false, bind_run, getW_run,
        amanzi_throw_run]
  · simp only [hm, Bool.false_eq_true, if_false, pure_run]

/-- The loop that fills the vertex coordinates appends a prefix of its
calls, all of them when it returns, and changes nothing else. -/
theorem init_vertex_loop_run (c : Coordinator σ τ) (meshes : List Mesh) (w : World σ τ) :
    ∃ evs, evs <+: copy_events meshes ∧
      (forEach (Coordinator.init_vertex_coordinates c) meshes w).world =
        { w with trace := w.trace ++ evs } ∧
      ((∃ w1, forEach (Coordinator.init_vertex_coordinates c) meshes w = Outcome.ok () w1) →
        evs = copy_events meshes) := by
  induction meshes generalizing w with
  | nil => exact ⟨[], List.nil_prefix, by simp [forEach_nil, Outcome.world], fun _ => rfl⟩
  | cons m ms ih =>
    rw [forEach_cons, init_vertex_coordinates_run]
    unfold copy_events
    split_ifs with hm hr
    · obtain ⟨evs, h1, h2, h3⟩ :=
        ih { w with trace := w.trace ++ [Event.copyMeshCoordinatesToVector m.name] }
      refine ⟨Event.copyMeshCoordinatesToVector m.name :: evs, ?_, ?_, ?_⟩
      · simp only [List.filter_cons, hm, if_true, List.map_cons]
        exact List.prefix_cons_inj _ |>.mpr h1
      · show (forEach (Coordinator.init_vertex_coordinates c) ms _).world = _
        rw [h2]; simp
      · intro hok
        simp only [List.filter_cons, hm, if_true, List.map_cons]
        rw [h3 hok]
        rfl
    · refine ⟨[], List.nil_prefix, by simp [Outcome.world], ?_⟩
      rintro ⟨w1, h⟩
      cases h
    · obtain ⟨evs, h1, h2, h3⟩ := ih w
      refine ⟨evs, ?_, h2, ?_⟩
      · simp only [List.filter_cons, hm, Bool.false_eq_true, if_false]
        exact h1
      · intro hok
        simp only [List.filter_cons, hm, Bool.false_eq_true, if_false]
        exact h3 hok

/-- The second part of initialize appends a prefix of its calls, all of
them when it returns, and changes besides only the process kernel. -/
theorem initialize_fields_run (c : Coordinator σ τ) (w : World σ τ) :
    ∃ evs s, evs <+: fields_events w ∧
      (initialize_fields c w).world = { w with pk := s, trace := w.trace ++ evs } ∧
      ((∃ w1, initialize_fields c w = Outcome.ok () w1) → evs = fields_events w) := by
  unfold initialize_fields fields_events
  simp only [bind_run, emit_run, modifyW_run, getW_run, pk_call]
  rcases hC : c.pk_.CommitStep w.t0_ w.t0_ Tag.NEXT (c.pk_.Initialize w.pk) with ⟨e | u, s⟩
  · refine ⟨[Event.InitializeFields, Event.pk_Initialize,
      Event.CommitStep w.t0_ w.t0_ Tag.NEXT], s, List.prefix_append _ _, ?_, ?_⟩
    · simp [Outcome.world]
    · rintro ⟨w1, h⟩
      cases h
  · dsimp only
    obtain ⟨evs, h1, h2, h3⟩ := init_vertex_loop_run c w.S.meshes
      { w with pk := s, trace := w.trace ++ [Event.InitializeFields] ++
        [Event.pk_Initialize] ++ [Event.CommitStep w.t0_ w.t0_ Tag.NEXT] }
    refine ⟨[Event.InitializeFields, Event.pk_Initialize,
      Event.CommitStep w.t0_ w.t0_ Tag.NEXT] ++ evs, s, ?_, ?_, ?_⟩
    · exact (List.prefix_append_right_inj _).mpr h1
    · rw [h2]; simp
    · intro hok
      rw [h3 hok]

theorem register_run (e : Event) (target : IOEvent τ) (w : World σ τ) :
    Coordinator.register e target w = Outcome.ok ()
      { w with tsm := target.RegisterWithTimeStepManager w.tsm, trace := w.trace ++ [e] } :=
  rfl

/-- A loop that registers output targets. -/
theorem forEach_register (g : Nat → Event) (l : List (Nat × IOEvent τ)) (w : World σ τ) :
    forEach (fun iv => Coordinator.register (g iv.1) iv.2) l w = Outcome.ok ()
      { w with
        tsm := l.foldl (fun t iv => iv.2.RegisterWithTimeStepManager t) w.tsm,
        trace := w.trace ++ l.map fun iv => g iv.1 } := by
  induction l generalizing w with
  | nil => simp [forEach_nil]
  | cons b bs ih =>
    rw [forEach_cons]
    simp only [register_run]
    rw [ih]
    simp

/-- The last part of initialize: the world it leaves when it returns, and
the world it leaves when the commit of the initial conditions throws. -/
theorem initialize_finish_run (c : Coordinator σ τ) (w : World σ τ) :
    (∃ s, initialize_finish c w = Outcome.ok () (finish_world c w s)) ∨
    (∃ e s, initialize_finish c w = Outcome.raised e
      { w with pk := s, trace := w.trace ++ [Event.InitializeEvaluators,
        Event.CommitStep (w.S.get_time Tag.DEFAULT) (w.S.get_time Tag.DEFAULT) Tag.NEXT] }) := by
  unfold initialize_finish
  simp only [bind_run, emit_run, getW_run, pk_call]
  rcases hC : c.pk_.CommitStep (w.S.get_time Tag.DEFAULT) (w.S.get_time Tag.DEFAULT)
    Tag.NEXT w.pk with ⟨e | u, s⟩
  · right
    exact ⟨e, s, by simp⟩
  · left
    refine ⟨s, ?_⟩
    simp only [modifyW_run, forEach_emit, forEach_register, register_run, emit_run, bind_run]
    unfold finish_world finish_events register_events registered_tsm
    have hg : w.S.get_cycle = w.S.cycle := rfl
    cases hreq : c.required_times with
    | none =>
      by_cases hcy : w.S.cycle = -1
      · simp [hg, hcy, pure_run, bind_run, getW_run, modifyS_run]
      · simp [hg, hcy, pure_run, bind_run, getW_run]
    | some pause =>
      by_cases hcy : w.S.cycle = -1
      · simp [hg, hcy, bind_run, getW_run, modifyS_run, register_run]
      · simp [hg, hcy, pure_run, bind_run, getW_run, register_run]

theorem seed_world_meshes (c : Coordinator σ τ) (w : World σ τ) :
    (seed_world c w).S.meshes = w.S.meshes ∧ (seed_world c w).S.records = w.S.records := by
  unfold seed_world
  split_ifs <;> exact ⟨rfl, rfl⟩

theorem seed_world_times (c : Coordinator σ τ) (w : World σ τ) :
    (seed_world c w).S.time_current = initial_time c w ∧
    (seed_world c w).S.time_next = initial_time c w ∧
    (seed_world c w).t0_ = initial_time c w := by
  unfold seed_world initial_time
  split_ifs <;> exact ⟨rfl, rfl, rfl⟩

theorem seed_world_trace (c : Coordinator σ τ) (w : World σ τ) :
    (seed_world c w).trace =
      w.trace ++ (if c.restart_ then [Event.ReadCheckpointInitialTime] else []) := by
  unfold seed_world
  split_ifs <;> simp

/-- Coordinator::initialize appends a prefix of its calls, all of them when
it returns, and leaves both times at the initial time, whether it returns
or throws. -/
theorem initialize_run (c : Coordinator σ τ) (w : World σ τ) :
    ∃ evs, evs <+: initialize_events c w ∧
      (Coordinator.initialize_ c w).world.trace = w.trace ++ evs ∧
      (Coordinator.initialize_ c w).world.S.time_current = initial_time c w ∧
      (Coordinator.initialize_ c w).world.S.time_next = initial_time c w ∧
      ((∃ w1, Coordinator.initialize_ c w = Outcome.ok () w1) →
        evs = initialize_events c w) := by
  rw [initialize_parts]
  simp only [bind_run, initialize_seed_run]
  obtain ⟨hm, -⟩ := seed_world_meshes c w
  obtain ⟨htc, htn, ht0⟩ := seed_world_times c w
  have htr := seed_world_trace c w
  obtain ⟨evs, s, h1, h2, h3⟩ := initialize_fields_run c (seed_world c w)
  have hf : fields_events (seed_world c w) =
      [Event.InitializeFields, Event.pk_Initialize,
        Event.CommitStep (initial_time c w) (initial_time c w) Tag.NEXT] ++
      copy_events w.S.meshes := by
    unfold fields_events
    rw [ht0, hm]
  rw [hf] at h1 h3
  rcases hfo : initialize_fields c (seed_world c w) with ⟨u, w2⟩ | ⟨e, w2⟩
  · rw [hfo] at h2 h3
    simp only [Outcome.world] at h2
    have hevs := h3 ⟨w2, rfl⟩
    subst hevs
    simp only [initialize_restore_run]
    have hrS : (restore_world c w2).S.time_current = initial_time c w ∧
        (restore_world c w2).S.time_next = initial_time c w := by
      unfold restore_world
      by_cases hr : c.restart_ = true
      · simp only [hr, if_true]
        unfold initial_time
        simp only [hr, if_true]
        exact ⟨rfl, rfl⟩
      · simp only [hr, Bool.false_eq_true, if_false]
        rw [h2]
        exact ⟨htc, htn⟩
    have hrT : (restore_world c w2).trace = w.trace ++
        ((if c.restart_ then [Event.ReadCheckpointInitialTime] else []) ++
        [Event.InitializeFields, Event.pk_Initialize,
          Event.CommitStep (initial_time c w) (initial_time c w) Tag.NEXT] ++
        copy_events w.S.meshes ++
        (if c.restart_ then [Event.ReadCheckpoint] ++ deform_events w.S.meshes else [])) := by
      unfold restore_world
      by_cases hr : c.restart_ = true
      · simp only [hr, if_true]
        rw [h2]
        simp only [htr, hm, hr, if_true, List.append_assoc]
      · simp only [hr, Bool.false_eq_true, if_false]
        rw [h2]
        simp only [htr, hr, Bool.false_eq_true, if_false, List.append_assoc, List.append_nil,
          List.nil_append]
    have hrt : (restore_world c w2).S.get_time Tag.DEFAULT = initial_time c w := hrS.2
    rcases initialize_finish_run c (restore_world c w2) with ⟨s2, hfin⟩ | ⟨e, s2, hfin⟩
    · refine ⟨initialize_events c w, List.prefix_refl _, ?_, ?_, ?_, fun _ => rfl⟩
      · rw [hfin]
        simp only [Outcome.world, finish_world]
        rw [hrT, hrt]
        unfold initialize_events
        simp only [List.append_assoc]
      · rw [hfin]
        simp only [Outcome.world, finish_world]
        split_ifs
        · exact hrS.1
        · exact hrS.1
      · rw [hfin]
        simp only [Outcome.world, finish_world]
        split_ifs
        · exact hrS.2
        · exact hrS.2
    · refine ⟨(if c.restart_ then [Event.ReadCheckpointInitialTime] else []) ++
        [Event.InitializeFields, Event.pk_Initialize,
          Event.CommitStep (initial_time c w) (initial_time c w) Tag.NEXT] ++
        copy_events w.S.meshes ++
        (if c.restart_ then [Event.ReadCheckpoint] ++ deform_events w.S.meshes else []) ++
        [Event.InitializeEvaluators,
          Event.CommitStep (initial_time c w) (initial_time c w) Tag.NEXT], ?_, ?_, ?_, ?_, ?_⟩
      · unfold initialize_events finish_events
        simp only [List.append_assoc]
        refine (List.prefix_append_right_inj _).mpr ?_
        refine (List.prefix_append_right_inj _).mpr ?_
        refine (List.prefix_append_right_inj _).mpr ?_
        refine (List.prefix_append_right_inj _).mpr ?_
        exact List.prefix_append _ _
      · rw [hfin]
        simp only [Outcome.world]
        rw [hrT, hrt]
        simp only [List.append_assoc]
      · rw [hfin]
        exact hrS.1
      · rw [hfin]
        exact hrS.2
      · rintro ⟨w1, hw1⟩
        rw [hfin] at hw1
        cases hw1
  · rw [hfo] at h2
    simp only [Outcome.world] at h2
    refine ⟨(if c.restart_ then [Event.ReadCheckpointInitialTime] else []) ++ evs, ?_, ?_, ?_,
      ?_, ?_⟩
    · unfold initialize_events
      simp only [List.append_assoc]
      refine (List.prefix_append_right_inj _).mpr ?_
      have := h1.trans (List.prefix_append _
        ((if c.restart_ then [Event.ReadCheckpoint] ++ deform_events w.S.meshes else []) ++
          finish_events c (initial_time c w)))
      simpa only [List.append_assoc] using this
    · simp only [Outcome.world]
      rw [h2]
      simp only [htr, List.append_assoc]
    · simp only [Outcome.world]
      rw [h2]
      exact htc
    · simp only [Outcome.world]
      rw [h2]
      exact htn
    · rintro ⟨w1, hw1⟩
      cases hw1

theorem steady_bind {α β : Type} {x : M (World σ τ) α} {f : α → M (World σ τ) β}
    (hx : Steady x) (hf : ∀ a, Steady (f a)) : Steady (x >>= f) := by
  intro w
  rw [bind_run]
  obtain ⟨h1, h2, evs, h3, h4⟩ := hx w
  rcases hxw : x w with ⟨a, w1⟩ | ⟨e, w1⟩
  · rw [hxw] at h1 h2 h3
    simp only [Outcome.world] at h1 h2 h3
    obtain ⟨g1, g2, evs2, g3, g4⟩ := hf a w1
    refine ⟨g1.trans h1, g2.trans h2, evs ++ evs2, ?_, ?_⟩
    · rw [g3, h3, List.append_assoc]
    · intro e he
      rcases List.mem_append.mp he with h | h
      · exact h4 e h
      · exact g4 e h
  · rw [hxw] at h1 h2 h3
    exact ⟨h1, h2, evs, h3, h4⟩

theorem steady_of_world {α : Type} {x : M (World σ τ) α}
    (h : ∀ w, (x w).world.S.time_current = w.S.time_current ∧
      (x w).world.S.time_next = w.S.time_next ∧ (x w).world.trace = w.trace) : Steady x :=
  fun w => ⟨(h w).1, (h w).2.1, [], by rw [(h w).2.2, List.append_nil], by simp⟩

theorem steady_pure {α : Type} (a : α) : Steady (pure a : M (World σ τ) α) :=
  steady_of_world fun _ => ⟨rfl, rfl, rfl⟩

theorem steady_getW : Steady (getW : M (World σ τ) (World σ τ)) :=
  steady_of_world fun _ => ⟨rfl, rfl, rfl⟩

theorem steady_throw {α : Type} (e : Message) : Steady (amanzi_throw e : M (World σ τ) α) :=
  steady_of_world fun _ => ⟨rfl, rfl, rfl⟩

theorem steady_modifyW (f : World σ τ → World σ τ)
    (h : ∀ w, (f w).S.time_current = w.S.time_current ∧ (f w).S.time_next = w.S.time_next ∧
      (f w).trace = w.trace) : Steady (modifyW f) :=
  steady_of_world h

theorem steady_modifyS (f : State → State)
    (h : ∀ S, (f S).time_current = S.time_current ∧ (f S).time_next = S.time_next) :
    Steady (modifyS f : M (World σ τ) Unit) :=
  steady_of_world fun w => ⟨(h w.S).1, (h w.S).2, rfl⟩

theorem steady_pk_call {α : Type} (op : σ → Except Message α × σ) :
    Steady (pk_call op : M (World σ τ) α) := by
  apply steady_of_world
  intro w
  unfold pk_call
  rcases op w.pk with ⟨_ | a, s⟩ <;> exact ⟨rfl, rfl, rfl⟩

theorem steady_emit (e : Event) (h : e.isMakeObservations = false) :
    Steady (emit e : M (World σ τ) Unit) := by
  intro w
  refine ⟨rfl, rfl, [e], rfl, ?_⟩
  intro e1 he1
  rw [List.mem_singleton.mp he1]
  exact h

theorem steady_ite {α : Type} (p : Prop) [Decidable p] {x y : M (World σ τ) α}
    (hx : Steady x) (hy : Steady y) : Steady (if p then x else y) := by
  split_ifs
  · exact hx
  · exact hy

theorem steady_forEach {β : Type} (f : β → M (World σ τ) Unit) (l : List β)
    (h : ∀ b, Steady (f b)) : Steady (forEach f l) := by
  induction l with
  | nil => exact steady_pure ()
  | cons b bs ih =>
    rw [forEach]
    exact steady_bind (h b) fun _ => ih

theorem steady_get_dt (c : Coordinator σ τ) (after_fail : Bool) :
    Steady (Coordinator.get_dt c after_fail) := by
  intro w
  rw [get_dt_run]
  split_ifs <;> first
    | exact ⟨rfl, rfl, [], (List.append_nil _).symm, by simp⟩
    | exact ⟨rfl, rfl, _, rfl, fun e he => by rw [List.mem_singleton.mp he]; rfl⟩

theorem visualize_events_quiet (force : Bool) (w : World σ τ) :
    ∀ e ∈ visualize_events force w, e.isMakeObservations = false := by
  intro e he
  unfold visualize_events at he
  rcases List.mem_append.mp he with h | h
  · split_ifs at h
    · rw [List.mem_singleton.mp h]
      rfl
    · simp at h
  · obtain ⟨iv, _, rfl⟩ := List.mem_map.mp h
    rfl

theorem steady_visualize (c : Coordinator σ τ) (force : Bool) :
    Steady (Coordinator.visualize c force) := by
  intro w
  rw [visualize_run]
  exact ⟨rfl, rfl, _, rfl, visualize_events_quiet force w⟩

theorem steady_checkpoint (c : Coordinator σ τ) (force : Bool) :
    Steady (Coordinator.checkpoint c force) := by
  intro w
  rw [checkpoint_run]
  split_ifs
  · refine ⟨rfl, rfl, _, rfl, ?_⟩
    intro e he
    rw [List.mem_singleton.mp he]
    rfl
  · exact ⟨rfl, rfl, [], (List.append_nil _).symm, by simp⟩

theorem steady_loop_condition (c : Coordinator σ τ) (dt : ℚ) :
    Steady (Coordinator.loop_condition c dt) := by
  apply steady_of_world
  intro w
  rw [loop_condition_run]
  split_ifs <;> exact ⟨rfl, rfl, rfl⟩

theorem steady_recover_mesh (c : Coordinator σ τ) (m : Mesh) :
    Steady (Coordinator.recover_mesh c m) := by
  unfold Coordinator.recover_mesh GetPtr
  repeat' first
    | exact steady_getW | exact steady_pure _ | exact steady_pk_call _
    | exact steady_emit _ rfl | exact steady_throw _
    | apply steady_bind | apply steady_ite | apply steady_forEach | intro _

theorem steady_advance (c : Coordinator σ τ) : Steady (Coordinator.advance c) := by
  unfold Coordinator.advance
  repeat' first
    | exact steady_getW | exact steady_pure _ | exact steady_pk_call _
    | exact steady_emit _ rfl | exact steady_throw _ | exact steady_recover_mesh c _
    | apply steady_bind | apply steady_ite | apply steady_forEach | intro _

theorem steady_finalize (c : Coordinator σ τ) : Steady (Coordinator.finalize c) := by
  unfold Coordinator.finalize
  repeat' first
    | exact steady_getW | exact steady_pure _ | exact steady_emit _ rfl
    | exact steady_modifyW _ fun _ => ⟨rfl, rfl, rfl⟩
    | apply steady_bind | apply steady_ite | apply steady_forEach | intro _

theorem steady_start_tail (c : Coordinator σ τ) : Steady (start_tail c) := by
  unfold start_tail Coordinator.AMANZI_ASSERT
  repeat' first
    | exact steady_getW | exact steady_pure _ | exact steady_emit _ rfl
    | exact steady_throw _ | exact steady_get_dt c _ | exact steady_visualize c _
    | exact steady_checkpoint c _
    | exact steady_modifyS _ fun _ => ⟨rfl, rfl⟩
    | apply steady_bind | apply steady_ite | apply steady_forEach | intro _

theorem cycle_driver_start_parts (c : Coordinator σ τ) :
    Coordinator.cycle_driver_start c =
      (do Coordinator.setup c; Coordinator.initialize_ c; start_tail c) := rfl

theorem setup_ok (c : Coordinator σ τ) (w : World σ τ) :
    ∃ w1, Coordinator.setup c w = Outcome.ok () w1 := by
  unfold Coordinator.setup
  simp only [bind_run, modifyS_run, emit_run, modifyW_run, forEach_emit]
  exact ⟨_, rfl⟩

/-- The part of cycle_driver before the main loop leaves the NEXT time equal
to the CURRENT time, whether it returns or throws. -/
theorem cycle_driver_start_times (c : Coordinator σ τ) (w : World σ τ) :
    (Coordinator.cycle_driver_start c w).world.S.time_next =
      (Coordinator.cycle_driver_start c w).world.S.time_current := by
  rw [cycle_driver_start_parts]
  simp only [bind_run]
  obtain ⟨w1, hw1⟩ := setup_ok c w
  rw [hw1]
  dsimp only
  obtain ⟨evs, -, -, h3, h4, -⟩ := initialize_run c w1
  rcases hi : Coordinator.initialize_ c w1 with ⟨u, w2⟩ | ⟨e, w2⟩
  · rw [hi] at h3 h4
    simp only [Outcome.world] at h3 h4
    dsimp only
    obtain ⟨g1, g2, -⟩ := steady_start_tail c w2
    rw [g1, g2, h3, h4]
  · rw [hi] at h3 h4
    simp only [Outcome.world] at h3 h4 ⊢
    rw [h3, h4]

theorem loop_condition_true (c : Coordinator σ τ) (dt : ℚ) (w w1 : World σ τ)
    (h : Coordinator.loop_condition c dt w = Outcome.ok true w1) : 0 < dt ∧ w1.S = w.S := by
  rw [loop_condition_run] at h
  split_ifs at h <;> simp only [Outcome.ok.injEq, decide_eq_true_eq, Bool.false_eq_true,
    false_and] at h
  · exact ⟨h.1, by rw [← h.2]⟩
  · exact ⟨h.1, by rw [← h.2]⟩

theorem loop_condition_false (c : Coordinator σ τ) (dt : ℚ) (w w1 : World σ τ)
    (h : Coordinator.loop_condition c dt w = Outcome.ok false w1) :
    w1.S = w.S ∧ w1.trace = w.trace := by
  obtain ⟨h1, h2, evs, h3, -⟩ := steady_loop_condition c dt w
  rw [loop_condition_run] at h
  split_ifs at h <;> simp only [Outcome.ok.injEq] at h <;> exact ⟨by rw [← h.2], by rw [← h.2]⟩

/-- A trial step entered with equal times and a positive step size: the
times are equal again when it returns, and ordered in every case. -/
theorem trial_step_times (c : Coordinator σ τ) (dt : ℚ) (w : World σ τ)
    (heq : w.S.time_next = w.S.time_current) (hdt : 0 < dt) :
    (∀ fail w2, Coordinator.trial_step c dt w = Outcome.ok fail w2 →
      w2.S.time_next = w2.S.time_current) ∧
    (Coordinator.trial_step c dt w).world.S.time_current ≤
      (Coordinator.trial_step c dt w).world.S.time_next := by
  rw [trial_step_run]
  obtain ⟨h1, h2, -⟩ := steady_advance c (trial_world w dt)
  have hc : (trial_world w dt).S.time_current = w.S.time_current := rfl
  have hn : (trial_world w dt).S.time_next = w.S.time_next + dt := rfl
  rcases ha : Coordinator.advance c (trial_world w dt) with ⟨fail, w1⟩ | ⟨e, w1⟩
  · rw [ha] at h1 h2
    simp only [Outcome.world] at h1 h2
    cases fail
    · dsimp only
      have hS := accepted_world_S c w1
      refine ⟨?_, ?_⟩
      · intro fail w2 hw2
        simp only [Outcome.ok.injEq] at hw2
        rw [← hw2.2, hS]
        rfl
      · simp only [Outcome.world]
        rw [hS]
        exact le_of_eq rfl
    · dsimp only
      refine ⟨?_, ?_⟩
      · intro fail w2 hw2
        simp only [Outcome.ok.injEq] at hw2
        rw [← hw2.2]
        rfl
      · exact le_of_eq rfl
  · rw [ha] at h1 h2
    simp only [Outcome.world] at h1 h2 ⊢
    refine ⟨fun fail w2 hw2 => (by cases hw2), ?_⟩
    rw [h1, h2, hc, hn, heq]
    linarith

/-- One iteration of the main loop entered with equal times and a positive
step size. -/
theorem loop_body_times (c : Coordinator σ τ) (dt : ℚ) (w : World σ τ)
    (heq : w.S.time_next = w.S.time_current) (hdt : 0 < dt) :
    (∀ dt2 w2, Coordinator.loop_body c dt w = Outcome.ok dt2 w2 →
      w2.S.time_next = w2.S.time_current) ∧
    (Coordinator.loop_body c dt w).world.S.time_current ≤
      (Coordinator.loop_body c dt w).world.S.time_next := by
  rw [loop_body_run]
  obtain ⟨h1, h2⟩ := trial_step_times c dt w heq hdt
  rcases ht : Coordinator.trial_step c dt w with ⟨fail, w1⟩ | ⟨e, w1⟩
  · dsimp only
    have h3 := h1 fail w1 ht
    obtain ⟨g1, g2, -⟩ := steady_get_dt c fail w1
    refine ⟨?_, ?_⟩
    · intro dt2 w2 hw2
      rw [hw2] at g1 g2
      simp only [Outcome.world] at g1 g2
      rw [g1, g2, h3]
    · rw [g1, g2, h3]
  · rw [ht] at h2
    exact ⟨fun dt2 w2 hw2 => (by cases hw2), h2⟩

theorem first_iterations_times (c : Coordinator σ τ) (n : Nat) (dt0 dt : ℚ)
    (ws w : World σ τ) (heq : ws.S.time_next = ws.S.time_current)
    (h : first_iterations c n dt0 ws = Outcome.ok dt w) :
    w.S.time_next = w.S.time_current := by
  induction n generalizing dt0 ws with
  | zero =>
    simp only [first_iterations, Outcome.ok.injEq] at h
    rw [← h.2]
    exact heq
  | succ n ih =>
    rw [first_iterations] at h
    rcases hc : Coordinator.loop_condition c dt0 ws with ⟨b, w1⟩ | ⟨e, w1⟩
    · rw [hc] at h
      cases b
      · simp only [Outcome.ok.injEq] at h
        rw [← h.2, (loop_condition_false c dt0 ws w1 hc).1]
        exact heq
      · dsimp only at h
        obtain ⟨hdt, hS⟩ := loop_condition_true c dt0 ws w1 hc
        have heq1 : w1.S.time_next = w1.S.time_current := by rw [hS]; exact heq
        rcases hb : Coordinator.loop_body c dt0 w1 with ⟨dt2, w2⟩ | ⟨e, w2⟩
        · rw [hb] at h
          exact ih dt2 w2 ((loop_body_times c dt0 w1 heq1 hdt).1 dt2 w2 hb) h
        · rw [hb] at h
          cases h
    · rw [hc] at h
      cases h

/-- From equal times, the main loop ends with the CURRENT time not after
the NEXT time, whether it returns or throws. -/
theorem main_loop_times (c : Coordinator σ τ) (fuel : Nat) (dt : ℚ) (w : World σ τ)
    (r : Outcome Unit (World σ τ)) (heq : w.S.time_next = w.S.time_current)
    (h : Coordinator.main_loop c fuel dt w = some r) :
    r.world.S.time_current ≤ r.world.S.time_next := by
  induction fuel generalizing dt w with
  | zero => simp [Coordinator.main_loop] at h
  | succ n ih =>
    rw [Coordinator.main_loop] at h
    obtain ⟨g1, g2, -⟩ := steady_loop_condition c dt w
    rcases hc : Coordinator.loop_condition c dt w with ⟨b, w1⟩ | ⟨e, w1⟩
    · rw [hc] at h g1 g2
      simp only [Outcome.world] at g1 g2
      have heq1 : w1.S.time_next = w1.S.time_current := by rw [g1, g2]; exact heq
      cases b
      · simp only [Option.some.injEq] at h
        rw [← h]
        exact le_of_eq heq1.symm
      · dsimp only at h
        obtain ⟨hdt, -⟩ := loop_condition_true c dt w w1 hc
        obtain ⟨k1, k2⟩ := loop_body_times c dt w1 heq1 hdt
        rcases hb : Coordinator.loop_body c dt w1 with ⟨dt2, w2⟩ | ⟨e, w2⟩
        · rw [hb] at h
          exact ih dt2 w2 (k1 dt2 w2 hb) h
        · rw [hb] at h k2
          simp only [Option.some.injEq] at h
          rw [← h]
          exact k2
    · rw [hc] at h g1 g2
      simp only [Option.some.injEq] at h
      rw [← h]
      simp only [Outcome.world] at g1 g2 ⊢
      rw [g1, g2]
      exact le_of_eq heq.symm

/-- Every outcome of cycle_driver has the CURRENT time not after the NEXT
time. -/
theorem cycle_driver_times (c : Coordinator σ τ) (fuel : Nat) (w : World σ τ)
    (r : Outcome Unit (World σ τ)) (h : Coordinator.cycle_driver c fuel w = some r) :
    r.world.S.time_current ≤ r.world.S.time_next := by
  unfold Coordinator.cycle_driver Coordinator.cycle_driver_with at h
  have hst := cycle_driver_start_times c w
  rcases hs : Coordinator.cycle_driver_start c w with ⟨dt, w1⟩ | ⟨e, w1⟩
  · rw [hs] at h hst
    simp only [Outcome.world] at hst
    dsimp only at h
    have hg : Coordinator.guarded_loop Coordinator.DEBUG_MODE c fuel dt w1 =
        Coordinator.main_loop c fuel dt w1 := rfl
    rw [hg] at h
    rcases hm : Coordinator.main_loop c fuel dt w1 with _ | ⟨u, w2⟩ | ⟨e, w2⟩
    · rw [hm] at h
      cases h
    · rw [hm] at h
      simp only [Option.some.injEq] at h
      have := main_loop_times c fuel dt w1 _ hst hm
      simp only [Outcome.world] at this
      obtain ⟨g1, g2, -⟩ := steady_finalize c w2
      rw [← h, g1, g2]
      exact this
    · rw [hm] at h
      simp only [Option.some.injEq] at h
      rw [← h]
      exact main_loop_times c fuel dt w1 _ hst hm
  · rw [hs] at h hst
    simp only [Option.some.injEq] at h
    rw [← h]
    exact le_of_eq hst.symm

theorem unrecoverable_third :
    first_iterations unrecoverable 2 start_dt start_world = Outcome.ok third_dt third_world :=
  ok_of_message 0 _ (by decide!)

/-- C11: the part of cycle_driver that ends with initialize and the first
step size leaves the NEXT time equal to the CURRENT time.  In a run whose
main loop starts from there, the two times are equal at the start of every
iteration; in an iteration that is entered the step size dt is positive,
advance() is called with the NEXT time equal to the CURRENT time plus dt and
keeps the state while it runs, the times are equal again after the trial
step, accepted or rejected, and the CURRENT time is not after the NEXT time
when the trial step or the iteration throws.  Every outcome of cycle_driver
has the CURRENT time not after the NEXT time. -/
theorem cycle_driver_time_order (c : Coordinator σ τ) (w0 ws w : World σ τ) (n : Nat)
    (dt0 dt : ℚ) (hs : cycle_driver_start c w0 = Outcome.ok dt0 ws)
    (hn : first_iterations c n dt0 ws = Outcome.ok dt w) :
    ws.S.get_time Tag.NEXT = ws.S.get_time Tag.CURRENT ∧
    w.S.get_time Tag.NEXT = w.S.get_time Tag.CURRENT ∧
    (∀ w1, loop_condition c dt w = Outcome.ok true w1 →
      0 < dt ∧
      w1.S.get_time Tag.NEXT = w1.S.get_time Tag.CURRENT ∧
      (trial_world w1 dt).S.get_time Tag.NEXT =
        (trial_world w1 dt).S.get_time Tag.CURRENT + dt ∧
      (advance c (trial_world w1 dt)).world.S = (trial_world w1 dt).S ∧
      (∀ fail w2, trial_step c dt w1 = Outcome.ok fail w2 →
        w2.S.get_time Tag.NEXT = w2.S.get_time Tag.CURRENT) ∧
      (∀ dt2 w2, loop_body c dt w1 = Outcome.ok dt2 w2 →
        w2.S.get_time Tag.NEXT = w2.S.get_time Tag.CURRENT) ∧
      (trial_step c dt w1).world.S.get_time Tag.CURRENT ≤
        (trial_step c dt w1).world.S.get_time Tag.NEXT ∧
      (loop_body c dt w1).world.S.get_time Tag.CURRENT ≤
        (loop_body c dt w1).world.S.get_time Tag.NEXT) ∧
    (∀ fuel r, cycle_driver c fuel w0 = some r →
      r.world.S.get_time Tag.CURRENT ≤ r.world.S.get_time Tag.NEXT) := by
  have hst := cycle_driver_start_times c w0
  rw [hs] at hst
  have heq : w.S.time_next = w.S.time_current := first_iterations_times c n dt0 dt ws w hst hn
  refine ⟨hst, heq, ?_, fun fuel r h => cycle_driver_times c fuel w0 r h⟩
  intro w1 hc
  obtain ⟨hdt, hS⟩ := loop_condition_true c dt w w1 hc
  have heq1 : w1.S.time_next = w1.S.time_current := by rw [hS]; exact heq
  obtain ⟨t1, t2⟩ := trial_step_times c dt w1 heq1 hdt
  obtain ⟨b1, b2⟩ := loop_body_times c dt w1 heq1 hdt
  refine ⟨hdt, heq1, ?_, advance_keeps_S c _, t1, b1, t2, b2⟩
  show w1.S.time_next + dt = w1.S.time_current + dt
  rw [heq1]

/-- Witness of C11: the third iteration of the unrecoverable run, which
follows two accepted steps of size 10. -/
theorem cycle_driver_time_order_witness :
    cycle_driver_start unrecoverable world0 = Outcome.ok start_dt start_world ∧
    first_iterations unrecoverable 2 start_dt start_world = Outcome.ok third_dt third_world ∧
    third_world.S.get_time Tag.CURRENT = 20 ∧
    third_world.S.get_time Tag.NEXT = third_world.S.get_time Tag.CURRENT ∧
    (loop_condition unrecoverable third_dt third_world).message = none ∧
    (trial_world third_world third_dt).S.get_time Tag.NEXT = 30 :=
  ⟨unrecoverable_start, unrecoverable_third, by decide!,
    (cycle_driver_time_order unrecoverable world0 start_world third_world 2 start_dt third_dt
      unrecoverable_start unrecoverable_third).2.1,
    by decide!, by decide!⟩

theorem ok_of_run_message {W : Type} (d : W) (r : Option (Outcome Unit W))
    (h : r.map Outcome.message = some none) : r = some (Outcome.ok () (end_world d r)) := by
  rcases r with _ | ⟨u, w⟩ | ⟨e, w⟩
  · simp at h
  · rfl
  · simp [Outcome.message] at h

theorem observed_start_run :
    cycle_driver_start observed world0 = Outcome.ok observed_dt observed_start :=
  ok_of_message 0 _ (by decide!)

theorem PutScalar_shape (v : CompositeVector) (s : ℚ) : (v.PutScalar s).shape = v.shape := by
  unfold CompositeVector.PutScalar CompositeVector.shape
  simp [List.map_map, Function.comp_def]

theorem PutScalar_entries (v : CompositeVector) (s : ℚ) :
    ∀ comp ∈ (v.PutScalar s).components, ∀ x ∈ comp.2, x = s := by
  intro comp hcomp x hx
  unfold CompositeVector.PutScalar at hcomp
  obtain ⟨comp0, _, rfl⟩ := List.mem_map.mp hcomp
  obtain ⟨y, _, rfl⟩ := List.mem_map.mp hx
  rfl

theorem PutScalar_is_zero (v : CompositeVector) : (v.PutScalar 0).is_zero = true := by
  unfold CompositeVector.is_zero
  rw [List.all_eq_true]
  intro comp hcomp
  rw [List.all_eq_true]
  intro x hx
  exact decide_eq_true (PutScalar_entries v 0 comp hcomp x hx)

/-- C28: for every state and every differentiation target (key and tag),
EvaluatePartialDerivative_ of CanopyRadiationEvaluator and of
RadiationBalanceEvaluator, and EvaluateFieldPartialDerivative_ of
LakeEvaporationRateEvaluator, leave the shape of the results as it is and
set every entry of every result to zero; the target is not looked at, so
this holds for declared dependencies such as the temperatures as well. -/
theorem partial_derivatives_zero {St : Type} (S : St) (wrt_key : String) (wrt_tag : Tag)
    (results : List CompositeVector) (result : CompositeVector) :
    ((CanopyRadiationEvaluator.EvaluatePartialDerivative_ S wrt_key wrt_tag results).map
        CompositeVector.shape = results.map CompositeVector.shape ∧
      ∀ res ∈ CanopyRadiationEvaluator.EvaluatePartialDerivative_ S wrt_key wrt_tag results,
        res.is_zero = true ∧ ∀ comp ∈ res.components, ∀ x ∈ comp.2, x = 0) ∧
    ((RadiationBalanceEvaluator.EvaluatePartialDerivative_ S wrt_key wrt_tag results).map
        CompositeVector.shape = results.map CompositeVector.shape ∧
      ∀ res ∈ RadiationBalanceEvaluator.EvaluatePartialDerivative_ S wrt_key wrt_tag results,
        res.is_zero = true ∧ ∀ comp ∈ res.components, ∀ x ∈ comp.2, x = 0) ∧
    ((LakeEvaporationRateEvaluator.EvaluateFieldPartialDerivative_ S wrt_key result).shape =
        result.shape ∧
      (LakeEvaporationRateEvaluator.EvaluateFieldPartialDerivative_ S wrt_key result).is_zero =
        true ∧
      ∀ comp ∈
          (LakeEvaporationRateEvaluator.EvaluateFieldPartialDerivative_ S wrt_key
            result).components,
        ∀ x ∈ comp.2, x = 0) := by
  have hmap : (results.map fun res => res.PutScalar 0).map CompositeVector.shape =
      results.map CompositeVector.shape := by
    rw [List.map_map]
    exact List.map_congr_left fun res _ => PutScalar_shape res 0
  have hall : ∀ res ∈ results.map (fun res => res.PutScalar 0),
      res.is_zero = true ∧ ∀ comp ∈ res.components, ∀ x ∈ comp.2, x = 0 := by
    intro res hres
    obtain ⟨r0, _, rfl⟩ := List.mem_map.mp hres
    exact ⟨PutScalar_is_zero r0, PutScalar_entries r0 0⟩
  exact ⟨⟨hmap, hall⟩, ⟨hmap, hall⟩, PutScalar_shape result 0, PutScalar_is_zero result,
    PutScalar_entries result 0⟩

theorem Evaluate_cell_eq (BeersLaw : ℚ → ℚ → ℚ → ℚ) (OLR : ℚ → ℚ → ℚ) (S : CanopyFields)
    (lc : LandCover) (results : Nat → Nat → ℚ) (c index c1 : Nat) :
    CanopyRadiationEvaluator.Evaluate_cell BeersLaw OLR S lc results c index c1 =
      if c1 = c then written BeersLaw OLR S lc index c1 (results index c1)
      else results index c1 := by
  unfold CanopyRadiationEvaluator.Evaluate_cell assign written canopy_balance lw_can
    lw_atm_surf sw_atm_surf
  by_cases hc : c1 = c
  · subst hc
    by_cases h0 : index = 0
    · subst h0
      simp [Function.update]
    · by_cases h2 : index = 2
      · subst h2
        simp [Function.update]
      · simp [Function.update, h0, h2]
  · by_cases h0 : index = 0
    · subst h0
      simp [Function.update, hc]
    · by_cases h2 : index = 2
      · subst h2
        simp [Function.update, hc]
      · simp [Function.update, h0, h2, hc]

theorem written_written (BeersLaw : ℚ → ℚ → ℚ → ℚ) (OLR : ℚ → ℚ → ℚ) (S : CanopyFields)
    (lc : LandCover) (index c : Nat) (old : ℚ) :
    written BeersLaw OLR S lc index c (written BeersLaw OLR S lc index c old) =
      written BeersLaw OLR S lc index c old := by
  unfold written
  split_ifs <;> rfl

/-- The loop over the cells of one land-cover type. -/
theorem Evaluate_cells (BeersLaw : ℚ → ℚ → ℚ → ℚ) (OLR : ℚ → ℚ → ℚ) (S : CanopyFields)
    (lc : LandCover) (cells : List Nat) (results : Nat → Nat → ℚ) (index c1 : Nat) :
    cells.foldl (CanopyRadiationEvaluator.Evaluate_cell BeersLaw OLR S lc) results index c1 =
      if c1 ∈ cells then written BeersLaw OLR S lc index c1 (results index c1)
      else results index c1 := by
  induction cells generalizing results with
  | nil => simp
  | cons c cs ih =>
    rw [List.foldl_cons, ih, Evaluate_cell_eq]
    by_cases hc : c1 = c
    · subst hc
      simp [written_written]
    · by_cases hcs : c1 ∈ cs
      · simp [hc, hcs]
      · simp [hc, hcs]

/-- The land-cover types whose regions do not hold the cell leave its
entries as they are. -/
theorem Evaluate_other_regions (BeersLaw : ℚ → ℚ → ℚ → ℚ) (OLR : ℚ → ℚ → ℚ)
    (get_set_entities : String → List Nat) (S : CanopyFields)
    (land_cover : List (String × LandCover)) (results : Nat → Nat → ℚ) (index c : Nat)
    (h : ∀ r ∈ land_cover, c ∉ get_set_entities r.1) :
    land_cover.foldl
        (fun results lc =>
          (get_set_entities lc.1).foldl
            (CanopyRadiationEvaluator.Evaluate_cell BeersLaw OLR S lc.2) results)
        results index c = results index c := by
  induction land_cover generalizing results with
  | nil => rfl
  | cons r rs ih =>
    rw [List.foldl_cons, ih _ fun r1 hr1 => h r1 (List.mem_cons_of_mem r hr1), Evaluate_cells,
      if_neg (h r (List.mem_cons_self r rs))]

/-- The results other than the first and the third are never written. -/
theorem Evaluate_other_results (BeersLaw : ℚ → ℚ → ℚ → ℚ) (OLR : ℚ → ℚ → ℚ)
    (get_set_entities : String → List Nat) (S : CanopyFields)
    (land_cover : List (String × LandCover)) (results : Nat → Nat → ℚ) (index c : Nat)
    (h0 : index ≠ 0) (h2 : index ≠ 2) :
    land_cover.foldl
        (fun results lc =>
          (get_set_entities lc.1).foldl
            (CanopyRadiationEvaluator.Evaluate_cell BeersLaw OLR S lc.2) results)
        results index c = results index c := by
  induction land_cover generalizing results with
  | nil => rfl
  | cons r rs ih =>
    rw [List.foldl_cons, ih, Evaluate_cells]
    unfold written
    simp [h0, h2]

/-- The entries of a cell after Evaluate_, when `lc` is the last land-cover
type whose region holds the cell. -/
theorem Evaluate_run (BeersLaw : ℚ → ℚ → ℚ → ℚ) (OLR : ℚ → ℚ → ℚ)
    (get_set_entities : String → List Nat)
    (ev : CanopyRadiationEvaluator (List (String × LandCover))) (S : CanopyFields)
    (results : Nat → Nat → ℚ) (before after : List (String × LandCover)) (name : String)
    (lc : LandCover) (c : Nat) (hlc : ev.land_cover_ = before ++ (name, lc) :: after)
    (hc : c ∈ get_set_entities name) (hafter : ∀ r ∈ after, c ∉ get_set_entities r.1) :
    CanopyRadiationEvaluator.Evaluate_ BeersLaw OLR get_set_entities ev S results 0 c =
      lw_atm_surf BeersLaw S lc c + lw_can OLR S lc c ∧
    CanopyRadiationEvaluator.Evaluate_ BeersLaw OLR get_set_entities ev S results 1 c =
      results 1 c ∧
    CanopyRadiationEvaluator.Evaluate_ BeersLaw OLR get_set_entities ev S results 2 c =
      canopy_balance BeersLaw OLR S lc c := by
  refine ⟨?_, ?_, ?_⟩
  · unfold CanopyRadiationEvaluator.Evaluate_
    rw [hlc, List.foldl_append, List.foldl_cons,
      Evaluate_other_regions BeersLaw OLR get_set_entities S after _ 0 c hafter, Evaluate_cells,
      if_pos hc]
    rfl
  · unfold CanopyRadiationEvaluator.Evaluate_
    exact Evaluate_other_results BeersLaw OLR get_set_entities S _ results 1 c (by decide)
      (by decide)
  · unfold CanopyRadiationEvaluator.Evaluate_
    rw [hlc, List.foldl_append, List.foldl_cons,
      Evaluate_other_regions BeersLaw OLR get_set_entities S after _ 2 c hafter, Evaluate_cells,
      if_pos hc]
    rfl

/-- C24, the code at a concrete input: one land-cover type with the cells 0
and 1, incoming shortwave 200 and longwave 300, results that hold -1.  After
CanopyRadiationEvaluator::Evaluate_ the first result holds in the cell 0
the downward longwave 300 and not the attenuated shortwave 200, and the
second result still holds -1 in both cells: `down_sw` and `down_lw` are both
views of results[0], so the longwave overwrites the shortwave and results[1]
is never written.  The third result holds the canopy balance. -/
theorem Evaluate_aliased_results :
    sw_atm_surf example_BeersLaw example_fields ⟨1 / 2, 1 / 2, 98 / 100, 1 / 10⟩ 0 = 200 ∧
    lw_atm_surf example_BeersLaw example_fields ⟨1 / 2, 1 / 2, 98 / 100, 1 / 10⟩ 0 +
      lw_can example_OutgoingLongwaveRadiation example_fields
        ⟨1 / 2, 1 / 2, 98 / 100, 1 / 10⟩ 0 = 300 ∧
    example_evaluated 0 0 = 300 ∧
    example_evaluated 1 0 = -1 ∧
    example_evaluated 1 1 = -1 ∧
    example_evaluated 2 0 =
      canopy_balance example_BeersLaw example_OutgoingLongwaveRadiation example_fields
        ⟨1 / 2, 1 / 2, 98 / 100, 1 / 10⟩ 0 := by
  have h0 := Evaluate_run example_BeersLaw example_OutgoingLongwaveRadiation example_cells
    example_evaluator example_fields example_results [] [] "forest"
    ⟨1 / 2, 1 / 2, 98 / 100, 1 / 10⟩ 0 rfl (by decide) (by simp)
  have h1 := Evaluate_run example_BeersLaw example_OutgoingLongwaveRadiation example_cells
    example_evaluator example_fields example_results [] [] "forest"
    ⟨1 / 2, 1 / 2, 98 / 100, 1 / 10⟩ 1 rfl (by decide) (by simp)
  have hs : sw_atm_surf example_BeersLaw example_fields ⟨1 / 2, 1 / 2, 98 / 100, 1 / 10⟩ 0 =
      200 := by
    norm_num [sw_atm_surf, example_BeersLaw, example_fields]
  have hl : lw_atm_surf example_BeersLaw example_fields ⟨1 / 2, 1 / 2, 98 / 100, 1 / 10⟩ 0 +
      lw_can example_OutgoingLongwaveRadiation example_fields
        ⟨1 / 2, 1 / 2, 98 / 100, 1 / 10⟩ 0 = 300 := by
    norm_num [lw_atm_surf, lw_can, example_BeersLaw, example_fields]
  refine ⟨hs, hl, ?_, h0.2.1, h1.2.1, h0.2.2⟩
  exact h0.1.trans hl

/-- C25, the code at a concrete input: setup from a list with atol 2 and
rtol 4 in which the option "adapt tolerances to timestep" is absent leaves
the adaptive mode enabled, because the default handed to get<bool> is the
string literal "false", which converts to `true`.  A call of enorm for the
step size h = 2 then computes with atol = 2 / 2 and rtol = 4 / 2 and returns
3/5 for the example vectors, where the configured tolerances give 3/10. -/
theorem setup_absent_option_adapts :
    example_absent.adapt_tols_to_h_ = true ∧
    (PKPhysicalBDFBase.enorm example_absent 2 0 example_vec []).2.atol_ = 1 ∧
    (PKPhysicalBDFBase.enorm example_absent 2 0 example_vec []).2.rtol_ = 2 ∧
    (PKPhysicalBDFBase.enorm example_absent 2 0 example_vec []).1 = Except.ok (3 / 5) ∧
    enorm_with 2 4 example_vec [] = Except.ok (3 / 10) := by
  refine ⟨by decide, by decide!, by decide!, ?_, ?_⟩
  · with_unfolding_all rfl
  · with_unfolding_all rfl

/-- C21, the code at a concrete input: a state with the deformable mesh
"surface", not aliased.  coordinator_init declares the field
"surface-vertex_coordinates" at the tag NEXT and initialize fills it, but
the first rejected step of the run ends cycle_driver with the error that the
field "surface-vertex_cooordinates" is not found: Coordinator::advance asks
for the key with the name "vertex_cooordinates", which nothing declares, so
FailStep has been called and the mesh is not deformed back. -/
theorem advance_recovery_key_not_found :
    surface_state.records = [("surface-vertex_coordinates", Tag.NEXT)] ∧
    surface_state.HasRecord "surface-vertex_coordinates" Tag.NEXT = true ∧
    surface_state.HasRecord "surface-vertex_cooordinates" Tag.DEFAULT = false ∧
    recovery_report (cycle_driver (coordinator 1 (1 / 2)) 3 surface_world) =
      some (some ⟨"State: field not found: surface-vertex_cooordinates"⟩,
        [Event.copyMeshCoordinatesToVector "surface"],
        [Event.FailStep 0 10 Tag.NEXT], []) := by
  refine ⟨by decide!, by decide!, by decide!, by decide!⟩

/-- The state that a returning Coordinator::initialize leaves. -/
theorem initialize_state (c : Coordinator σ τ) (w w1 : World σ τ)
    (h : Coordinator.initialize_ c w = Outcome.ok () w1) :
    w1.S = (if (restore_world c (seed_world c w)).S.get_cycle = -1
      then (restore_world c (seed_world c w)).S.advance_cycle
      else (restore_world c (seed_world c w)).S) ∧
    w1.tsm = registered_tsm c w.tsm := by
  rw [initialize_parts] at h
  simp only [bind_run, initialize_seed_run] at h
  obtain ⟨evs, s, -, h2, -⟩ := initialize_fields_run c (seed_world c w)
  rcases hfo : initialize_fields c (seed_world c w) with ⟨u, w2⟩ | ⟨e, w2⟩
  · rw [hfo] at h h2
    simp only [Outcome.world] at h2
    simp only [initialize_restore_run] at h
    have hS : (restore_world c w2).S = (restore_world c (seed_world c w)).S := by
      unfold restore_world
      rw [h2]
      split_ifs <;> rfl
    have hT : (restore_world c w2).tsm = w.tsm := by
      unfold restore_world
      rw [h2]
      have : (seed_world c w).tsm = w.tsm := by
        unfold seed_world
        split_ifs <;> rfl
      split_ifs <;> exact this
    rcases initialize_finish_run c (restore_world c w2) with ⟨s2, hfin⟩ | ⟨e, s2, hfin⟩
    · rw [hfin] at h
      simp only [Outcome.ok.injEq, true_and] at h
      rw [← h]
      unfold finish_world
      dsimp only
      rw [hS, hT]
      exact ⟨rfl, rfl⟩
    · rw [hfin] at h
      cases h
  · rw [hfo] at h
    cases h

theorem visualize_ok (c : Coordinator σ τ) (force : Bool) (w : World σ τ) :
    ∃ w1, Coordinator.visualize c force w = Outcome.ok () w1 ∧ w1.S = w.S ∧ w1.tsm = w.tsm :=
  ⟨_, visualize_run c force w, rfl, rfl⟩

theorem checkpoint_ok (c : Coordinator σ τ) (force : Bool) (w : World σ τ) :
    ∃ w1, Coordinator.checkpoint c force w = Outcome.ok () w1 ∧ w1.S = w.S ∧ w1.tsm = w.tsm := by
  rw [checkpoint_run]
  split_ifs <;> exact ⟨_, rfl, rfl, rfl⟩

theorem AMANZI_ASSERT_times (w : World σ τ) (hw : w.S.time_next = w.S.time_current) :
    Coordinator.AMANZI_ASSERT
      (decide (|w.S.get_time Tag.NEXT - w.S.get_time Tag.CURRENT| < 1 / 10000)) w =
        Outcome.ok () w := by
  have h0 : w.S.get_time Tag.NEXT - w.S.get_time Tag.CURRENT = 0 := by
    show w.S.time_next - w.S.time_current = 0
    rw [hw, sub_self]
  unfold Coordinator.AMANZI_ASSERT
  rw [h0]
  norm_num
  rfl

/-- The part of cycle_driver between initialize and the main loop, from a
world with equal times in which get_dt returns: the assertion holds, the
part returns the field "dt" of the state, which is the value of get_dt
without restart and is left as it was on restart. -/
theorem start_tail_run (c : Coordinator σ τ) (w1 w2 : World σ τ) (dt : ℚ)
    (heq : w1.S.time_next = w1.S.time_current)
    (hg : Coordinator.get_dt c false w1 = Outcome.ok dt w2) :
    ∃ w3, start_tail c w1 = Outcome.ok w3.S.dt w3 ∧
      w3.S = (if c.restart_ then w1.S else w1.S.Assign_dt dt) ∧ w3.tsm = w2.tsm := by
  have hS2 : w2.S = w1.S := by
    have := get_dt_keeps_S c false w1
    rw [hg] at this
    exact this
  have hrest : ∀ wA : World σ τ, wA.S.time_next = wA.S.time_current →
      ∃ w3, (do
          Coordinator.visualize c false
          Coordinator.checkpoint c false
          let w ← getW
          Coordinator.AMANZI_ASSERT
            (decide (|w.S.get_time Tag.NEXT - w.S.get_time Tag.CURRENT| < 1 / 10000))
          pure w.S.dt : M (World σ τ) ℚ) wA = Outcome.ok w3.S.dt w3 ∧
        w3.S = wA.S ∧ w3.tsm = wA.tsm := by
    intro wA hA
    obtain ⟨wB, hB, hBS, hBt⟩ := visualize_ok c false wA
    obtain ⟨wC, hC, hCS, hCt⟩ := checkpoint_ok c false wB
    have hCeq : wC.S.time_next = wC.S.time_current := by rw [hCS, hBS]; exact hA
    refine ⟨wC, ?_, hCS.trans hBS, hCt.trans hBt⟩
    simp only [bind_run, hB, hC, getW_run, AMANZI_ASSERT_times wC hCeq, pure_run]
  unfold start_tail
  rw [bind_run, hg]
  dsimp only
  by_cases hr : c.restart_ = true
  · simp only [hr, Bool.not_true, Bool.false_eq_true, if_false, if_true]
    rw [bind_run, pure_run]
    dsimp only
    obtain ⟨w3, h3, h3S, h3t⟩ := hrest w2 (by rw [hS2]; exact heq)
    exact ⟨w3, h3, h3S.trans hS2, h3t⟩
  · simp only [hr, Bool.not_false, if_true, Bool.false_eq_true, if_false]
    rw [bind_run, modifyS_run]
    dsimp only
    obtain ⟨w3, h3, h3S, h3t⟩ := hrest { w2 with S := w2.S.Assign_dt dt }
      (by show w2.S.time_next = w2.S.time_current; rw [hS2]; exact heq)
    refine ⟨w3, h3, ?_, h3t⟩
    rw [h3S, hS2]

theorem scenario_A_initialized :
    initialize_ (coordinator 0 1) world0 = Outcome.ok () initialized :=
  ok_of_message () _ (by decide!)

/-- C26: when Coordinator::initialize returns, restarted or not, the NEXT
time equals the CURRENT time; so from there the part of cycle_driver up to
the main loop returns whenever get_dt does: the assertion
|NEXT time - CURRENT time| < 1e-4 holds and the loop is entered with equal
times.  Without restart both times are the configured start time t0_, and
the cycle is the configured start cycle cycle0_, or 0 when cycle0_ is the
default -1. -/
theorem initialize_times_equal (c : Coordinator σ τ) (w w1 : World σ τ)
    (h : initialize_ c w = Outcome.ok () w1) :
    w1.S.get_time Tag.NEXT = w1.S.get_time Tag.CURRENT ∧
    AMANZI_ASSERT (decide (|w1.S.get_time Tag.NEXT - w1.S.get_time Tag.CURRENT| < 1 / 10000))
      w1 = Outcome.ok () w1 ∧
    (∀ dt w2, get_dt c false w1 = Outcome.ok dt w2 →
      ∃ w3, start_tail c w1 = Outcome.ok w3.S.dt w3 ∧
        w3.S.get_time Tag.NEXT = w3.S.get_time Tag.CURRENT ∧
        ∀ w0, setup c w0 = Outcome.ok () w →
          cycle_driver_start c w0 = Outcome.ok w3.S.dt w3) ∧
    (c.restart_ = false →
      w1.S.get_time Tag.CURRENT = w.t0_ ∧ w1.S.get_time Tag.NEXT = w.t0_ ∧
      w1.S.get_cycle = if w.cycle0_ = -1 then 0 else w.cycle0_) := by
  obtain ⟨evs, -, -, h3, h4, -⟩ := initialize_run c w
  rw [h] at h3 h4
  simp only [Outcome.world] at h3 h4
  have heq : w1.S.time_next = w1.S.time_current := h4.trans h3.symm
  refine ⟨heq, AMANZI_ASSERT_times w1 heq, ?_, ?_⟩
  · intro dt w2 hg
    obtain ⟨w3, h3r, h3S, -⟩ := start_tail_run c w1 w2 dt heq hg
    refine ⟨w3, h3r, ?_, ?_⟩
    · show w3.S.time_next = w3.S.time_current
      rw [h3S]
      split_ifs
      · exact heq
      · exact heq
    · intro w0 hs
      rw [cycle_driver_start_parts]
      simp only [bind_run, hs, h]
      exact h3r
  · intro hr
    have hi : initial_time c w = w.t0_ := by
      unfold initial_time
      simp [hr]
    refine ⟨h3.trans hi, h4.trans hi, ?_⟩
    rw [(initialize_state c w w1 h).1]
    unfold restore_world seed_world
    simp only [hr, Bool.false_eq_true, if_false]
    by_cases hc : w.cycle0_ = -1
    · simp [hc, State.get_cycle, State.set_cycle, State.advance_cycle]
    · simp [hc, State.get_cycle, State.set_cycle]

/-- Witness of C26: initialize in Scenario A, start time 0 and default start
cycle. -/
theorem initialize_times_equal_witness :
    initialize_ (coordinator 0 1) world0 = Outcome.ok () initialized ∧
    initialized.S.get_time Tag.NEXT = initialized.S.get_time Tag.CURRENT ∧
    (coordinator 0 1).restart_ = false ∧
    initialized.S.get_time Tag.CURRENT = world0.t0_ ∧
    initialized.S.get_time Tag.NEXT = world0.t0_ ∧
    initialized.S.get_cycle = 0 :=
  ⟨scenario_A_initialized,
    (initialize_times_equal (coordinator 0 1) world0 initialized scenario_A_initialized).1, rfl,
    (initialize_times_equal (coordinator 0 1) world0 initialized
      scenario_A_initialized).2.2.2 rfl⟩

theorem restarted_start_run :
    cycle_driver_start restarted_uncapped world0 = Outcome.ok restarted_dt restarted_start :=
  ok_of_message 0 _ (by decide!)

theorem initialize_restart_dt (c : Coordinator σ τ) (w w1 : World σ τ)
    (h : initialize_ c w = Outcome.ok () w1) (hr : c.restart_ = true) :
    w1.S.dt = c.restart_file.dt := by
  rw [(initialize_state c w w1 h).1]
  unfold restore_world
  simp only [hr, if_true]
  split_ifs <;> rfl

/-- C27: when the part of cycle_driver before the main loop returns, the
step size dt0 that it hands to the main loop is the field "dt" of the
state, and it is the step size of the first trial step: the loop is run with
dt0, and if it is entered advance() is called with "dt" = dt0 and the NEXT
time dt0 after the CURRENT time.  get_dt(false) has been called after
initialize; without restart dt0 is the value it returned, on restart that
value is dropped and dt0 is the step size of the checkpoint, whatever the
maximum step size and the step-size manager are. -/
theorem first_step_size (c : Coordinator σ τ) (w0 ws : World σ τ) (dt0 : ℚ)
    (h : cycle_driver_start c w0 = Outcome.ok dt0 ws) :
    dt0 = ws.S.dt ∧
    (∀ fuel, cycle_driver c fuel w0 =
      match main_loop c fuel dt0 ws with
      | some (Outcome.ok _ w2) => some (finalize c w2)
      | r => r) ∧
    (∀ w1, loop_condition c dt0 ws = Outcome.ok true w1 →
      trial_step c dt0 w1 =
        (match advance c (trial_world w1 dt0) with
        | Outcome.raised e w2 => Outcome.raised e w2
        | Outcome.ok true w2 =>
          Outcome.ok true { w2 with S := w2.S.set_time Tag.NEXT (w2.S.get_time Tag.CURRENT) }
        | Outcome.ok false w2 => Outcome.ok false (accepted_world c w2)) ∧
      (trial_world w1 dt0).S.dt = dt0 ∧
      (trial_world w1 dt0).S.get_time Tag.NEXT = ws.S.get_time Tag.CURRENT + dt0 ∧
      (trial_world w1 dt0).S.get_time Tag.CURRENT = ws.S.get_time Tag.CURRENT) ∧
    ∃ w w1 w2 dt, setup c w0 = Outcome.ok () w ∧ initialize_ c w = Outcome.ok () w1 ∧
      get_dt c false w1 = Outcome.ok dt w2 ∧
      (c.restart_ = false → dt0 = dt) ∧
      (c.restart_ = true → dt0 = w1.S.dt ∧ dt0 = c.restart_file.dt) := by
  have hst := cycle_driver_start_times c w0
  rw [h] at hst
  simp only [Outcome.world] at hst
  have hparts := h
  rw [cycle_driver_start_parts] at hparts
  simp only [bind_run] at hparts
  obtain ⟨w, hw⟩ := setup_ok c w0
  rw [hw] at hparts
  dsimp only at hparts
  rcases hi : initialize_ c w with ⟨u, w1⟩ | ⟨e, w1⟩
  · rw [hi] at hparts
    dsimp only at hparts
    obtain ⟨evs, -, -, h3, h4, -⟩ := initialize_run c w
    rw [hi] at h3 h4
    simp only [Outcome.world] at h3 h4
    have heq : w1.S.time_next = w1.S.time_current := h4.trans h3.symm
    rcases hg : get_dt c false w1 with ⟨dt, w2⟩ | ⟨e, w2⟩
    · obtain ⟨w3, h3r, h3S, -⟩ := start_tail_run c w1 w2 dt heq hg
      rw [h3r] at hparts
      simp only [Outcome.ok.injEq] at hparts
      obtain ⟨hdt, hws⟩ := hparts
      subst hws
      refine ⟨hdt.symm, ?_, ?_, w, w1, w2, dt, hw, (by cases u; exact hi), hg, ?_, ?_⟩
      · intro fuel
        unfold cycle_driver cycle_driver_with
        rw [h]
        rfl
      · intro wl hl
        obtain ⟨-, hS⟩ := loop_condition_true c dt0 w3 wl hl
        refine ⟨trial_step_run c dt0 wl, rfl, ?_, ?_⟩
        · show wl.S.time_next + dt0 = w3.S.time_current + dt0
          rw [hS, hst]
        · show wl.S.time_current = w3.S.time_current
          rw [hS]
      · intro hr
        rw [← hdt, h3S]
        simp [hr, State.Assign_dt]
      · intro hr
        have : w3.S.dt = w1.S.dt := by
          rw [h3S]
          simp [hr]
        rw [← hdt, this]
        exact ⟨rfl, initialize_restart_dt c w w1 (by cases u; exact hi) hr⟩
    · have hsr : start_tail c w1 = Outcome.raised e w2 := by
        unfold start_tail
        rw [bind_run, hg]
      rw [hsr] at hparts
      cases hparts
  · rw [hi] at hparts
    cases hparts

/-- Witness of C27: a restart from a checkpoint with step size 500 under the
maximum step size 7; the main loop starts with 500 and the first trial step
goes from 40 to 540. -/
theorem first_step_size_witness :
    cycle_driver_start restarted_uncapped world0 = Outcome.ok restarted_dt restarted_start ∧
    restarted_dt = restarted_start.S.dt ∧
    restarted_dt = 500 ∧
    restarted_uncapped.max_dt_ = 7 ∧
    (restarted_start.trace.filter Event.isTimeStep = [Event.TimeStep 40 7 false]) ∧
    ((cycle_driver restarted_uncapped 2 world0).map fun o =>
      o.world.trace.filter Event.isAdvanceStep) = some [Event.AdvanceStep 40 540 false] :=
  ⟨restarted_start_run,
    (first_step_size restarted_uncapped world0 restarted_start restarted_dt
      restarted_start_run).1,
    by decide!, rfl, by decide!, by decide!⟩

theorem keeps_bind {α β : Type} {x : M (World σ τ) α} {f : α → M (World σ τ) β}
    (hx : KeepsManager x) (hf : ∀ a, KeepsManager (f a)) : KeepsManager (x >>= f) := by
  intro w
  rw [bind_run]
  have h1 := hx w
  rcases hxw : x w with ⟨a, w1⟩ | ⟨e, w1⟩
  · rw [hxw] at h1
    simp only [Outcome.world] at h1
    exact (hf a w1).trans h1
  · rw [hxw] at h1
    exact h1

theorem keeps_pure {α : Type} (a : α) : KeepsManager (pure a : M (World σ τ) α) :=
  fun _ => rfl

theorem keeps_getW : KeepsManager (getW : M (World σ τ) (World σ τ)) := fun _ => rfl

theorem keeps_throw {α : Type} (e : Message) :
    KeepsManager (amanzi_throw e : M (World σ τ) α) := fun _ => rfl

theorem keeps_modifyW (f : World σ τ → World σ τ) (h : ∀ w, (f w).tsm = w.tsm) :
    KeepsManager (modifyW f) := h

theorem keeps_modifyS (f : State → State) : KeepsManager (modifyS f : M (World σ τ) Unit) :=
  fun _ => rfl

theorem keeps_emit (e : Event) : KeepsManager (emit e : M (World σ τ) Unit) := fun _ => rfl

theorem keeps_pk_call {α : Type} (op : σ → Except Message α × σ) :
    KeepsManager (pk_call op : M (World σ τ) α) := by
  intro w
  unfold pk_call
  rcases op w.pk with ⟨_ | a, s⟩ <;> rfl

theorem keeps_ite {α : Type} (p : Prop) [Decidable p] {x y : M (World σ τ) α}
    (hx : KeepsManager x) (hy : KeepsManager y) : KeepsManager (if p then x else y) := by
  split_ifs
  · exact hx
  · exact hy

theorem keeps_forEach {β : Type} (f : β → M (World σ τ) Unit) (l : List β)
    (h : ∀ b, KeepsManager (f b)) : KeepsManager (forEach f l) := by
  induction l with
  | nil => exact keeps_pure ()
  | cons b bs ih =>
    rw [forEach]
    exact keeps_bind (h b) fun _ => ih

theorem keeps_recover_mesh (c : Coordinator σ τ) (m : Mesh) :
    KeepsManager (Coordinator.recover_mesh c m) := by
  unfold Coordinator.recover_mesh GetPtr
  repeat' first
    | exact keeps_getW | exact keeps_pure _ | exact keeps_emit _ | exact keeps_throw _
    | apply keeps_bind | apply keeps_ite | intro _

theorem keeps_advance (c : Coordinator σ τ) : KeepsManager (Coordinator.advance c) := by
  unfold Coordinator.advance
  repeat' first
    | exact keeps_getW | exact keeps_pure _ | exact keeps_pk_call _ | exact keeps_emit _
    | exact keeps_throw _ | exact keeps_recover_mesh c _
    | apply keeps_bind | apply keeps_ite | apply keeps_forEach | intro _

theorem keeps_setup (c : Coordinator σ τ) : KeepsManager (Coordinator.setup c) := by
  unfold Coordinator.setup
  repeat' first
    | exact keeps_getW | exact keeps_pure _ | exact keeps_emit _ | exact keeps_modifyS _
    | exact keeps_modifyW _ fun _ => rfl
    | apply keeps_bind | apply keeps_ite | apply keeps_forEach | intro _

theorem keeps_loop_condition (c : Coordinator σ τ) (dt : ℚ) :
    KeepsManager (Coordinator.loop_condition c dt) := by
  intro w
  rw [loop_condition_run]
  split_ifs <;> rfl

theorem setup_t0 (c : Coordinator σ τ) (w0 w : World σ τ)
    (h : Coordinator.setup c w0 = Outcome.ok () w) : w.t0_ = w0.t0_ := by
  unfold Coordinator.setup at h
  simp only [bind_run, modifyS_run, emit_run, modifyW_run, forEach_emit,
    Outcome.ok.injEq, true_and] at h
  rw [← h]

theorem loop_condition_before_end (c : Coordinator σ τ) (dt : ℚ) (w w1 : World σ τ)
    (h1 : 0 ≤ c.t1_) (h : Coordinator.loop_condition c dt w = Outcome.ok true w1) :
    w.S.time_next < c.t1_ := by
  by_contra hlt
  have hcond : (decide (c.t1_ < 0) || decide (w.S.get_time Tag.DEFAULT < c.t1_)) = false := by
    rw [Bool.or_eq_false_iff]
    exact ⟨decide_eq_false (not_lt.mpr h1), decide_eq_false hlt⟩
  rw [loop_condition_run, if_pos hcond] at h
  simp at h

/-- The step size that get_dt returns at a time before the end time does
not pass the end time, when the step-size manager does not pass the
registered instants. -/
theorem get_dt_before_end (c : Coordinator σ τ) (registered : τ → ℚ → Prop)
    (hkeep : ∀ t dt af s e, registered s e → t < e →
      registered (c.tsm_.TimeStep t dt af s).2 e)
    (hsnap : ∀ t dt af s e, registered s e → t < e → t + (c.tsm_.TimeStep t dt af s).1 ≤ e)
    (after_fail : Bool) (w w2 : World σ τ) (dt : ℚ)
    (hreg : w.S.time_next < c.t1_ → registered w.tsm c.t1_)
    (hg : Coordinator.get_dt c after_fail w = Outcome.ok dt w2) :
    w2.S = w.S ∧ (w.S.time_next < c.t1_ →
      w.S.time_next + dt ≤ c.t1_ ∧ registered w2.tsm c.t1_) := by
  have hS : w2.S = w.S := by
    have := get_dt_keeps_S c after_fail w
    rw [hg] at this
    exact this
  refine ⟨hS, fun hlt => ?_⟩
  rw [get_dt_run] at hg
  by_cases h1 : c.pk_.get_dt w.pk < 0
  · rw [if_pos h1] at hg
    simp only [Outcome.ok.injEq] at hg
    rw [← hg.1, ← hg.2]
    exact ⟨by linarith, hreg hlt⟩
  · rw [if_neg h1] at hg
    by_cases h2 : c.pk_.get_dt w.pk < c.min_dt_
    · rw [if_pos h2] at hg
      cases hg
    · rw [if_neg h2] at hg
      simp only [Outcome.ok.injEq] at hg
      obtain ⟨hdt, hw⟩ := hg
      have hx := hsnap (w.S.get_time Tag.NEXT)
        (if c.pk_.get_dt w.pk > c.max_dt_ then c.max_dt_ else c.pk_.get_dt w.pk) after_fail
        w.tsm c.t1_ (hreg hlt) hlt
      have hk := hkeep (w.S.get_time Tag.NEXT)
        (if c.pk_.get_dt w.pk > c.max_dt_ then c.max_dt_ else c.pk_.get_dt w.pk) after_fail
        w.tsm c.t1_ (hreg hlt) hlt
      refine ⟨?_, ?_⟩
      · rw [← hdt]
        by_cases hsub : c.subcycled_ts_ = true
        · rw [if_pos hsub, std_min_eq]
          have hmin := min_le_left (c.tsm_.TimeStep (w.S.get_time Tag.NEXT)
            (if c.pk_.get_dt w.pk > c.max_dt_ then c.max_dt_ else c.pk_.get_dt w.pk)
            after_fail w.tsm).1 (c.pk_.get_dt w.pk)
          have hx1 : w.S.time_next + (c.tsm_.TimeStep (w.S.get_time Tag.NEXT)
            (if c.pk_.get_dt w.pk > c.max_dt_ then c.max_dt_ else c.pk_.get_dt w.pk)
            after_fail w.tsm).1 ≤ c.t1_ := hx
          linarith
        · rw [if_neg hsub]
          exact hx
      · rw [← hw]
        exact hk

theorem accepted_world_tsm (c : Coordinator σ τ) (w1 : World σ τ) :
    (accepted_world c w1).tsm = w1.tsm := by
  unfold accepted_world
  rw [visualize_run, checkpoint_run]
  simp only [Outcome.world]
  split_ifs <;> rfl

/-- A trial step with a positive step size that does not pass the end
time. -/
theorem trial_step_before_end (c : Coordinator σ τ) (dt : ℚ) (w : World σ τ)
    (heq : w.S.time_next = w.S.time_current) (hdt : 0 < dt)
    (hle : w.S.time_current + dt ≤ c.t1_) :
    (Coordinator.trial_step c dt w).world.S.time_current ≤ c.t1_ ∧
    ∀ fail w2, Coordinator.trial_step c dt w = Outcome.ok fail w2 →
      w2.S.time_next = w2.S.time_current ∧ w2.S.time_current ≤ c.t1_ ∧ w2.tsm = w.tsm := by
  rw [trial_step_run]
  obtain ⟨h1, h2, -⟩ := steady_advance c (trial_world w dt)
  have h3 := keeps_advance c (trial_world w dt)
  have hc : (trial_world w dt).S.time_current = w.S.time_current := rfl
  have hn : (trial_world w dt).S.time_next = w.S.time_next + dt := rfl
  have ht : (trial_world w dt).tsm = w.tsm := rfl
  rw [hc] at h1
  rw [hn, heq] at h2
  rw [ht] at h3
  rcases ha : Coordinator.advance c (trial_world w dt) with ⟨fail, w1⟩ | ⟨e, w1⟩
  · rw [ha] at h1 h2 h3
    simp only [Outcome.world] at h1 h2 h3
    cases fail
    · dsimp only
      have hS := accepted_world_S c w1
      have hT := accepted_world_tsm c w1
      have hcur : (accepted_world c w1).S.time_current = w.S.time_current + dt := by
        rw [hS]
        exact h2
      have hnext : (accepted_world c w1).S.time_next = w.S.time_current + dt := by
        rw [hS]
        exact h2
      refine ⟨?_, ?_⟩
      · simp only [Outcome.world]
        rw [hcur]
        exact hle
      · intro fail w2 hw2
        simp only [Outcome.ok.injEq] at hw2
        rw [← hw2.2]
        exact ⟨hnext.trans hcur.symm, hcur.trans_le hle, hT.trans h3⟩
    · dsimp only
      refine ⟨?_, ?_⟩
      · show w1.S.time_current ≤ c.t1_
        rw [h1]
        linarith
      · intro fail w2 hw2
        simp only [Outcome.ok.injEq] at hw2
        rw [← hw2.2]
        refine ⟨rfl, ?_, h3⟩
        show w1.S.time_current ≤ c.t1_
        rw [h1]
        linarith
  · rw [ha] at h1
    simp only [Outcome.world] at h1 ⊢
    refine ⟨?_, fun fail w2 hw2 => (by cases hw2)⟩
    rw [h1]
    linarith

/-- One iteration of the main loop of a run that is at rest before the end
time: the CURRENT time stays at or before the end time, and when the
iteration returns the run is at rest again. -/
theorem loop_body_before_end (c : Coordinator σ τ) (registered : τ → ℚ → Prop)
    (h1 : 0 ≤ c.t1_)
    (hkeep : ∀ t dt af s e, registered s e → t < e →
      registered (c.tsm_.TimeStep t dt af s).2 e)
    (hsnap : ∀ t dt af s e, registered s e → t < e → t + (c.tsm_.TimeStep t dt af s).1 ≤ e)
    (dt : ℚ) (w w1 : World σ τ) (hB : BeforeEnd c registered dt w)
    (hc : Coordinator.loop_condition c dt w = Outcome.ok true w1) :
    (trial_world w1 dt).S.time_next ≤ c.t1_ ∧
    (Coordinator.loop_body c dt w1).world.S.time_current ≤ c.t1_ ∧
    ∀ dt2 w2, Coordinator.loop_body c dt w1 = Outcome.ok dt2 w2 →
      BeforeEnd c registered dt2 w2 := by
  obtain ⟨heq, hle, hnext⟩ := hB
  obtain ⟨hdt, hS⟩ := loop_condition_true c dt w w1 hc
  have hlt : w.S.time_current < c.t1_ := by
    rw [← heq]
    exact loop_condition_before_end c dt w w1 h1 hc
  obtain ⟨hstep, hreg⟩ := hnext hlt
  have hT : w1.tsm = w.tsm := by
    have := keeps_loop_condition c dt w
    rw [hc] at this
    exact this
  have heq1 : w1.S.time_next = w1.S.time_current := by rw [hS]; exact heq
  have hstep1 : w1.S.time_current + dt ≤ c.t1_ := by rw [hS]; exact hstep
  obtain ⟨t1, t2⟩ := trial_step_before_end c dt w1 heq1 hdt hstep1
  refine ⟨?_, ?_⟩
  · show w1.S.time_next + dt ≤ c.t1_
    rw [heq1]
    exact hstep1
  rw [loop_body_run]
  rcases hts : Coordinator.trial_step c dt w1 with ⟨fail, w2⟩ | ⟨e, w2⟩
  · dsimp only
    obtain ⟨k1, k2, k3⟩ := t2 fail w2 hts
    have hS3 := get_dt_keeps_S c fail w2
    refine ⟨?_, ?_⟩
    · rw [hS3]
      exact k2
    · intro dt2 w3 hg
      have hreg2 : w2.S.time_next < c.t1_ → registered w2.tsm c.t1_ := by
        intro _
        rw [k3, hT]
        exact hreg
      obtain ⟨g1, g2⟩ := get_dt_before_end c registered hkeep hsnap fail w2 w3 dt2 hreg2 hg
      refine ⟨?_, ?_, ?_⟩
      · rw [g1]
        exact k1
      · rw [g1]
        exact k2
      · intro hlt3
        rw [g1] at hlt3 ⊢
        rw [← k1] at hlt3 ⊢
        exact g2 hlt3
  · rw [hts] at t1
    exact ⟨t1, fun dt2 w3 hw3 => (by cases hw3)⟩

theorem first_iterations_before_end (c : Coordinator σ τ) (registered : τ → ℚ → Prop)
    (h1 : 0 ≤ c.t1_)
    (hkeep : ∀ t dt af s e, registered s e → t < e →
      registered (c.tsm_.TimeStep t dt af s).2 e)
    (hsnap : ∀ t dt af s e, registered s e → t < e → t + (c.tsm_.TimeStep t dt af s).1 ≤ e)
    (n : Nat) (dt0 dt : ℚ) (ws w : World σ τ) (hB : BeforeEnd c registered dt0 ws)
    (h : first_iterations c n dt0 ws = Outcome.ok dt w) : BeforeEnd c registered dt w := by
  induction n generalizing dt0 ws with
  | zero =>
    simp only [first_iterations, Outcome.ok.injEq] at h
    rw [← h.1, ← h.2]
    exact hB
  | succ n ih =>
    rw [first_iterations] at h
    rcases hc : Coordinator.loop_condition c dt0 ws with ⟨b, w1⟩ | ⟨e, w1⟩
    · rw [hc] at h
      cases b
      · simp only [Outcome.ok.injEq] at h
        obtain ⟨hS, -⟩ := loop_condition_false c dt0 ws w1 hc
        have hT : w1.tsm = ws.tsm := by
          have := keeps_loop_condition c dt0 ws
          rw [hc] at this
          exact this
        rw [← h.1, ← h.2]
        unfold BeforeEnd at hB ⊢
        rw [hS, hT]
        exact hB
      · dsimp only at h
        obtain ⟨-, -, hb⟩ := loop_body_before_end c registered h1 hkeep hsnap dt0 ws w1 hB hc
        rcases hbody : Coordinator.loop_body c dt0 w1 with ⟨dt2, w2⟩ | ⟨e, w2⟩
        · rw [hbody] at h
          exact ih dt2 w2 (hb dt2 w2 hbody) h
        · rw [hbody] at h
          cases h
    · rw [hc] at h
      cases h

/-- The main loop of a run that is at rest before the end time: every
outcome has the CURRENT time at or before the end time, and a loop that
returns with the end time reached returns at the end time exactly. -/
theorem main_loop_before_end (c : Coordinator σ τ) (registered : τ → ℚ → Prop)
    (h1 : 0 ≤ c.t1_)
    (hkeep : ∀ t dt af s e, registered s e → t < e →
      registered (c.tsm_.TimeStep t dt af s).2 e)
    (hsnap : ∀ t dt af s e, registered s e → t < e → t + (c.tsm_.TimeStep t dt af s).1 ≤ e)
    (fuel : Nat) (dt : ℚ) (w : World σ τ) (r : Outcome Unit (World σ τ))
    (hB : BeforeEnd c registered dt w) (h : Coordinator.main_loop c fuel dt w = some r) :
    r.world.S.time_current ≤ c.t1_ ∧
    (∀ w2, r = Outcome.ok () w2 → w2.S.time_next = w2.S.time_current) := by
  induction fuel generalizing dt w with
  | zero => simp [Coordinator.main_loop] at h
  | succ n ih =>
    rw [Coordinator.main_loop] at h
    rcases hc : Coordinator.loop_condition c dt w with ⟨b, w1⟩ | ⟨e, w1⟩
    · rw [hc] at h
      cases b
      · simp only [Option.some.injEq] at h
        obtain ⟨hS, -⟩ := loop_condition_false c dt w w1 hc
        rw [← h]
        refine ⟨?_, ?_⟩
        · simp only [Outcome.world]
          rw [hS]
          exact hB.2.1
        · intro w2 hw2
          simp only [Outcome.ok.injEq, true_and] at hw2
          rw [← hw2, hS]
          exact hB.1
      · dsimp only at h
        obtain ⟨-, hb1, hb2⟩ :=
          loop_body_before_end c registered h1 hkeep hsnap dt w w1 hB hc
        rcases hbody : Coordinator.loop_body c dt w1 with ⟨dt2, w2⟩ | ⟨e, w2⟩
        · rw [hbody] at h
          exact ih dt2 w2 (hb2 dt2 w2 hbody) h
        · rw [hbody] at h hb1
          simp only [Option.some.injEq] at h
          rw [← h]
          exact ⟨hb1, fun w2 hw2 => (by cases hw2)⟩
    · rw [hc] at h
      simp only [Option.some.injEq] at h
      have hsteady := steady_loop_condition c dt w
      rw [hc] at hsteady
      simp only [Outcome.world] at hsteady
      rw [← h]
      refine ⟨?_, fun w2 hw2 => (by cases hw2)⟩
      simp only [Outcome.world]
      rw [hsteady.1]
      exact hB.2.1

theorem registered_tsm_end_time (c : Coordinator σ τ) (registered : τ → ℚ → Prop)
    (hreg : ∀ t s, registered (c.tsm_.RegisterTimeEvent t s) t)
    (hpause : ∀ p, c.required_times = some p →
      ∀ s e, registered s e → registered (p.RegisterWithTimeStepManager s) e)
    (s : τ) : registered (registered_tsm c s) c.t1_ := by
  unfold registered_tsm
  dsimp only
  cases hreq : c.required_times with
  | none => exact hreg _ _
  | some p => exact hpause p hreq _ _ (hreg _ _)

/-- The part of cycle_driver before the main loop of a run without restart
whose start time is not after the end time: the CURRENT time is the start
time, and when the part returns the run is at rest before the end time. -/
theorem cycle_driver_start_before_end (c : Coordinator σ τ) (registered : τ → ℚ → Prop)
    (w0 : World σ τ) (hnr : c.restart_ = false) (h01 : w0.t0_ ≤ c.t1_)
    (hreg : ∀ t s, registered (c.tsm_.RegisterTimeEvent t s) t)
    (hpause : ∀ p, c.required_times = some p →
      ∀ s e, registered s e → registered (p.RegisterWithTimeStepManager s) e)
    (hkeep : ∀ t dt af s e, registered s e → t < e →
      registered (c.tsm_.TimeStep t dt af s).2 e)
    (hsnap : ∀ t dt af s e, registered s e → t < e →
      t + (c.tsm_.TimeStep t dt af s).1 ≤ e) :
    (Coordinator.cycle_driver_start c w0).world.S.time_current ≤ c.t1_ ∧
    ∀ dt0 ws, Coordinator.cycle_driver_start c w0 = Outcome.ok dt0 ws →
      BeforeEnd c registered dt0 ws := by
  rw [cycle_driver_start_parts]
  simp only [bind_run]
  obtain ⟨w, hw⟩ := setup_ok c w0
  have ht0 := setup_t0 c w0 w hw
  rw [hw]
  dsimp only
  obtain ⟨evs, -, -, h3, h4, -⟩ := initialize_run c w
  have hi : initial_time c w = w0.t0_ := by
    unfold initial_time
    simp [hnr, ht0]
  rw [hi] at h3 h4
  rcases hin : Coordinator.initialize_ c w with ⟨u, w1⟩ | ⟨e, w1⟩
  · rw [hin] at h3 h4
    simp only [Outcome.world] at h3 h4
    dsimp only
    obtain ⟨s1, s2, -⟩ := steady_start_tail c w1
    refine ⟨?_, ?_⟩
    · rw [s1, h3]
      exact h01
    · intro dt0 ws hs
      have heq : w1.S.time_next = w1.S.time_current := h4.trans h3.symm
      have hT : w1.tsm = registered_tsm c w.tsm :=
        (initialize_state c w w1 (by cases u; exact hin)).2
      rcases hg : Coordinator.get_dt c false w1 with ⟨dt, w2⟩ | ⟨e, w2⟩
      · obtain ⟨w3, h3r, h3S, h3t⟩ := start_tail_run c w1 w2 dt heq hg
        rw [h3r] at hs
        simp only [Outcome.ok.injEq] at hs
        obtain ⟨hdt, hws⟩ := hs
        subst hws
        have hS3 : w3.S = w1.S.Assign_dt dt := by
          rw [h3S]
          simp [hnr]
        obtain ⟨-, g2⟩ := get_dt_before_end c registered hkeep hsnap false w1 w2 dt
          (fun _ => by rw [hT]; exact registered_tsm_end_time c registered hreg hpause _) hg
        have hdt0 : dt0 = dt := by
          rw [← hdt, hS3]
          rfl
        have hc3 : w3.S.time_current = w1.S.time_current := by rw [hS3]; rfl
        have hn3 : w3.S.time_next = w1.S.time_next := by rw [hS3]; rfl
        refine ⟨?_, ?_, ?_⟩
        · rw [hc3, hn3]
          exact heq
        · rw [hc3, h3]
          exact h01
        · intro hlt
          rw [hc3] at hlt ⊢
          rw [← heq] at hlt ⊢
          rw [hdt0, h3t]
          exact g2 hlt
      · have hsr : start_tail c w1 = Outcome.raised e w2 := by
          unfold start_tail
          rw [bind_run, hg]
        rw [hsr] at hs
        cases hs
  · rw [hin] at h3
    simp only [Outcome.world] at h3 ⊢
    refine ⟨?_, fun dt0 ws hs => (by cases hs)⟩
    rw [h3]
    exact h01

theorem snapping_le_mem (t : ℚ) (l : List ℚ) (dt e : ℚ) (he : e ∈ l) :
    l.foldl (fun d e => min d (e - t)) dt ≤ e - t := by
  induction l generalizing dt with
  | nil => cases he
  | cons a as ih =>
    rw [List.foldl_cons]
    rcases List.mem_cons.mp he with rfl | h
    · have hle : ∀ (l : List ℚ) (d : ℚ), l.foldl (fun d e => min d (e - t)) d ≤ d := by
        intro l
        induction l with
        | nil => intro d; exact le_refl d
        | cons b bs ihb =>
          intro d
          rw [List.foldl_cons]
          exact (ihb _).trans (min_le_left _ _)
      exact (hle as _).trans (min_le_right _ _)
    · exact ih _ h

theorem snapping_snaps (t dt : ℚ) (af : Bool) (s : List ℚ) (e : ℚ) (he : e ∈ s) (hlt : t < e) :
    t + (snapping.TimeStep t dt af s).1 ≤ e := by
  have hmem : e ∈ s.filter fun e => decide (t < e) :=
    List.mem_filter.mpr ⟨he, decide_eq_true hlt⟩
  have := snapping_le_mem t _ dt e hmem
  show t + (s.filter fun e => decide (t < e)).foldl (fun d e => min d (e - t)) dt ≤ e
  linarith

theorem snapped_run :
    cycle_driver snapped 5 (world_with_dt 30) = some (Outcome.ok () snapped_end) :=
  ok_of_run_message world0 _ (by decide!)

/-- C23: for every run without restart with 0 <= t0 <= t1 whose step-size
manager answers TimeStep(t, dt, after_fail) with a step that does not pass
any registered instant later than t, where an instant is registered by
RegisterTimeEvent and stays registered while it is later than the time of
the query and when the pause times are registered:
initialize registers the end time t1 with the step-size manager; every
outcome of cycle_driver, returned or thrown, has the CURRENT time at or
before t1; at the start of every iteration of the main loop the CURRENT time
is at or before t1, and in an iteration that is entered the NEXT time of the
trial step is at or before t1 as well; and when cycle_driver returns with
the end time reached (the time is not before t1), the CURRENT time is t1
exactly. -/
theorem current_time_bounded (c : Coordinator σ τ) (registered : τ → ℚ → Prop)
    (w0 : World σ τ) (hnr : c.restart_ = false) (h0 : 0 ≤ w0.t0_) (h01 : w0.t0_ ≤ c.t1_)
    (hreg : ∀ t s, registered (c.tsm_.RegisterTimeEvent t s) t)
    (hpause : ∀ p, c.required_times = some p →
      ∀ s e, registered s e → registered (p.RegisterWithTimeStepManager s) e)
    (hkeep : ∀ t dt af s e, registered s e → t < e →
      registered (c.tsm_.TimeStep t dt af s).2 e)
    (hsnap : ∀ t dt af s e, registered s e → t < e →
      t + (c.tsm_.TimeStep t dt af s).1 ≤ e) :
    (∀ w w1, setup c w0 = Outcome.ok () w → initialize_ c w = Outcome.ok () w1 →
      registered w1.tsm c.t1_) ∧
    (∀ fuel r, cycle_driver c fuel w0 = some r → r.world.S.get_time Tag.CURRENT ≤ c.t1_) ∧
    (∀ dt0 ws n dt w, cycle_driver_start c w0 = Outcome.ok dt0 ws →
      first_iterations c n dt0 ws = Outcome.ok dt w →
      w.S.get_time Tag.CURRENT ≤ c.t1_ ∧
      ∀ w1, loop_condition c dt w = Outcome.ok true w1 →
        (trial_world w1 dt).S.get_time Tag.NEXT ≤ c.t1_ ∧
        (loop_body c dt w1).world.S.get_time Tag.CURRENT ≤ c.t1_) ∧
    (∀ fuel w, cycle_driver c fuel w0 = some (Outcome.ok () w) →
      ¬ w.S.get_time Tag.DEFAULT < c.t1_ → w.S.get_time Tag.CURRENT = c.t1_) := by
  have h1 : 0 ≤ c.t1_ := h0.trans h01
  obtain ⟨hs1, hs2⟩ :=
    cycle_driver_start_before_end c registered w0 hnr h01 hreg hpause hkeep hsnap
  have hrun : ∀ fuel r, cycle_driver c fuel w0 = some r →
      r.world.S.time_current ≤ c.t1_ ∧
      ∀ w, r = Outcome.ok () w → w.S.time_next = w.S.time_current := by
    intro fuel r h
    unfold cycle_driver cycle_driver_with at h
    rcases hs : cycle_driver_start c w0 with ⟨dt, w1⟩ | ⟨e, w1⟩
    · rw [hs] at h
      dsimp only at h
      have hg : guarded_loop DEBUG_MODE c fuel dt w1 = main_loop c fuel dt w1 := rfl
      rw [hg] at h
      have hB := hs2 dt w1 hs
      rcases hm : main_loop c fuel dt w1 with _ | ⟨u, w2⟩ | ⟨e, w2⟩
      · rw [hm] at h
        cases h
      · rw [hm] at h
        simp only [Option.some.injEq] at h
        obtain ⟨m1, m2⟩ :=
          main_loop_before_end c registered h1 hkeep hsnap fuel dt w1 _ hB hm
        simp only [Outcome.world] at m1
        obtain ⟨g1, g2, -⟩ := steady_finalize c w2
        rw [← h]
        refine ⟨?_, ?_⟩
        · rw [g1]
          exact m1
        · intro w hw
          rw [hw] at g1 g2
          simp only [Outcome.world] at g1 g2
          rw [g1, g2]
          exact m2 w2 (by cases u; rfl)
      · rw [hm] at h
        simp only [Option.some.injEq] at h
        rw [← h]
        exact ⟨(main_loop_before_end c registered h1 hkeep hsnap fuel dt w1 _ hB hm).1,
          fun w hw => (by cases hw)⟩
    · rw [hs] at h hs1
      simp only [Option.some.injEq] at h
      rw [← h]
      exact ⟨hs1, fun w hw => (by cases hw)⟩
  refine ⟨?_, fun fuel r h => (hrun fuel r h).1, ?_, ?_⟩
  · intro w w1 _ hi
    rw [(initialize_state c w w1 hi).2]
    exact registered_tsm_end_time c registered hreg hpause _
  · intro dt0 ws n dt w hs hn
    have hB := first_iterations_before_end c registered h1 hkeep hsnap n dt0 dt ws w
      (hs2 dt0 ws hs) hn
    refine ⟨hB.2.1, ?_⟩
    intro w1 hc
    obtain ⟨b1, b2, -⟩ := loop_body_before_end c registered h1 hkeep hsnap dt w w1 hB hc
    exact ⟨b1, b2⟩
  · intro fuel w h hend
    obtain ⟨r1, r2⟩ := hrun fuel _ h
    have heq := r2 w rfl
    simp only [Outcome.world] at r1
    have hge : c.t1_ ≤ w.S.time_next := not_lt.mp hend
    show w.S.time_current = c.t1_
    rw [heq] at hge
    exact le_antisymm r1 hge

/-- Witness of C23: Scenario A with a process that prefers the step size 30
and a step-size manager that cuts the step at the registered instants; the
trial steps are 30, 30, 30 and 10, and the run ends at the end time 100. -/
theorem current_time_bounded_witness :
    snapped.restart_ = false ∧ 0 ≤ (world_with_dt 30).t0_ ∧
    (world_with_dt 30).t0_ ≤ snapped.t1_ ∧
    cycle_driver snapped 5 (world_with_dt 30) = some (Outcome.ok () snapped_end) ∧
    trial_sizes snapped_end.trace = [30, 30, 30, 10] ∧
    ¬ snapped_end.S.get_time Tag.DEFAULT < snapped.t1_ ∧
    snapped_end.S.get_time Tag.CURRENT = snapped.t1_ :=
  ⟨rfl, by decide!, by decide!, snapped_run, by decide!, by decide!,
    (current_time_bounded snapped (fun s e => e ∈ s) (world_with_dt 30) rfl (by decide!)
      (by decide!) (fun t s => List.mem_append_right s (List.mem_singleton.mpr rfl))
      (fun p hp => by cases hp) (fun _ _ _ _ _ he _ => he)
      (fun t dt af s e he hlt => snapping_snaps t dt af s e he hlt)).2.2.2 5 snapped_end
      snapped_run (by decide!)⟩

theorem has_nan_iff (x : Worker) :
    x.has_nan = true ↔ ∃ comp ∈ x.vec, ∃ e ∈ comp.entries, e.2 = none := by
  unfold Worker.has_nan
  simp only [List.any_eq_true, Option.isNone_iff_eq_none]

theorem enorm_components_returns (atol rtol : ℚ) (vec : List Component) (v0 : ℚ)
    (hnan : ∀ comp ∈ vec, ∀ e ∈ comp.entries, e.2 ≠ none) :
    ∃ v, PKPhysicalBDFBase.enorm_components atol rtol vec v0 = Except.ok v := by
  induction vec generalizing v0 with
  | nil => exact ⟨v0, rfl⟩
  | cons comp rest ih =>
    obtain ⟨r, hr, -⟩ := enorm_entries_max atol rtol comp.entries (0, 0)
      (hnan comp (List.mem_cons_self _ _))
    rw [PKPhysicalBDFBase.enorm_components, hr]
    exact ih _ fun c hc => hnan c (List.mem_cons_of_mem _ hc)

/-- A worker without NaN reaches the reduction and returns from it, whatever
the others bring. -/
theorem worker_returns (x : Worker) (others : List ℚ) (h : x.has_nan = false) :
    ∃ v, (PKPhysicalBDFBase.enorm x.pk x.t_next x.t_inter x.vec others).1 = Except.ok v := by
  have hnan : ∀ comp ∈ x.vec, ∀ e ∈ comp.entries, e.2 ≠ none := by
    intro comp hc e he hn
    have := (has_nan_iff x).mpr ⟨comp, hc, e, he, hn⟩
    rw [h] at this
    cases this
  obtain ⟨v, hv⟩ := enorm_components_returns
    (used_tolerances x.pk (x.t_next - x.t_inter)).1
    (used_tolerances x.pk (x.t_next - x.t_inter)).2 x.vec 0 hnan
  rw [enorm_run]
  simp only [enorm_with, hv]
  exact ⟨_, rfl⟩

/-- A worker with a NaN throws before the reduction, whatever the others
bring. -/
theorem worker_raises (x : Worker) (others : List ℚ) (h : x.has_nan = true) :
    (PKPhysicalBDFBase.enorm x.pk x.t_next x.t_inter x.vec others).1 =
      Except.error ⟨"Cut time step"⟩ := by
  rw [enorm_run]
  simp only [enorm_with, enorm_components_nan _ _ x.vec 0 ((has_nan_iff x).mp h)]

theorem reduction_values_length (workers : List Worker) :
    (reduction_values (workers.map Worker.buf)).length = workers.length ↔
      ∀ x ∈ workers, x.has_nan = false := by
  have hle : ∀ l : List Worker, (reduction_values (l.map Worker.buf)).length ≤ l.length := by
    intro l
    unfold reduction_values
    exact (List.length_filterMap_le _ _).trans (le_of_eq (List.length_map _ _))
  induction workers with
  | nil => simp [reduction_values]
  | cons x xs ih =>
    cases hx : x.has_nan
    · obtain ⟨v, hv⟩ := worker_returns x [] hx
      have hb : x.buf = Except.ok v := hv
      have hcons : reduction_values ((x :: xs).map Worker.buf) =
          v :: reduction_values (xs.map Worker.buf) := by
        unfold reduction_values
        rw [List.map_cons, List.filterMap_cons, hb]
      rw [hcons, List.length_cons, List.length_cons]
      constructor
      · intro h y hy
        rcases List.mem_cons.mp hy with rfl | hy
        · exact hx
        · exact ih.mp (Nat.succ_injective h) y hy
      · intro h
        rw [ih.mpr fun y hy => h y (List.mem_cons_of_mem _ hy)]
    · have hb : x.buf = Except.error ⟨"Cut time step"⟩ := worker_raises x [] hx
      have hcons : reduction_values ((x :: xs).map Worker.buf) =
          reduction_values (xs.map Worker.buf) := by
        unfold reduction_values
        rw [List.map_cons, List.filterMap_cons, hb]
      rw [hcons, List.length_cons]
      constructor
      · intro h
        have := hle xs
        omega
      · intro h
        have := h x (List.mem_cons_self _ _)
        rw [hx] at this
        cases this

/-- Counterexample to C22 as stated: two workers, the second with a NaN in
its du.  The second worker throws "Cut time step" without having taken part
in the reduction, whatever the first brings to it, and the first worker,
which has no NaN, has called MPI_Allreduce and waits there. -/
theorem enorm_nan_not_agreed_counterexample :
    (example_workers.map Worker.has_nan = [false, true]) ∧
    (example_workers.map Worker.buf = [Except.ok 1, Except.error ⟨"Cut time step"⟩]) ∧
    enorm_workers example_workers =
      [WorkerEnd.waiting, WorkerEnd.raised ⟨"Cut time step"⟩] := by
  refine ⟨by decide, ?_, by decide!⟩
  with_unfolding_all rfl

/-- C22 (amended): in PKPhysicalBDFBase::enorm a worker whose du holds a NaN
throws the step-cutting error "Cut time step" before the max-reduction,
whatever the other workers bring to it, so it takes no part in the
reduction.  When some worker holds a NaN, the workers with a NaN throw and
the workers without one wait in the reduction: the NaN is not agreed
globally.  Every worker takes part in the reduction and returns from it
exactly when no worker holds a NaN. -/
theorem enorm_workers_ends (workers : List Worker) :
    (∀ x ∈ workers, x.has_nan = true → x.buf = Except.error ⟨"Cut time step"⟩ ∧
      ∀ others, (PKPhysicalBDFBase.enorm x.pk x.t_next x.t_inter x.vec others).1 =
        Except.error ⟨"Cut time step"⟩) ∧
    ((∃ x ∈ workers, x.has_nan = true) →
      enorm_workers workers = workers.map fun x =>
        if x.has_nan then WorkerEnd.raised ⟨"Cut time step"⟩ else WorkerEnd.waiting) ∧
    ((∀ x ∈ workers, x.has_nan = false) →
      (enorm_workers workers).length = workers.length ∧
      ∀ e ∈ enorm_workers workers, ∃ v, e = WorkerEnd.returned v) := by
  refine ⟨fun x _ hx => ⟨worker_raises x [] hx, fun others => worker_raises x others hx⟩, ?_, ?_⟩
  · rintro ⟨x, hx, hnan⟩
    have hne : ¬ (reduction_values (workers.map Worker.buf)).length = workers.length := by
      rw [reduction_values_length]
      intro hall
      rw [hall x hx] at hnan
      cases hnan
    unfold enorm_workers
    simp only [hne, if_false, List.map_map]
    apply List.map_congr_left
    intro y _
    cases hy : y.has_nan
    · obtain ⟨v, hv⟩ := worker_returns y [] hy
      have hb : y.buf = Except.ok v := hv
      simp [Function.comp, hb]
    · have hb : y.buf = Except.error ⟨"Cut time step"⟩ := worker_raises y [] hy
      simp [Function.comp, hb]
  · intro hall
    have heq : (reduction_values (workers.map Worker.buf)).length = workers.length :=
      (reduction_values_length workers).mpr hall
    unfold enorm_workers
    simp only [heq, if_true, List.length_map, List.enum_length, true_and]
    intro e he
    obtain ⟨ix, hix, rfl⟩ := List.mem_map.mp he
    obtain ⟨i, y⟩ := ix
    rw [List.mk_mem_enum_iff_getElem?] at hix
    have hy : y ∈ workers := List.getElem?_mem hix
    obtain ⟨v, hv⟩ := worker_returns y
      ((reduction_values (workers.map Worker.buf)).eraseIdx i) (hall y hy)
    exact ⟨v, by simp only [hv]⟩

end Theorems

end ATS
